import Mathlib

/-!
Shallow embedding of tinyflow's `src/torch_session.cc` (the session-scoped
executor for a dataflow graph): variable states, the torch tensor backend
interface, executor setup phases (shape/type inference, storage planning,
closure compilation) and the session-level executor cache.

Machine-level details that the source delegates to external collaborators
(nnvm graph passes, the Lua torch backend) are modelled at their interface
boundary: passes are opaque function parameters (`PassEnv`), tensors and
storages are entries of an explicit heap (`Backend`), and Lua references
are heap indices.  Fatal `CHECK`/`LOG(FATAL)` failures and thrown C++
exceptions are modelled with `Except String`.
-/

namespace Tinyflow

/-- Device mask constant `kCPU`. -/
def kCPU : Nat := 1

/-- `TShape`: a tensor shape is a list of dimensions. -/
abbrev TShape := List Nat

/-- `TShape::Size()`: number of elements, the product of the dimensions. -/
def TShape.size (s : TShape) : Nat := List.prod s

/-- `TBlob`: descriptor of a tensor (shape, device and element type).
The data pointer is not modelled; claims here concern metadata only. -/
structure TBlob where
  shape : TShape := []
  dev_mask : Nat := kCPU
  dtype : Int := 0
deriving DecidableEq, Inhabited

/-- A torch storage object: a raw buffer of `size` elements on a device. -/
structure StorageObj where
  size : Nat
  dev : Nat
  dtype : Int
deriving DecidableEq, Inhabited

/-- A torch tensor object: it may view a storage (with a shape), or be
an empty tensor not yet bound to any storage. -/
structure TensorObj where
  dev : Nat
  dtype : Int
  binding : Option (Nat × TShape)
deriving DecidableEq, Inhabited

/-- The thread-local torch state (`TorchState`): a heap of tensor objects
and storage objects.  Lua references to tensors/storages are indices. -/
structure Backend where
  tensors : List TensorObj := []
  storages : List StorageObj := []
deriving DecidableEq, Inhabited

/-- `TorchState::NewTensorEmpty`: allocate a fresh unbound tensor. -/
def Backend.newTensorEmpty (b : Backend) (dev : Nat) (dtype : Int) : Nat × Backend :=
  (b.tensors.length, { b with tensors := b.tensors ++ [⟨dev, dtype, none⟩] })

/-- `TorchState::NewStorage`: allocate a fresh storage of `size` elements. -/
def Backend.newStorage (b : Backend) (size : Nat) (dev : Nat) (dtype : Int) : Nat × Backend :=
  (b.storages.length, { b with storages := b.storages ++ [⟨size, dev, dtype⟩] })

/-- `TorchState::ResetStorage`: rebind tensor `t` to view storage `st`
with the given shape.  The tensor handle itself is unchanged. -/
def Backend.resetStorage (b : Backend) (t : Nat) (st : Nat) (shape : TShape) : Backend :=
  match b.tensors.get? t with
  | some tobj => { b with tensors := b.tensors.set t { tobj with binding := some (st, shape) } }
  | none => b

/-- `TorchState::GetTBlob`: read back the descriptor of a tensor. -/
def Backend.getTBlob (b : Backend) (t : Nat) : TBlob :=
  match b.tensors.get? t with
  | some tobj =>
    match tobj.binding with
    | some (st, sh) =>
      match b.storages.get? st with
      | some sobj => ⟨sh, sobj.dev, sobj.dtype⟩
      | none => ⟨sh, tobj.dev, tobj.dtype⟩
    | none => ⟨[], tobj.dev, tobj.dtype⟩
  | none => ⟨[], 0, 0⟩

/-- `TorchState::NewTensorShared`: a tensor sharing the memory described
by a `TBlob` (used to feed placeholder values). -/
def Backend.newTensorShared (b : Backend) (value : TBlob) : Nat × Backend :=
  let (st, b1) := b.newStorage value.shape.size value.dev_mask value.dtype
  let (t, b2) := b1.newTensorEmpty value.dev_mask value.dtype
  (t, b2.resetStorage t st value.shape)

/-- `VarState`: per-named-variable persistent storage record.  `tensor`
is a Lua reference, nil (`none`) when the variable is uninitialized. -/
structure VarState where
  tensor : Option Nat := none
  blob : TBlob := {}
deriving DecidableEq, Inhabited

/-- `VarState::initialized()`: the tensor reference is not nil. -/
def VarState.inited (s : VarState) : Bool := s.tensor.isSome

/-- `VarState::ResetSpace(shape, dev_mask, dtype)`: reallocate the backing
storage only when the requested triple differs from the current blob (or
the tensor is nil); otherwise do nothing. -/
def VarState.ResetSpace (s : VarState) (shape : TShape) (dev_mask : Nat) (dtype : Int)
    (b : Backend) : VarState × Backend :=
  if s.tensor.isNone ∨ shape ≠ s.blob.shape ∨ dev_mask ≠ s.blob.dev_mask
      ∨ dtype ≠ s.blob.dtype then
    let (t, b1) := match s.tensor with
      | some t => (t, b)
      | none => b.newTensorEmpty dev_mask dtype
    let (st, b2) := b1.newStorage shape.size dev_mask dtype
    let b3 := b2.resetStorage t st shape
    ({ tensor := some t, blob := b3.getTBlob t }, b3)
  else (s, b)

/-- An entry of the indexed graph: output `index` of node `node_id`. -/
structure IEntry where
  node_id : Nat := 0
  index : Nat := 0
deriving DecidableEq, Inhabited

/-- A node of `nnvm::IndexedGraph`, at its interface boundary: whether it
is a variable, its operator name, its attribute name, its inputs and its
number of outputs. -/
structure INode where
  isVar : Bool := false
  op : String := ""
  name : String := ""
  inputs : List IEntry := []
  numOutputs : Nat := 1
deriving DecidableEq, Inhabited

/-- `nnvm::IndexedGraph`: nodes in topological order plus the list of
graph outputs. -/
structure IGraph where
  nodes : List INode := []
  outputs : List IEntry := []
deriving DecidableEq, Inhabited

/-- `IndexedGraph::num_nodes()`. -/
def IGraph.numNodes (g : IGraph) : Nat := g.nodes.length

/-- The node with a given id (total; out-of-range gives a default). -/
def IGraph.node (g : IGraph) (nid : Nat) : INode := g.nodes.getD nid default

/-- `IndexedGraph::entry_id(nid, index)`: linear slot index of one
node-output, per nnvm's cumulative-outputs layout. -/
def IGraph.entryId (g : IGraph) (nid : Nat) (index : Nat) : Nat :=
  List.sum ((g.nodes.take nid).map INode.numOutputs) + index

/-- `IndexedGraph::entry_id(e)` for a node entry. -/
def IGraph.entryIdOf (g : IGraph) (e : IEntry) : Nat := g.entryId e.node_id e.index

/-- `IndexedGraph::num_node_entries()`. -/
def IGraph.numEntries (g : IGraph) : Nat := List.sum (g.nodes.map INode.numOutputs)

/-- `IndexedGraph::input_nodes()`: ids of variable nodes, in order. -/
def IGraph.inputNodes (g : IGraph) : List Nat :=
  (List.range g.nodes.length).filter (fun nid => (g.node nid).isVar)

/-- One output entry of an `nnvm::Symbol`: node pointer identity, output
index, and version number. -/
structure SymNodeEntry where
  node : Nat := 0
  index : Nat := 0
  version : Nat := 0
deriving DecidableEq, Inhabited

/-- An `nnvm::Symbol`: its output entries (used for the cache identity
check) together with the indexed graph derived from them. -/
structure Symbol where
  outputs : List SymNodeEntry := []
  graph : IGraph := {}
deriving DecidableEq, Inhabited

/-- The identity check of `TorchSession::Run`: the cached executor's
symbol matches the requested one when the output lists have the same
length and agree at every position on node identity, output index and
version number. -/
def symOutputsMatch (a b : List SymNodeEntry) : Bool :=
  a.length == b.length &&
    (List.zip a b).all fun p =>
      p.1.node == p.2.node && p.1.index == p.2.index && p.1.version == p.2.version

/-- External graph passes and the operator registry, at their interface
boundary (spec §6): `infer` models `ApplyPasses {InferShape, InferType}`
(result vectors plus the two unresolved-entry counts), `planMemory`
models the `PlanMemory` pass (a storage id per graph entry), and
`computeCode` models the `FLuaComputeCode` operator attribute. -/
structure PassEnv where
  infer : IGraph → List TShape → List Int → (List TShape × List Int × Nat × Nat)
  planMemory : IGraph → List TShape → List Int → List Int
  computeCode : String → Option String

/-- Instrumentation: how many times each phase of the pipeline ran.
`inferRuns` counts invocations of the external shape/type inference
passes, `planRuns` invocations of the PlanMemory pass, `storageRuns`
entries into `SetupStorage`, `compileRuns` entries into `SetupOpExecs`
and `initRuns` entries into `TorchExecutor::Init`. -/
structure Trace where
  inferRuns : Nat := 0
  planRuns : Nat := 0
  storageRuns : Nat := 0
  compileRuns : Nat := 0
  initRuns : Nat := 0
deriving DecidableEq, Inhabited

/-- Mutable world threaded through the executor: the torch backend heap,
the heap of `VarState` records (a `VarState*` is an index into it), and
the instrumentation trace. -/
structure World where
  backend : Backend := {}
  varHeap : List VarState := []
  trace : Trace := {}
deriving DecidableEq, Inhabited

/-- `VarStateMap`: variable name to `VarState` pointer (heap index). -/
abbrev StateMap := List (String × Nat)

/-- A compiled per-node closure: the operator, its compute code, and the
input/output tensor references captured at compilation time. -/
structure OpClosure where
  op : String := ""
  code : String := ""
  ins : List (Option Nat) := []
  outs : List (Option Nat) := []
deriving DecidableEq, Inhabited

/-- `TorchExecutor`: one graph instance plus all cached setup results.
`node_shape`/`node_dtype` are `none` while the corresponding pointers
are null; `storage_id` is the PlanMemory result attribute. -/
structure TorchExecutor where
  symbol : Symbol := {}
  graph : IGraph := {}
  node_shape : Option (List TShape) := none
  node_dtype : Option (List Int) := none
  storage_id : Option (List Int) := none
  dev_mask : Nat := kCPU
  placeholder_nids : List Nat := []
  assign_var_nids : List Nat := []
  read_var_nids : List Nat := []
  node_states : List (Option Nat) := []
  data_entry : List (Option Nat) := []
  data_entry_is_var : List Bool := []
  storage_pool : List Nat := []
  op_execs : List (Option OpClosure) := []
  outputs_t : List Nat := []
  output_blobs : List TBlob := []
  execId : Nat := 0
deriving DecidableEq, Inhabited

/-- Increment slot `i` of a counter vector (`++vec[i]`). -/
def incAt (l : List Nat) (i : Nat) : List Nat := l.set i (l.getD i 0 + 1)

/-- Accumulator of the reverse-topological scan in `TorchExecutor::Init`. -/
structure InitAcc where
  read_count : List Nat := []
  assign_count : List Nat := []
  placeholder_nids : List Nat := []
  assign_var_nids : List Nat := []
  read_var_nids : List Nat := []
  node_states : List (Option Nat) := []
  states : StateMap := []
  heap : List VarState := []
deriving DecidableEq, Inhabited

/-- One step of the `Init` scan at node `nid` (the loop body of
`torch_session.cc` lines 172-200). -/
def initStep (g : IGraph) (acc : InitAcc) (nid : Nat) : Except String InitAcc :=
  let node := g.node nid
  if node.isVar then
    let stPair : StateMap × List VarState :=
      match List.lookup node.name acc.states with
      | some _ => (acc.states, acc.heap)
      | none => (acc.states ++ [(node.name, acc.heap.length)], acc.heap ++ [{}])
    Except.ok { acc with
      states := stPair.1
      heap := stPair.2
      node_states := acc.node_states.set nid (List.lookup node.name stPair.1)
      read_var_nids :=
        if acc.read_count.getD nid 0 ≠ 0 then acc.read_var_nids ++ [nid]
        else acc.read_var_nids
      assign_var_nids :=
        if acc.assign_count.getD nid 0 ≠ 0 then acc.assign_var_nids ++ [nid]
        else acc.assign_var_nids }
  else if node.op == "placeholder" then
    Except.ok { acc with placeholder_nids := acc.placeholder_nids ++ [nid] }
  else if node.op == "assign" then
    if node.inputs.length ≠ 2 then
      Except.error "Check failed: inode.inputs.size() == 2"
    else
      Except.ok { acc with
        read_count := incAt acc.read_count (node.inputs.getD 0 default).node_id
        assign_count := incAt acc.assign_count (node.inputs.getD 0 default).node_id }
  else
    Except.ok { acc with
      read_count := node.inputs.foldl (fun rc e => incAt rc e.node_id) acc.read_count }

/-- The node ids `n-1, n-2, ..., 0`: the traversal order of `Init`. -/
def revRange (n : Nat) : List Nat := (List.range n).reverse

/-- `TorchExecutor::Init(symbol, states)`: single reverse-topological
scan classifying nodes, lazily creating `VarState` records in the shared
map.  Returns the fresh executor, the updated state map and world. -/
def TorchExecutor.Init (execId : Nat) (sym : Symbol) (states : StateMap) (w : World) :
    Except String (TorchExecutor × StateMap × World) := do
  let g := sym.graph
  let w := { w with trace := { w.trace with initRuns := w.trace.initRuns + 1 } }
  let acc0 : InitAcc :=
    { read_count := List.replicate g.numNodes 0
      assign_count := List.replicate g.numNodes 0
      node_states := List.replicate g.numNodes none
      states := states
      heap := w.varHeap }
  let acc ← (revRange g.numNodes).foldlM (initStep g) acc0
  Except.ok
    ({ symbol := sym
       graph := g
       placeholder_nids := acc.placeholder_nids
       assign_var_nids := acc.assign_var_nids
       read_var_nids := acc.read_var_nids
       node_states := acc.node_states
       execId := execId },
     acc.states,
     { w with varHeap := acc.heap })

/-- `std::unordered_map::at`: throws (with a message that does not name
the key) when the key is absent. -/
def mapAt (inputs : List (String × TBlob)) (key : String) : Except String TBlob :=
  match List.lookup key inputs with
  | some v => Except.ok v
  | none => Except.error "unordered_map at: key not found"

/-- Bounds-checked `std::vector::at`. -/
def vecAt (l : List α) (i : Nat) : Except String α :=
  match l.get? i with
  | some x => Except.ok x
  | none => Except.error "vector at: index out of range"

/-- The read-variable staleness scan of `SetupShapeDType` (lines
251-262): walk `read_var_nids`, failing fatally on a null state or an
uninitialized variable, and stop with `true` at the first variable whose
live blob disagrees with the cached inference result at index `nid`. -/
def checkReadVars (e : TorchExecutor) (heap : List VarState)
    (ns : List TShape) (nd : List Int) : List Nat → Except String Bool
  | [] => Except.ok false
  | nid :: rest =>
    match e.node_states.getD nid none with
    | none => Except.error "Check failed: state != nullptr"
    | some sid =>
      if (heap.getD sid default).tensor.isNone then
        Except.error "Attempt to execute a graph un-initialized Variable"
      else do
        let sh ← vecAt ns nid
        if sh ≠ (heap.getD sid default).blob.shape then Except.ok true
        else do
          let dt ← vecAt nd nid
          if dt ≠ (heap.getD sid default).blob.dtype then Except.ok true
          else checkReadVars e heap ns nd rest

/-- The placeholder staleness scan of `SetupShapeDType` (lines 265-277):
walk `placeholder_nids`, failing fatally (with a fixed message) when a
placeholder value is missing, and stop with `true` at the first
placeholder whose supplied shape/dtype disagrees with the cached
inference result at the placeholder's entry id. -/
def checkPlaceholders (g : IGraph) (inputs : List (String × TBlob))
    (ns : List TShape) (nd : List Int) : List Nat → Except String Bool
  | [] => Except.ok false
  | nid :: rest =>
    match List.lookup (g.node nid).name inputs with
    | none => Except.error "Not enought placeholder argument to feed_dict"
    | some value => do
      let sh ← vecAt ns (g.entryId nid 0)
      if sh ≠ value.shape then Except.ok true
      else do
        let dt ← vecAt nd (g.entryId nid 0)
        if dt ≠ value.dtype then Except.ok true
        else checkPlaceholders g inputs ns nd rest

/-- Seed the fresh shape/dtype vectors from every read-variable's current
blob (lines 285-288).  Dereferencing a null state pointer is modelled as
a fatal error. -/
def seedReadVars (e : TorchExecutor) (heap : List VarState) (g : IGraph) :
    List Nat → List TShape × List Int → Except String (List TShape × List Int)
  | [], sd => Except.ok sd
  | nid :: rest, sd =>
    match e.node_states.getD nid none with
    | none => Except.error "segfault: null VarState dereference"
    | some sid =>
      let st := heap.getD sid default
      seedReadVars e heap g rest
        (sd.1.set (g.entryId nid 0) st.blob.shape,
         sd.2.set (g.entryId nid 0) st.blob.dtype)

/-- Seed the fresh shape/dtype vectors from every placeholder's supplied
input (lines 289-294); `inputs.at(key)` throws when the key is absent. -/
def seedPlaceholders (g : IGraph) (inputs : List (String × TBlob)) :
    List Nat → List TShape × List Int → Except String (List TShape × List Int)
  | [], sd => Except.ok sd
  | nid :: rest, sd => do
    let value ← mapAt inputs (g.node nid).name
    seedPlaceholders g inputs rest
      (sd.1.set (g.entryId nid 0) value.shape,
       sd.2.set (g.entryId nid 0) value.dtype)

/-- After a full inference, resize every assigned variable's space to the
freshly inferred shape/dtype at its entry id (lines 305-310). -/
def resizeAssignVars (e : TorchExecutor) (g : IGraph) (ns : List TShape) (nd : List Int) :
    List Nat → List VarState → Backend → Except String (List VarState × Backend)
  | [], heap, b => Except.ok (heap, b)
  | nid :: rest, heap, b =>
    match e.node_states.getD nid none with
    | none => Except.error "segfault: null VarState dereference"
    | some sid => do
      let sh ← vecAt ns (g.entryId nid 0)
      let dt ← vecAt nd (g.entryId nid 0)
      let pr := (heap.getD sid default).ResetSpace sh e.dev_mask dt b
      resizeAssignVars e g ns nd rest (heap.set sid pr.1) pr.2

/-- The re-inference tail of `SetupShapeDType` (lines 281-310): seed the
fresh shape/dtype vectors, invoke the external passes, require zero
unresolved entries, install the cached vectors, resize assigned
variables. -/
def TorchExecutor.reinfer (env : PassEnv) (inputs : List (String × TBlob))
    (e : TorchExecutor) (w : World) : Except String (TorchExecutor × World × Bool) := do
  let g := e.graph
  let seed0 : List TShape × List Int :=
    (List.replicate g.numEntries ([] : TShape), List.replicate g.numEntries (-1 : Int))
  let seed1 ← seedReadVars e w.varHeap g e.read_var_nids seed0
  let seed2 ← seedPlaceholders g inputs e.placeholder_nids seed1
  let w := { w with trace := { w.trace with inferRuns := w.trace.inferRuns + 1 } }
  let res := env.infer g seed2.1 seed2.2
  if res.2.2.1 ≠ 0 then
    Except.error "Shape information in the graph is in-complete"
  else if res.2.2.2 ≠ 0 then
    Except.error "Type information in the graph is in-complete"
  else do
    let e := { e with node_shape := some res.1, node_dtype := some res.2.1 }
    let hb ← resizeAssignVars e g res.1 res.2.1 e.assign_var_nids w.varHeap w.backend
    Except.ok (e, { w with varHeap := hb.1, backend := hb.2 }, true)

/-- `TorchExecutor::SetupShapeDType(inputs, &need_redo_infer)` (lines
241-311): decide whether re-inference is needed; when it is, run the
re-inference tail. -/
def TorchExecutor.SetupShapeDType (env : PassEnv) (inputs : List (String × TBlob))
    (e : TorchExecutor) (w : World) : Except String (TorchExecutor × World × Bool) := do
  let g := e.graph
  let need0 := e.node_shape.isNone
  let need1 ← if need0 then pure true else
    if e.node_dtype.isNone then Except.error "Check failed: node_dtype_ != nullptr"
    else
      checkReadVars e w.varHeap (e.node_shape.getD [])
        (e.node_dtype.getD []) e.read_var_nids
  let need2 ← if need1 then pure true else
    checkPlaceholders g inputs (e.node_shape.getD [])
      (e.node_dtype.getD []) e.placeholder_nids
  if need2 = false then
    return (e, w, false)
  else
    e.reinfer env inputs w

/-- `Graph::GetAttr`: fetch an attribute, fatal when absent. -/
def getAttr (a : Option α) (name : String) : Except String α :=
  match a with
  | some v => Except.ok v
  | none => Except.error ("Cannot find attribute " ++ name ++ " in the graph")

/-- First-run allocation of one empty tensor per graph entry (lines
325-327). -/
def allocEntries (dev : Nat) : Nat → Backend → List (Option Nat) × Backend
  | 0, b => ([], b)
  | n + 1, b =>
    let (t, b1) := b.newTensorEmpty dev 0
    let (rest, b2) := allocEntries dev n b1
    (some t :: rest, b2)

/-- Alias every input (variable) node's entry slot directly to its
`VarState` tensor and mark it variable-backed (lines 328-332). -/
def aliasInputNodes (e : TorchExecutor) (g : IGraph) (heap : List VarState) :
    List Nat → List (Option Nat) → List Bool →
    Except String (List (Option Nat) × List Bool)
  | [], de, dv => Except.ok (de, dv)
  | nid :: rest, de, dv =>
    match e.node_states.getD nid none with
    | none => Except.error "Check failed: node_states_[nid] != nullptr"
    | some sid =>
      aliasInputNodes e g heap rest
        (de.set (g.entryId nid 0) (heap.getD sid default).tensor)
        (dv.set (g.entryId nid 0) true)

/-- The pool-size accumulation loop (lines 336-347): for every
non-variable-backed entry, fold its byte requirement into the maximum
for its storage id, growing the size vector as needed; a negative
storage id is fatal. -/
def poolSizesLoop (vshape : List TShape) (vstorage : List Int) (dv : List Bool) :
    List Nat → List Nat → Except String (List Nat)
  | [], acc => Except.ok acc
  | i :: rest, acc =>
    if dv.getD i false then poolSizesLoop vshape vstorage dv rest acc
    else
      let sidI := vstorage.getD i 0
      if sidI < 0 then Except.error "Do not support runtime shape op yet"
      else
        let sid := sidI.toNat
        let size := (vshape.getD i []).size
        let acc2 := if acc.length ≤ sid then acc ++ List.replicate (sid + 1 - acc.length) 0
          else acc
        poolSizesLoop vshape vstorage dv rest (acc2.set sid (max (acc2.getD sid 0) size))

/-- Allocate one pool buffer per pool id, sized per the size vector
(lines 348-352). -/
def allocPool (dev : Nat) : List Nat → Backend → List Nat × Backend
  | [], b => ([], b)
  | size :: rest, b =>
    let (st, b1) := b.newStorage size dev 0
    let (pool, b2) := allocPool dev rest b1
    (st :: pool, b2)

/-- Bind every non-variable-backed entry as a view into its assigned
pool buffer at its current shape (lines 353-358); `storage_pool_.at` is
bounds-checked. -/
def bindEntriesLoop (vshape : List TShape) (vstorage : List Int) (dv : List Bool)
    (de : List (Option Nat)) (pool : List Nat) :
    List Nat → Backend → Except String Backend
  | [], b => Except.ok b
  | i :: rest, b =>
    if dv.getD i false then bindEntriesLoop vshape vstorage dv de pool rest b
    else
      let sidI := vstorage.getD i 0
      if sidI < 0 then Except.error "vector at: index out of range"
      else do
        let st ← vecAt pool sidI.toNat
        match de.getD i none with
        | none => Except.error "lua error: attempt to use a nil tensor"
        | some t => bindEntriesLoop vshape vstorage dv de pool rest (b.resetStorage t st (vshape.getD i []))

/-- Allocate a dedicated CPU output buffer per declared graph output,
independent of the pool (lines 360-366). -/
def allocOutputs (g : IGraph) (vshape : List TShape) :
    List IEntry → Backend → List Nat × Backend
  | [], b => ([], b)
  | oe :: rest, b =>
    let eid := g.entryIdOf oe
    let (t, b1) := b.newTensorEmpty kCPU 0
    let (st, b2) := b1.newStorage (vshape.getD eid []).size kCPU 0
    let b3 := b2.resetStorage t st (vshape.getD eid [])
    let (outs, b4) := allocOutputs g vshape rest b3
    (t :: outs, b4)

/-- `TorchExecutor::SetupStorage()` (lines 313-367): run PlanMemory once
(only when the pool has never been built), allocate and permanently
alias the graph-entry tensors on first run, recompute each pool id's
maximum byte size, recreate the pool buffers, re-bind every
non-variable entry into its pool buffer, and refresh output buffers. -/
def TorchExecutor.SetupStorage (env : PassEnv) (e : TorchExecutor) (w : World) :
    Except String (TorchExecutor × World) := do
  let g := e.graph
  let w := { w with trace := { w.trace with storageRuns := w.trace.storageRuns + 1 } }
  let planned := env.planMemory g (e.node_shape.getD []) (e.node_dtype.getD [])
  let (e, w) :=
    if e.storage_pool.length == 0 then
      ({ e with storage_id := some planned },
       { w with trace := { w.trace with planRuns := w.trace.planRuns + 1 } })
    else (e, w)
  let vstorage ← getAttr e.storage_id "storage_id"
  let vshape ← getAttr e.node_shape "shape"
  let (e, w) ←
    if e.data_entry.length == 0 then do
      let (de0, b1) := allocEntries e.dev_mask g.numEntries w.backend
      let dv0 := List.replicate g.numEntries false
      let dedv ← aliasInputNodes e g w.varHeap g.inputNodes de0 dv0
      Except.ok ({ e with data_entry := dedv.1, data_entry_is_var := dedv.2 },
        { w with backend := b1 })
    else pure (e, w)
  let psizes ← poolSizesLoop vshape vstorage e.data_entry_is_var
    (List.range vshape.length) []
  let (pool, b2) := allocPool e.dev_mask psizes w.backend
  let e := { e with storage_pool := pool }
  let b3 ← bindEntriesLoop vshape vstorage e.data_entry_is_var e.data_entry pool
    (List.range e.data_entry.length) b2
  let (outs, b4) := allocOutputs g vshape g.outputs b3
  Except.ok ({ e with outputs_t := outs }, { w with backend := b4 })

/-- The closure-compilation loop of `SetupOpExecs` (lines 383-412): skip
variable nodes; for every operation node capture its input/output tensor
references and look up its registered compute code, which is fatal when
missing. -/
def compileLoop (env : PassEnv) (e : TorchExecutor) (g : IGraph) :
    List Nat → List (Option OpClosure) → Except String (List (Option OpClosure))
  | [], acc => Except.ok acc
  | nid :: rest, acc =>
    let node := g.node nid
    if node.isVar then compileLoop env e g rest acc
    else
      match env.computeCode node.op with
      | none =>
        Except.error ("Function FLuaCompute is not registered on " ++ node.op)
      | some code =>
        let ins := node.inputs.map fun ie => e.data_entry.getD (g.entryIdOf ie) none
        let outs := (List.range node.numOutputs).map fun k =>
          e.data_entry.getD (g.entryId nid k) none
        compileLoop env e g rest (acc.set nid (some ⟨node.op, code, ins, outs⟩))

/-- `TorchExecutor::SetupOpExecs()` (lines 369-413): compile one compute
closure per operation node, binding the concrete buffer references
captured at this moment. -/
def TorchExecutor.SetupOpExecs (env : PassEnv) (e : TorchExecutor) (w : World) :
    Except String (TorchExecutor × World) := do
  let g := e.graph
  let w := { w with trace := { w.trace with compileRuns := w.trace.compileRuns + 1 } }
  let oe ← compileLoop env e g (List.range g.numNodes)
    (List.replicate g.numNodes none)
  Except.ok ({ e with op_execs := oe }, w)

/-- The placeholder copy-in loop at the end of `Setup` (lines 228-238):
copy every supplied placeholder value into its graph-entry slot by a
backend-level value copy (`inputs.at` throws on a missing key; copying
into a nil tensor is a backend error). -/
def copyInputs (g : IGraph) (inputs : List (String × TBlob)) (de : List (Option Nat)) :
    List Nat → Backend → Except String Backend
  | [], b => Except.ok b
  | nid :: rest, b => do
    let value ← mapAt inputs (g.node nid).name
    let (_, b1) := b.newTensorShared value
    match de.getD (g.entryId nid 0) none with
    | none => Except.error "lua error: attempt to use a nil tensor"
    | some _ => copyInputs g inputs de rest b1

/-- `TorchExecutor::Setup(inputs)` (lines 223-239): conditional
re-inference, conditional storage planning, one-time closure
compilation, then placeholder copy-in. -/
def TorchExecutor.Setup (env : PassEnv) (inputs : List (String × TBlob))
    (e : TorchExecutor) (w : World) : Except String (TorchExecutor × World) := do
  let r ← e.SetupShapeDType env inputs w
  let (e, w) := (r.1, r.2.1)
  let (e, w) ← if r.2.2 then TorchExecutor.SetupStorage env e w else pure (e, w)
  let (e, w) ← if e.op_execs.length == 0 then TorchExecutor.SetupOpExecs env e w
    else pure (e, w)
  let b ← copyInputs e.graph inputs e.data_entry e.placeholder_nids w.backend
  Except.ok (e, { w with backend := b })

/-- The output copy loop of `TorchExecutor::Run` (lines 209-219): copy
each declared output's entry into its dedicated output buffer and read
back the blob. -/
def copyOutputs (g : IGraph) (de : List (Option Nat)) (outs : List Nat) (b : Backend) :
    List Nat → Except String (List TBlob)
  | [] => Except.ok []
  | i :: rest => do
    let eid := g.entryIdOf (g.outputs.getD i default)
    match de.getD eid none with
    | none => Except.error "lua error: attempt to use a nil tensor"
    | some _ => do
      let blob := b.getTBlob (outs.getD i 0)
      let restBlobs ← copyOutputs g de outs b rest
      Except.ok (blob :: restBlobs)

/-- `TorchExecutor::Run(inputs)` (lines 203-221): `Setup`, sequential
closure execution (compute itself is opaque and leaves the modelled
metadata unchanged), then output copy-out. -/
def TorchExecutor.Run (env : PassEnv) (inputs : List (String × TBlob))
    (e : TorchExecutor) (w : World) : Except String (TorchExecutor × World × List TBlob) := do
  let (e, w) ← e.Setup env inputs w
  let blobs ← copyOutputs e.graph e.data_entry e.outputs_t w.backend
    (List.range e.outputs_t.length)
  Except.ok ({ e with output_blobs := blobs }, w, blobs)

/-- An entry of the session's executor cache. -/
structure ExecEntry where
  exec : TorchExecutor := {}
  use_count : Nat := 0
deriving DecidableEq, Inhabited

/-- `TorchSession`: the shared variable-state map, the executor cache
keyed by symbol pointer identity, plus the threaded world and a counter
handing out executor identities. -/
structure SessionState where
  world : World := {}
  states : StateMap := []
  cached : List (Nat × ExecEntry) := []
  nextExecId : Nat := 0
deriving DecidableEq, Inhabited

/-- `TorchSession::Run(sym, inputs)` (lines 127-158): on a structural
match reuse the cached executor (bumping its use counter); otherwise
silently evict the whole cache, build and run a fresh executor bound to
the shared variable-state map, and cache it. -/
def TorchSession.Run (env : PassEnv) (symPtr : Nat) (sym : Symbol)
    (inputs : List (String × TBlob)) (s : SessionState) :
    Except String (SessionState × List TBlob) :=
  let runMiss : Except String (SessionState × List TBlob) := do
    let r ← TorchExecutor.Init s.nextExecId sym s.states s.world
    let (e2, w2, outs) ← r.1.Run env inputs r.2.2
    let s2 : SessionState :=
      { world := w2
        states := r.2.1
        cached := [(symPtr, ⟨e2, 0⟩)]
        nextExecId := s.nextExecId + 1 }
    Except.ok (s2, outs)
  match List.lookup symPtr s.cached with
  | some entry =>
    if symOutputsMatch entry.exec.symbol.outputs sym.outputs then do
      let (e2, w2, outs) ← entry.exec.Run env inputs s.world
      let newCached := s.cached.map fun p =>
        if p.1 == symPtr then (p.1, (⟨e2, entry.use_count + 1⟩ : ExecEntry)) else p
      Except.ok ({ s with world := w2, cached := newCached }, outs)
    else runMiss
  | none => runMiss

/-! ### A concrete pass environment (test double)

The inference double propagates known shapes/dtypes through each
operation node by unification (mirroring how nnvm's `InferShape` and
`InferType` solve the same-shape constraints of tinyflow's registered
ops), reports the number of entries left unknown, and the planning
double assigns each entry its own storage id.  These are used to build
the concrete scenarios for witnesses and counterexamples. -/

/-- All entry ids an operation node constrains: its inputs then its own
outputs. -/
def nodeEntryIds (g : IGraph) (nid : Nat) : List Nat :=
  (g.node nid).inputs.map g.entryIdOf ++
    (List.range (g.node nid).numOutputs).map (g.entryId nid)

/-- Unify the entries of one node: the first known value among them is
written to every unknown one. -/
def unifyNode [DecidableEq α] (unknown : α) (vals : List α) (ids : List Nat) : List α :=
  match (ids.map (fun i => vals.getD i unknown)).filter (· ≠ unknown) |>.head? with
  | none => vals
  | some known =>
    ids.foldl (fun vs i => if vs.getD i unknown = unknown then vs.set i known else vs) vals

/-- One forward sweep of unification over all operation nodes. -/
def unifyRound [DecidableEq α] (g : IGraph) (unknown : α) (vals : List α) : List α :=
  (List.range g.numNodes).foldl
    (fun vs nid => if (g.node nid).isVar then vs else unifyNode unknown vs (nodeEntryIds g nid))
    vals

/-- Iterated unification sweeps. -/
def unifyIter [DecidableEq α] (g : IGraph) (unknown : α) :
    Nat → List α → List α
  | 0, vals => vals
  | n + 1, vals => unifyIter g unknown n (unifyRound g unknown vals)

/-- The concrete pass environment used in witness scenarios. -/
def env0 : PassEnv where
  infer := fun g shapes dtypes =>
    let s2 := unifyIter g ([] : TShape) g.numNodes shapes
    let d2 := unifyIter g (-1 : Int) g.numNodes dtypes
    (s2, d2, s2.countP (· = []), d2.countP (· = -1))
  planMemory := fun g _ _ => (List.range g.numEntries).map Int.ofNat
  computeCode := fun op => some ("compute " ++ op)

/-- A placeholder node fixture. -/
def phNode (nm : String) : INode := { op := "placeholder", name := nm }

/-- A variable node fixture. -/
def varNode (nm : String) : INode := { isVar := true, name := nm }

/-- An operation node fixture. -/
def opNode (opName : String) (ins : List IEntry) : INode := { op := opName, inputs := ins }

/-- Graph `neg(placeholder x)`. -/
def gPh : IGraph :=
  { nodes := [phNode "x", opNode "neg" [⟨0, 0⟩]], outputs := [⟨1, 0⟩] }

/-- Symbol for `gPh` (node pointer identities 101 and 102). -/
def symPh : Symbol := { outputs := [⟨102, 0, 0⟩], graph := gPh }

/-- Graph `assign(v, w)` over two variables. -/
def gAsn : IGraph :=
  { nodes := [varNode "v", varNode "w", opNode "assign" [⟨0, 0⟩, ⟨1, 0⟩]]
    outputs := [⟨2, 0⟩] }

/-- Symbol for `gAsn`. -/
def symAsn : Symbol := { outputs := [⟨203, 0, 0⟩], graph := gAsn }

/-- Graph `neg(v)`, reading variable `v`. -/
def gRead : IGraph :=
  { nodes := [varNode "v", opNode "neg" [⟨0, 0⟩]], outputs := [⟨1, 0⟩] }

/-- Symbol for `gRead`. -/
def symRead : Symbol := { outputs := [⟨302, 0, 0⟩], graph := gRead }

/-- Graph `assign(v, placeholder x)`. -/
def gAsnPh : IGraph :=
  { nodes := [phNode "x", varNode "v", opNode "assign" [⟨1, 0⟩, ⟨0, 0⟩]]
    outputs := [⟨2, 0⟩] }

/-- Symbol for `gAsnPh`. -/
def symAsnPh : Symbol := { outputs := [⟨403, 0, 0⟩], graph := gAsnPh }

/-- A 2x2 float input blob. -/
def blob22 : TBlob := { shape := [2, 2] }

/-- Project the session state out of a `TorchSession.Run` result (for
building concrete multi-call scenarios). -/
def afterOk (r : Except String (SessionState × List TBlob)) : SessionState :=
  match r with
  | Except.ok (s, _) => s
  | Except.error _ => default

/-- The executor currently held in the session's cache. -/
def execOf (s : SessionState) : TorchExecutor :=
  match s.cached with
  | (_, en) :: _ => en.exec
  | [] => default

/-! ### Lemmas about `VarState.ResetSpace` -/

/-- When the variable is initialized and the requested triple equals the
current blob, `ResetSpace` is the identity on both the state and the
backend. -/
theorem resetSpace_skip (s : VarState) (sh : TShape) (dv : Nat) (dt : Int) (b : Backend)
    (h1 : s.tensor.isSome = true) (h2 : s.blob.shape = sh)
    (h3 : s.blob.dev_mask = dv) (h4 : s.blob.dtype = dt) :
    s.ResetSpace sh dv dt b = (s, b) := by
  rcases Option.isSome_iff_exists.mp h1 with ⟨t, ht⟩
  simp [VarState.ResetSpace, ht, ← h2, ← h3, ← h4]


/-- Explicit form of `ResetSpace` when the tensor is nil: a fresh tensor
and a fresh storage are allocated and bound. -/
theorem resetSpace_eq_of_none (s : VarState) (sh : TShape) (dv : Nat) (dt : Int)
    (b : Backend) (ht : s.tensor = none) :
    s.ResetSpace sh dv dt b =
      ({ tensor := some b.tensors.length
         blob := { shape := sh, dev_mask := dv, dtype := dt } },
       { tensors := (b.tensors ++ [(⟨dv, dt, none⟩ : TensorObj)]).set b.tensors.length
           (⟨dv, dt, some (b.storages.length, sh)⟩ : TensorObj)
         storages := b.storages ++ [(⟨sh.size, dv, dt⟩ : StorageObj)] }) := by
  have hcond : s.tensor.isNone = true ∨ sh ≠ s.blob.shape ∨ dv ≠ s.blob.dev_mask
      ∨ dt ≠ s.blob.dtype := Or.inl (by simp [ht])
  rw [VarState.ResetSpace, if_pos hcond, ht]
  have hget : (b.tensors ++ [(⟨dv, dt, none⟩ : TensorObj)])[b.tensors.length]?
      = some ⟨dv, dt, none⟩ := by simp
  have hlen : b.tensors.length < (b.tensors ++ [(⟨dv, dt, none⟩ : TensorObj)]).length := by
    simp
  have hset : ((b.tensors ++ [(⟨dv, dt, none⟩ : TensorObj)]).set b.tensors.length
      (⟨dv, dt, some (b.storages.length, sh)⟩ : TensorObj))[b.tensors.length]?
      = some ⟨dv, dt, some (b.storages.length, sh)⟩ :=
    List.getElem?_set_eq_of_lt _ hlen
  have hst : (b.storages ++ [(⟨sh.size, dv, dt⟩ : StorageObj)])[b.storages.length]?
      = some ⟨sh.size, dv, dt⟩ := by simp
  simp [Backend.newTensorEmpty, Backend.newStorage, Backend.resetStorage,
    Backend.getTBlob, List.get?_eq_getElem?, hget, hset, hst]

/-- Explicit form of `ResetSpace` when the tensor is set and the triple
differs: the same tensor is re-bound onto one fresh storage. -/
theorem resetSpace_eq_of_some (s : VarState) (sh : TShape) (dv : Nat) (dt : Int)
    (b : Backend) (t : Nat) (ht : s.tensor = some t) (hlt : t < b.tensors.length)
    (hcond : sh ≠ s.blob.shape ∨ dv ≠ s.blob.dev_mask ∨ dt ≠ s.blob.dtype) :
    s.ResetSpace sh dv dt b =
      ({ tensor := some t
         blob := { shape := sh, dev_mask := dv, dtype := dt } },
       { tensors := b.tensors.set t
           (⟨(b.tensors.getD t default).dev, (b.tensors.getD t default).dtype,
             some (b.storages.length, sh)⟩ : TensorObj)
         storages := b.storages ++ [(⟨sh.size, dv, dt⟩ : StorageObj)] }) := by
  have hcond2 : s.tensor.isNone = true ∨ sh ≠ s.blob.shape ∨ dv ≠ s.blob.dev_mask
      ∨ dt ≠ s.blob.dtype := Or.inr hcond
  rw [VarState.ResetSpace, if_pos hcond2, ht]
  generalize hD : b.tensors.getD t default = tobj
  have hget : b.tensors[t]? = some tobj := by
    rw [← hD]
    rw [List.getElem?_eq_getElem hlt]
    simp [List.getD_eq_getElem?_getD, List.getElem?_eq_getElem hlt]
  have hset : (b.tensors.set t
      (⟨tobj.dev, tobj.dtype, some (b.storages.length, sh)⟩ : TensorObj))[t]?
      = some ⟨tobj.dev, tobj.dtype, some (b.storages.length, sh)⟩ :=
    List.getElem?_set_eq_of_lt _ (by simpa using hlt)
  have hst : (b.storages ++ [(⟨sh.size, dv, dt⟩ : StorageObj)])[b.storages.length]?
      = some ⟨sh.size, dv, dt⟩ := by simp
  simp [Backend.newStorage, Backend.resetStorage, Backend.getTBlob,
    List.get?_eq_getElem?, hget, hset, hst]

/-- When re-space is demanded (nil tensor or a differing triple),
`ResetSpace` allocates exactly one fresh storage of the requested
element count/device/dtype, and the resulting blob records exactly the
requested triple. -/
theorem resetSpace_realloc (s : VarState) (sh : TShape) (dv : Nat) (dt : Int) (b : Backend)
    (hcond : s.tensor = none ∨ sh ≠ s.blob.shape ∨ dv ≠ s.blob.dev_mask
      ∨ dt ≠ s.blob.dtype)
    (hv : ∀ t, s.tensor = some t → t < b.tensors.length) :
    (s.ResetSpace sh dv dt b).2.storages.length = b.storages.length + 1 ∧
    (s.ResetSpace sh dv dt b).2.storages.get? b.storages.length
      = some ⟨sh.size, dv, dt⟩ ∧
    (s.ResetSpace sh dv dt b).1.blob = ⟨sh, dv, dt⟩ ∧
    (s.ResetSpace sh dv dt b).1.tensor.isSome = true := by
  cases ht : s.tensor with
  | none =>
    rw [resetSpace_eq_of_none s sh dv dt b ht]
    refine ⟨by simp, by simp, rfl, rfl⟩
  | some t =>
    have hc : sh ≠ s.blob.shape ∨ dv ≠ s.blob.dev_mask ∨ dt ≠ s.blob.dtype := by
      rcases hcond with h | h
      · rw [ht] at h; cases h
      · exact h
    rw [resetSpace_eq_of_some s sh dv dt b t ht (hv t ht) hc]
    refine ⟨by simp, by simp, rfl, rfl⟩

/-- Once the tensor handle is set, `ResetSpace` never replaces it, and
never allocates a new tensor object. -/
theorem resetSpace_keeps_tensor (s : VarState) (sh : TShape) (dv : Nat) (dt : Int)
    (b : Backend) (t : Nat) (ht : s.tensor = some t) :
    (s.ResetSpace sh dv dt b).1.tensor = some t ∧
    (s.ResetSpace sh dv dt b).2.tensors.length = b.tensors.length := by
  by_cases hcond : s.tensor.isNone = true ∨ sh ≠ s.blob.shape ∨ dv ≠ s.blob.dev_mask
      ∨ dt ≠ s.blob.dtype
  · rw [VarState.ResetSpace, if_pos hcond, ht]
    refine ⟨rfl, ?_⟩
    simp only [Backend.newStorage, Backend.resetStorage]
    cases hg : ((Backend.mk b.tensors
        (b.storages ++ [⟨sh.size, dv, dt⟩])).tensors.get? t) with
    | none => simp
    | some tobj => simp
  · rw [VarState.ResetSpace, if_neg hcond]
    exact ⟨ht, rfl⟩

/-- When `ResetSpace` does reallocate for an initialized variable, the
same tensor object is re-bound to view the freshly allocated storage at
the requested shape. -/
theorem resetSpace_rebinds (s : VarState) (sh : TShape) (dv : Nat) (dt : Int)
    (b : Backend) (t : Nat) (ht : s.tensor = some t) (hlt : t < b.tensors.length)
    (hcond : sh ≠ s.blob.shape ∨ dv ≠ s.blob.dev_mask ∨ dt ≠ s.blob.dtype) :
    ((s.ResetSpace sh dv dt b).2.tensors.get? t).map TensorObj.binding
      = some (some (b.storages.length, sh)) := by
  rw [resetSpace_eq_of_some s sh dv dt b t ht hlt hcond]
  generalize b.tensors.getD t default = tobj
  have hset : (b.tensors.set t
      (⟨tobj.dev, tobj.dtype, some (b.storages.length, sh)⟩ : TensorObj))[t]?
      = some ⟨tobj.dev, tobj.dtype, some (b.storages.length, sh)⟩ :=
    List.getElem?_set_eq_of_lt _ (by simpa using hlt)
  simp [List.get?_eq_getElem?, hset]

/-! ### Staleness predicates and scan characterizations -/

theorem except_bind_ok (a : α) (f : α → Except String β) :
    (Except.ok a >>= f) = f a := rfl

theorem except_bind_error (m : String) (f : α → Except String β) :
    ((Except.error m : Except String α) >>= f) = Except.error m := rfl

theorem except_pure_eq (a : α) : (pure a : Except String α) = Except.ok a := rfl

/-- One read-variable passes the staleness scan: its state pointer is
set, the variable is initialized, and the live blob's shape/dtype agree
with the cached vectors at index `nid`. -/
def readVarOkB (e : TorchExecutor) (heap : List VarState) (ns : List TShape)
    (nd : List Int) (nid : Nat) : Bool :=
  match e.node_states.getD nid none with
  | none => false
  | some sid =>
    (heap.getD sid default).tensor.isSome &&
    (ns.get? nid == some (heap.getD sid default).blob.shape) &&
    (nd.get? nid == some (heap.getD sid default).blob.dtype)

/-- One read-variable's live shape/dtype (from its `VarState`) differs
from the cached inference result consulted by the code (index `nid`). -/
def readVarDiffersAt (e : TorchExecutor) (heap : List VarState) (ns : List TShape)
    (nd : List Int) (nid : Nat) : Bool :=
  match e.node_states.getD nid none with
  | none => false
  | some sid =>
    (ns.get? nid != some (heap.getD sid default).blob.shape) ||
    (nd.get? nid != some (heap.getD sid default).blob.dtype)

/-- One placeholder passes the staleness scan: a value was supplied and
its shape/dtype agree with the cached vectors at the placeholder's
entry id. -/
def phOkB (g : IGraph) (inputs : List (String × TBlob)) (ns : List TShape)
    (nd : List Int) (nid : Nat) : Bool :=
  match List.lookup (g.node nid).name inputs with
  | none => false
  | some v =>
    (ns.get? (g.entryId nid 0) == some v.shape) &&
    (nd.get? (g.entryId nid 0) == some v.dtype)

/-- One placeholder's supplied shape/dtype differs from the cached
inference result at its entry id. -/
def phDiffersAt (g : IGraph) (inputs : List (String × TBlob)) (ns : List TShape)
    (nd : List Int) (nid : Nat) : Bool :=
  match List.lookup (g.node nid).name inputs with
  | none => false
  | some v =>
    (ns.get? (g.entryId nid 0) != some v.shape) ||
    (nd.get? (g.entryId nid 0) != some v.dtype)

/-- The spec's re-inference condition (§4.4 Phase A): (a) no inference
has ever run, or (b) some read-variable's live shape/dtype differs from
the cached result, or (c) some placeholder's supplied shape/dtype
differs from the cached result. -/
def needsReinfer (e : TorchExecutor) (heap : List VarState)
    (inputs : List (String × TBlob)) : Bool :=
  e.node_shape.isNone ||
  e.read_var_nids.any
    (readVarDiffersAt e heap (e.node_shape.getD []) (e.node_dtype.getD [])) ||
  e.placeholder_nids.any
    (phDiffersAt e.graph inputs (e.node_shape.getD []) (e.node_dtype.getD []))

theorem readVarOkB_not_differs (e : TorchExecutor) (heap : List VarState)
    (ns : List TShape) (nd : List Int) (nid : Nat)
    (h : readVarOkB e heap ns nd nid = true) :
    readVarDiffersAt e heap ns nd nid = false := by
  unfold readVarOkB at h
  unfold readVarDiffersAt
  cases hs : e.node_states.getD nid none with
  | none => rfl
  | some sid =>
    rw [hs] at h
    simp only [Bool.and_eq_true, beq_iff_eq] at h
    rw [h.1.2, h.2]
    simp

theorem phOkB_not_differs (g : IGraph) (inputs : List (String × TBlob))
    (ns : List TShape) (nd : List Int) (nid : Nat)
    (h : phOkB g inputs ns nd nid = true) :
    phDiffersAt g inputs ns nd nid = false := by
  unfold phOkB at h
  unfold phDiffersAt
  cases hs : List.lookup (g.node nid).name inputs with
  | none => rfl
  | some v =>
    rw [hs] at h
    simp only [Bool.and_eq_true, beq_iff_eq] at h
    rw [h.1, h.2]
    simp


/-- A successful scan returning `false` means every read-variable
passed. -/
theorem checkReadVars_ok_false (e : TorchExecutor) (heap : List VarState)
    (ns : List TShape) (nd : List Int) :
    ∀ l : List Nat, checkReadVars e heap ns nd l = Except.ok false →
      ∀ nid ∈ l, readVarOkB e heap ns nd nid = true := by
  intro l
  induction l with
  | nil => intro _ nid hm; cases hm
  | cons hd tl ih =>
    intro h nid hm
    simp only [checkReadVars] at h
    cases hs : e.node_states.getD hd none with
    | none =>
      rw [hs] at h
      simp only [] at h
      exact Except.noConfusion h
    | some sid =>
      rw [hs] at h
      simp only [] at h
      by_cases hinit : (heap.getD sid default).tensor.isNone = true
      · rw [if_pos hinit] at h
        exact Except.noConfusion h
      · rw [if_neg hinit] at h
        simp only [vecAt] at h
        cases hsh : ns.get? hd with
        | none =>
          rw [hsh] at h
          simp only [] at h
          rw [except_bind_error] at h
          exact Except.noConfusion h
        | some sh =>
          rw [hsh] at h
          simp only [] at h
          rw [except_bind_ok] at h
          by_cases hne : sh ≠ (heap.getD sid default).blob.shape
          · rw [if_pos hne] at h
            cases h
          · rw [if_neg hne] at h
            cases hdt : nd.get? hd with
            | none =>
              rw [hdt] at h
              simp only [] at h
              rw [except_bind_error] at h
              exact Except.noConfusion h
            | some dt =>
              rw [hdt] at h
              simp only [] at h
              rw [except_bind_ok] at h
              by_cases hned : dt ≠ (heap.getD sid default).blob.dtype
              · rw [if_pos hned] at h
                cases h
              · rw [if_neg hned] at h
                push_neg at hne hned
                have hsome : (heap.getD sid default).tensor.isSome = true := by
                  cases hx : (heap.getD sid default).tensor with
                  | none => rw [hx] at hinit; simp at hinit
                  | some y => rfl
                rcases List.mem_cons.mp hm with heq | hm2
                · subst heq
                  unfold readVarOkB
                  rw [hs]
                  simp only []
                  rw [hsome, hsh, hdt, hne, hned]
                  simp
                · exact ih h nid hm2

/-- A successful scan returning `true` exhibits a read-variable whose
live blob differs from the cached result. -/
theorem checkReadVars_ok_true (e : TorchExecutor) (heap : List VarState)
    (ns : List TShape) (nd : List Int) :
    ∀ l : List Nat, checkReadVars e heap ns nd l = Except.ok true →
      l.any (readVarDiffersAt e heap ns nd) = true := by
  intro l
  induction l with
  | nil => intro h; cases h
  | cons hd tl ih =>
    intro h
    simp only [checkReadVars] at h
    cases hs : e.node_states.getD hd none with
    | none =>
      rw [hs] at h
      simp only [] at h
      exact Except.noConfusion h
    | some sid =>
      rw [hs] at h
      simp only [] at h
      by_cases hinit : (heap.getD sid default).tensor.isNone = true
      · rw [if_pos hinit] at h
        exact Except.noConfusion h
      · rw [if_neg hinit] at h
        simp only [vecAt] at h
        cases hsh : ns.get? hd with
        | none =>
          rw [hsh] at h
          simp only [] at h
          rw [except_bind_error] at h
          exact Except.noConfusion h
        | some sh =>
          rw [hsh] at h
          simp only [] at h
          rw [except_bind_ok] at h
          by_cases hne : sh ≠ (heap.getD sid default).blob.shape
          · simp only [List.any_cons, Bool.or_eq_true]
            refine Or.inl ?_
            unfold readVarDiffersAt
            rw [hs]
            simp only []
            rw [hsh]
            have hx : (some sh != some (heap.getD sid default).blob.shape) = true := by
              simpa using hne
            rw [hx]
            simp
          · rw [if_neg hne] at h
            cases hdt : nd.get? hd with
            | none =>
              rw [hdt] at h
              simp only [] at h
              rw [except_bind_error] at h
              exact Except.noConfusion h
            | some dt =>
              rw [hdt] at h
              simp only [] at h
              rw [except_bind_ok] at h
              by_cases hned : dt ≠ (heap.getD sid default).blob.dtype
              · simp only [List.any_cons, Bool.or_eq_true]
                refine Or.inl ?_
                unfold readVarDiffersAt
                rw [hs]
                simp only []
                rw [hdt]
                have hx : (some dt != some (heap.getD sid default).blob.dtype) = true := by
                  simpa using hned
                rw [hx]
                simp
              · rw [if_neg hned] at h
                simp only [List.any_cons, Bool.or_eq_true]
                exact Or.inr (ih h)

/-- A successful placeholder scan returning `false` means every
placeholder passed. -/
theorem checkPlaceholders_ok_false (g : IGraph) (inputs : List (String × TBlob))
    (ns : List TShape) (nd : List Int) :
    ∀ l : List Nat, checkPlaceholders g inputs ns nd l = Except.ok false →
      ∀ nid ∈ l, phOkB g inputs ns nd nid = true := by
  intro l
  induction l with
  | nil => intro _ nid hm; cases hm
  | cons hd tl ih =>
    intro h nid hm
    simp only [checkPlaceholders] at h
    cases hs : List.lookup (g.node hd).name inputs with
    | none =>
      rw [hs] at h
      simp only [] at h
      exact Except.noConfusion h
    | some v =>
      rw [hs] at h
      simp only [] at h
      simp only [vecAt] at h
      cases hsh : ns.get? (g.entryId hd 0) with
      | none =>
        rw [hsh] at h
        simp only [] at h
        rw [except_bind_error] at h
        exact Except.noConfusion h
      | some sh =>
        rw [hsh] at h
        simp only [] at h
        rw [except_bind_ok] at h
        by_cases hne : sh ≠ v.shape
        · rw [if_pos hne] at h
          cases h
        · rw [if_neg hne] at h
          cases hdt : nd.get? (g.entryId hd 0) with
          | none =>
            rw [hdt] at h
            simp only [] at h
            rw [except_bind_error] at h
            exact Except.noConfusion h
          | some dt =>
            rw [hdt] at h
            simp only [] at h
            rw [except_bind_ok] at h
            by_cases hned : dt ≠ v.dtype
            · rw [if_pos hned] at h
              cases h
            · rw [if_neg hned] at h
              push_neg at hne hned
              rcases List.mem_cons.mp hm with heq | hm2
              · subst heq
                unfold phOkB
                rw [hs]
                simp only []
                rw [hsh, hdt, hne, hned]
                simp
              · exact ih h nid hm2

/-- A successful placeholder scan returning `true` exhibits a
placeholder whose supplied blob differs from the cached result. -/
theorem checkPlaceholders_ok_true (g : IGraph) (inputs : List (String × TBlob))
    (ns : List TShape) (nd : List Int) :
    ∀ l : List Nat, checkPlaceholders g inputs ns nd l = Except.ok true →
      l.any (phDiffersAt g inputs ns nd) = true := by
  intro l
  induction l with
  | nil => intro h; cases h
  | cons hd tl ih =>
    intro h
    simp only [checkPlaceholders] at h
    cases hs : List.lookup (g.node hd).name inputs with
    | none =>
      rw [hs] at h
      simp only [] at h
      exact Except.noConfusion h
    | some v =>
      rw [hs] at h
      simp only [] at h
      simp only [vecAt] at h
      cases hsh : ns.get? (g.entryId hd 0) with
      | none =>
        rw [hsh] at h
        simp only [] at h
        rw [except_bind_error] at h
        exact Except.noConfusion h
      | some sh =>
        rw [hsh] at h
        simp only [] at h
        rw [except_bind_ok] at h
        by_cases hne : sh ≠ v.shape
        · simp only [List.any_cons, Bool.or_eq_true]
          refine Or.inl ?_
          unfold phDiffersAt
          rw [hs]
          simp only []
          rw [hsh]
          have hx : (some sh != some v.shape) = true := by simp [hne]
          rw [hx]
          simp
        · rw [if_neg hne] at h
          cases hdt : nd.get? (g.entryId hd 0) with
          | none =>
            rw [hdt] at h
            simp only [] at h
            rw [except_bind_error] at h
            exact Except.noConfusion h
          | some dt =>
            rw [hdt] at h
            simp only [] at h
            rw [except_bind_ok] at h
            by_cases hned : dt ≠ v.dtype
            · simp only [List.any_cons, Bool.or_eq_true]
              refine Or.inl ?_
              unfold phDiffersAt
              rw [hs]
              simp only []
              rw [hdt]
              have hx : (some dt != some v.dtype) = true := by simp [hned]
              rw [hx]
              simp
            · rw [if_neg hned] at h
              simp only [List.any_cons, Bool.or_eq_true]
              exact Or.inr (ih h)


/-- `List.getD` after `set` at a different index. -/
theorem getD_set_ne {α : Type} (l : List α) (i j : Nat) (a d : α) (hne : i ≠ j) :
    (l.set i a).getD j d = l.getD j d := by
  simp [List.getD_eq_getElem?_getD, List.getElem?_set_ne hne]

/-- `List.getD` after `set` at the same (in-range) index. -/
theorem getD_set_self {α : Type} (l : List α) (i : Nat) (a d : α) (hlt : i < l.length) :
    (l.set i a).getD i d = a := by
  simp [List.getD_eq_getElem?_getD, List.getElem?_set_eq_of_lt a hlt]

/-- Every read-variable passing the scan makes the whole scan return
`false` (the skip path). -/
theorem checkReadVars_of_all (e : TorchExecutor) (heap : List VarState)
    (ns : List TShape) (nd : List Int) :
    ∀ l : List Nat, (∀ nid ∈ l, readVarOkB e heap ns nd nid = true) →
      checkReadVars e heap ns nd l = Except.ok false := by
  intro l
  induction l with
  | nil => intro _; rfl
  | cons hd tl ih =>
    intro hall
    have hh := hall hd (List.mem_cons_self hd tl)
    unfold readVarOkB at hh
    cases hs : e.node_states.getD hd none with
    | none => rw [hs] at hh; cases hh
    | some sid =>
      rw [hs] at hh
      simp only [Bool.and_eq_true, beq_iff_eq] at hh
      obtain ⟨⟨hsome, hshape⟩, hdtype⟩ := hh
      simp only [checkReadVars]
      rw [hs]
      simp only []
      have hninit : ¬((heap.getD sid default).tensor.isNone = true) := by
        cases hx : (heap.getD sid default).tensor with
        | none => rw [hx] at hsome; cases hsome
        | some y => simp
      rw [if_neg hninit]
      simp only [vecAt]
      rw [hshape]
      simp only [except_bind_ok]
      rw [if_neg (by simp)]
      rw [hdtype]
      simp only [except_bind_ok]
      rw [if_neg (by simp)]
      exact ih fun nid hm => hall nid (List.mem_cons_of_mem hd hm)

/-- Every placeholder passing the scan makes the whole scan return
`false` (the skip path). -/
theorem checkPlaceholders_of_all (g : IGraph) (inputs : List (String × TBlob))
    (ns : List TShape) (nd : List Int) :
    ∀ l : List Nat, (∀ nid ∈ l, phOkB g inputs ns nd nid = true) →
      checkPlaceholders g inputs ns nd l = Except.ok false := by
  intro l
  induction l with
  | nil => intro _; rfl
  | cons hd tl ih =>
    intro hall
    have hh := hall hd (List.mem_cons_self hd tl)
    unfold phOkB at hh
    cases hs : List.lookup (g.node hd).name inputs with
    | none => rw [hs] at hh; cases hh
    | some v =>
      rw [hs] at hh
      simp only [Bool.and_eq_true, beq_iff_eq] at hh
      obtain ⟨hshape, hdtype⟩ := hh
      simp only [checkPlaceholders]
      rw [hs]
      simp only [vecAt]
      rw [hshape]
      simp only [except_bind_ok]
      rw [if_neg (by simp)]
      rw [hdtype]
      simp only [except_bind_ok]
      rw [if_neg (by simp)]
      exact ih fun nid hm => hall nid (List.mem_cons_of_mem hd hm)

/-- One mutation step of a `VarState`: the result of some `ResetSpace`
call on it. -/
def varStep (s1 s2 : VarState) : Prop :=
  ∃ sh dv dt b, s2 = (VarState.ResetSpace s1 sh dv dt b).1

/-- `resizeAssignVars` preserves the heap's length and mutates each slot
only through `ResetSpace` steps. -/
theorem resizeAssignVars_heap (e : TorchExecutor) (g : IGraph)
    (ns : List TShape) (nd : List Int) :
    ∀ (l : List Nat) (heap : List VarState) (b : Backend) (heap1 : List VarState)
      (b1 : Backend), resizeAssignVars e g ns nd l heap b = Except.ok (heap1, b1) →
      heap1.length = heap.length ∧
      ∀ i, Relation.ReflTransGen varStep (heap.getD i default) (heap1.getD i default) := by
  intro l
  induction l with
  | nil =>
    intro heap b heap1 b1 h
    cases h
    exact ⟨rfl, fun i => Relation.ReflTransGen.refl⟩
  | cons hd tl ih =>
    intro heap b heap1 b1 h
    simp only [resizeAssignVars] at h
    cases hs : e.node_states.getD hd none with
    | none => rw [hs] at h; cases h
    | some sid =>
      rw [hs] at h
      simp only [vecAt] at h
      cases hsh : ns.get? (g.entryId hd 0) with
      | none => rw [hsh] at h; simp only [except_bind_error] at h; cases h
      | some sh =>
        rw [hsh] at h
        simp only [except_bind_ok] at h
        cases hdt : nd.get? (g.entryId hd 0) with
        | none => rw [hdt] at h; simp only [except_bind_error] at h; cases h
        | some dt =>
          rw [hdt] at h
          simp only [except_bind_ok] at h
          obtain ⟨hlen, hstep⟩ := ih _ _ _ _ h
          constructor
          · rw [hlen, List.length_set]
          · intro i
            by_cases hi : sid = i
            · subst hi
              by_cases hlt : sid < heap.length
              · have hone : varStep (heap.getD sid default)
                    ((heap.set sid
                      ((heap.getD sid default).ResetSpace sh e.dev_mask dt b).1).getD sid default) := by
                  rw [getD_set_self _ _ _ _ hlt]
                  exact ⟨sh, e.dev_mask, dt, b, rfl⟩
                exact Relation.ReflTransGen.trans (Relation.ReflTransGen.single hone) (hstep sid)
              · have : heap.set sid ((heap.getD sid default).ResetSpace sh e.dev_mask dt b).1 = heap :=
                  List.set_eq_of_length_le (Nat.le_of_not_lt hlt)
                rw [this] at hstep
                exact hstep sid
            · have := hstep i
              rw [getD_set_ne _ _ _ _ _ hi] at this
              exact this

/-- Fields of the executor untouched by `reinfer` (everything except the
cached shape/dtype vectors). -/
structure ExecFrame (e e1 : TorchExecutor) : Prop where
  hsymbol : e1.symbol = e.symbol
  hgraph : e1.graph = e.graph
  hstorage_id : e1.storage_id = e.storage_id
  hdev : e1.dev_mask = e.dev_mask
  hph : e1.placeholder_nids = e.placeholder_nids
  hassign : e1.assign_var_nids = e.assign_var_nids
  hread : e1.read_var_nids = e.read_var_nids
  hstates : e1.node_states = e.node_states
  hde : e1.data_entry = e.data_entry
  hdv : e1.data_entry_is_var = e.data_entry_is_var
  hpool : e1.storage_pool = e.storage_pool
  hope : e1.op_execs = e.op_execs
  houts : e1.outputs_t = e.outputs_t
  hexecId : e1.execId = e.execId

/-- What a successful `reinfer` guarantees: it reports `true`, bumps the
inference counter exactly once, touches variable states only through
`ResetSpace`, installs cached shape/dtype vectors and leaves every other
executor field unchanged. -/
theorem reinfer_ok (env : PassEnv) (inputs : List (String × TBlob))
    (e e1 : TorchExecutor) (w w1 : World) (nd2 : Bool)
    (h : TorchExecutor.reinfer env inputs e w = Except.ok (e1, w1, nd2)) :
    nd2 = true ∧
    w1.trace = { w.trace with inferRuns := w.trace.inferRuns + 1 } ∧
    w1.varHeap.length = w.varHeap.length ∧
    (∀ i, Relation.ReflTransGen varStep (w.varHeap.getD i default)
      (w1.varHeap.getD i default)) ∧
    e1.node_shape.isSome = true ∧ e1.node_dtype.isSome = true ∧
    ExecFrame e e1 := by
  simp only [TorchExecutor.reinfer] at h
  cases hA : seedReadVars e w.varHeap e.graph e.read_var_nids
      (List.replicate e.graph.numEntries ([] : TShape),
       List.replicate e.graph.numEntries (-1 : Int)) with
  | error m => rw [hA] at h; simp only [except_bind_error] at h; cases h
  | ok seed1 =>
    rw [hA] at h
    simp only [except_bind_ok] at h
    cases hB : seedPlaceholders e.graph inputs e.placeholder_nids seed1 with
    | error m => rw [hB] at h; simp only [except_bind_error] at h; cases h
    | ok seed2 =>
      rw [hB] at h
      simp only [except_bind_ok] at h
      by_cases hu1 : (env.infer e.graph seed2.1 seed2.2).2.2.1 ≠ 0
      · rw [if_pos hu1] at h; cases h
      · rw [if_neg hu1] at h
        by_cases hu2 : (env.infer e.graph seed2.1 seed2.2).2.2.2 ≠ 0
        · rw [if_pos hu2] at h; cases h
        · rw [if_neg hu2] at h
          cases hC : resizeAssignVars
              { e with node_shape := some (env.infer e.graph seed2.1 seed2.2).1,
                       node_dtype := some (env.infer e.graph seed2.1 seed2.2).2.1 }
              e.graph (env.infer e.graph seed2.1 seed2.2).1
              (env.infer e.graph seed2.1 seed2.2).2.1 e.assign_var_nids
              w.varHeap w.backend with
          | error m => rw [hC] at h; simp only [except_bind_error] at h; cases h
          | ok hb =>
            rw [hC] at h
            simp only [except_bind_ok] at h
            obtain ⟨hlen, hsteps⟩ := resizeAssignVars_heap _ _ _ _ _ _ _ _ _ hC
            cases h
            refine ⟨rfl, rfl, hlen, hsteps, rfl, rfl, ?_⟩
            exact ⟨rfl, rfl, rfl, rfl, rfl, rfl, rfl, rfl, rfl, rfl, rfl, rfl, rfl, rfl⟩

/-- `List.any` is false when the predicate is false on every element. -/
theorem any_false_of_all {α : Type} {p : α → Bool} {l : List α}
    (h : ∀ x ∈ l, p x = false) : l.any p = false := by
  cases hl : l.any p with
  | false => rfl
  | true =>
    obtain ⟨x, hx, hpx⟩ := List.any_eq_true.mp hl
    rw [h x hx] at hpx
    cases hpx

/-- What a successful `SetupShapeDType` guarantees, by the reported
`need_redo_infer` flag: on `false` the call is a pure no-op and the
spec's re-inference condition is false; on `true` the condition is true
and the call behaved as one `reinfer`. -/
theorem ssdt_spec (env : PassEnv) (inputs : List (String × TBlob))
    (e e1 : TorchExecutor) (w w1 : World) (nd2 : Bool)
    (h : e.SetupShapeDType env inputs w = Except.ok (e1, w1, nd2)) :
    (nd2 = false → e1 = e ∧ w1 = w ∧ needsReinfer e w.varHeap inputs = false) ∧
    (nd2 = true → needsReinfer e w.varHeap inputs = true ∧
      w1.trace = { w.trace with inferRuns := w.trace.inferRuns + 1 } ∧
      w1.varHeap.length = w.varHeap.length ∧
      (∀ i, Relation.ReflTransGen varStep (w.varHeap.getD i default)
        (w1.varHeap.getD i default)) ∧
      e1.node_shape.isSome = true ∧ e1.node_dtype.isSome = true ∧
      ExecFrame e e1) := by
  simp only [TorchExecutor.SetupShapeDType] at h
  by_cases hns : e.node_shape.isNone = true
  · rw [if_pos hns] at h
    simp only [except_pure_eq, except_bind_ok] at h
    rw [if_pos (by simp)] at h
    rw [if_neg (by simp)] at h
    obtain ⟨hnd2, htr, hlen, hsteps, hsh, hdt2, hfr⟩ :=
      reinfer_ok env inputs e e1 w w1 nd2 h
    constructor
    · intro hx; rw [hnd2] at hx; cases hx
    · intro _
      refine ⟨?_, htr, hlen, hsteps, hsh, hdt2, hfr⟩
      simp [needsReinfer, hns]
  · rw [if_neg hns] at h
    by_cases hnd : e.node_dtype.isNone = true
    · rw [if_pos hnd] at h
      simp only [except_bind_error] at h
      cases h
    · rw [if_neg hnd] at h
      cases hc1 : checkReadVars e w.varHeap (e.node_shape.getD [])
          (e.node_dtype.getD []) e.read_var_nids with
      | error m => rw [hc1] at h; simp only [except_bind_error] at h; cases h
      | ok b1 =>
        rw [hc1] at h
        simp only [except_bind_ok] at h
        cases b1 with
        | true =>
          simp only [except_pure_eq, except_bind_ok] at h
          rw [if_pos trivial] at h
          rw [if_neg (by simp)] at h
          obtain ⟨hnd2, htr, hlen, hsteps, hsh, hdt2, hfr⟩ :=
            reinfer_ok env inputs e e1 w w1 nd2 h
          constructor
          · intro hx; rw [hnd2] at hx; cases hx
          · intro _
            refine ⟨?_, htr, hlen, hsteps, hsh, hdt2, hfr⟩
            have hany := checkReadVars_ok_true e w.varHeap (e.node_shape.getD [])
              (e.node_dtype.getD []) e.read_var_nids hc1
            simp [needsReinfer, hany]
        | false =>
          rw [if_neg (by simp)] at h
          cases hc2 : checkPlaceholders e.graph inputs (e.node_shape.getD [])
              (e.node_dtype.getD []) e.placeholder_nids with
          | error m => rw [hc2] at h; simp only [except_bind_error] at h; cases h
          | ok b2 =>
            rw [hc2] at h
            simp only [except_bind_ok] at h
            cases b2 with
            | true =>
              rw [if_neg (by simp)] at h
              obtain ⟨hnd2, htr, hlen, hsteps, hsh, hdt2, hfr⟩ :=
                reinfer_ok env inputs e e1 w w1 nd2 h
              constructor
              · intro hx; rw [hnd2] at hx; cases hx
              · intro _
                refine ⟨?_, htr, hlen, hsteps, hsh, hdt2, hfr⟩
                have hany := checkPlaceholders_ok_true e.graph inputs
                  (e.node_shape.getD []) (e.node_dtype.getD []) e.placeholder_nids hc2
                simp [needsReinfer, hany]
            | false =>
              rw [if_pos (by simp)] at h
              cases h
              constructor
              · intro _
                refine ⟨rfl, rfl, ?_⟩
                have hrv := checkReadVars_ok_false e w.varHeap (e.node_shape.getD [])
                  (e.node_dtype.getD []) e.read_var_nids hc1
                have hph := checkPlaceholders_ok_false e.graph inputs
                  (e.node_shape.getD []) (e.node_dtype.getD []) e.placeholder_nids hc2
                have h1 : e.read_var_nids.any (readVarDiffersAt e w.varHeap
                    (e.node_shape.getD []) (e.node_dtype.getD [])) = false :=
                  any_false_of_all fun nid hm =>
                    readVarOkB_not_differs e w.varHeap _ _ nid (hrv nid hm)
                have h2 : e.placeholder_nids.any (phDiffersAt e.graph inputs
                    (e.node_shape.getD []) (e.node_dtype.getD [])) = false :=
                  any_false_of_all fun nid hm =>
                    phOkB_not_differs e.graph inputs _ _ nid (hph nid hm)
                have h0 : e.node_shape.isNone = false := by
                  cases hx : e.node_shape with
                  | none => rw [hx] at hns; simp at hns
                  | some v => rfl
                simp [needsReinfer, h0, h1, h2]
              · intro hx; cases hx

/-- Frame facts of a successful `SetupStorage`: variable states are only
read, the storage counter is bumped exactly once, PlanMemory runs only
when the pool had never been built, and the classification lists, cached
vectors, compiled closures and (when already allocated) the data-entry
aliases are untouched. -/
theorem setupStorage_frame (env : PassEnv) (e e1 : TorchExecutor) (w w1 : World)
    (h : TorchExecutor.SetupStorage env e w = Except.ok (e1, w1)) :
    w1.varHeap = w.varHeap ∧
    w1.trace.inferRuns = w.trace.inferRuns ∧
    w1.trace.compileRuns = w.trace.compileRuns ∧
    w1.trace.initRuns = w.trace.initRuns ∧
    w1.trace.storageRuns = w.trace.storageRuns + 1 ∧
    (e.storage_pool.length ≠ 0 →
      w1.trace.planRuns = w.trace.planRuns ∧ e1.storage_id = e.storage_id) ∧
    (e.storage_pool.length = 0 → w1.trace.planRuns = w.trace.planRuns + 1) ∧
    e1.symbol = e.symbol ∧ e1.graph = e.graph ∧ e1.node_shape = e.node_shape ∧
    e1.node_dtype = e.node_dtype ∧ e1.dev_mask = e.dev_mask ∧
    e1.placeholder_nids = e.placeholder_nids ∧
    e1.assign_var_nids = e.assign_var_nids ∧
    e1.read_var_nids = e.read_var_nids ∧ e1.node_states = e.node_states ∧
    e1.op_execs = e.op_execs ∧ e1.execId = e.execId ∧
    (e.data_entry ≠ [] →
      e1.data_entry = e.data_entry ∧ e1.data_entry_is_var = e.data_entry_is_var) := by
  simp only [TorchExecutor.SetupStorage] at h
  by_cases hp : (e.storage_pool.length == 0) = true
  · rw [if_pos hp] at h
    simp only [] at h
    have hp0 : e.storage_pool.length = 0 := by simpa using hp
    cases hA : getAttr (some (env.planMemory e.graph (e.node_shape.getD [])
        (e.node_dtype.getD []))) "storage_id" with
    | error m => rw [hA] at h; simp only [except_bind_error] at h; cases h
    | ok vstorage =>
      rw [hA] at h
      simp only [except_bind_ok] at h
      cases hB : getAttr e.node_shape "shape" with
      | error m => rw [hB] at h; simp only [except_bind_error] at h; cases h
      | ok vshape =>
        rw [hB] at h
        simp only [except_bind_ok] at h
        by_cases hde : (e.data_entry.length == 0) = true
        · rw [if_pos hde] at h
          have hde0 : e.data_entry = [] := by
            have : e.data_entry.length = 0 := by simpa using hde
            exact List.length_eq_zero.mp this
          cases hC : aliasInputNodes
              ({ e with storage_id := some (env.planMemory e.graph (e.node_shape.getD [])
                  (e.node_dtype.getD [])) } : TorchExecutor)
              e.graph w.varHeap e.graph.inputNodes
              (allocEntries e.dev_mask e.graph.numEntries w.backend).1
              (List.replicate e.graph.numEntries false) with
          | error m => rw [hC] at h; simp only [except_bind_error] at h; cases h
          | ok dedv =>
            rw [hC] at h
            simp only [except_bind_ok] at h
            cases hD : poolSizesLoop vshape vstorage dedv.2 (List.range vshape.length) [] with
            | error m => rw [hD] at h; simp only [except_bind_error] at h; cases h
            | ok psizes =>
              rw [hD] at h
              simp only [except_bind_ok] at h
              cases hE : bindEntriesLoop vshape vstorage dedv.2 dedv.1
                  (allocPool e.dev_mask psizes
                    (allocEntries e.dev_mask e.graph.numEntries w.backend).2).1
                  (List.range dedv.1.length)
                  (allocPool e.dev_mask psizes
                    (allocEntries e.dev_mask e.graph.numEntries w.backend).2).2 with
              | error m => rw [hE] at h; simp only [except_bind_error] at h; cases h
              | ok b3 =>
                rw [hE] at h
                simp only [except_bind_ok] at h
                cases h
                refine ⟨rfl, rfl, rfl, rfl, rfl, ?_, fun _ => rfl, rfl, rfl, rfl, rfl,
                  rfl, rfl, rfl, rfl, rfl, rfl, rfl, ?_⟩
                · intro hx; exact absurd hp0 hx
                · intro hx; exact absurd hde0 hx
        · rw [if_neg hde] at h
          simp only [except_pure_eq, except_bind_ok] at h
          cases hD : poolSizesLoop vshape vstorage e.data_entry_is_var
              (List.range vshape.length) [] with
          | error m => rw [hD] at h; simp only [except_bind_error] at h; cases h
          | ok psizes =>
            rw [hD] at h
            simp only [except_bind_ok] at h
            cases hE : bindEntriesLoop vshape vstorage e.data_entry_is_var e.data_entry
                (allocPool e.dev_mask psizes w.backend).1
                (List.range e.data_entry.length)
                (allocPool e.dev_mask psizes w.backend).2 with
            | error m => rw [hE] at h; simp only [except_bind_error] at h; cases h
            | ok b3 =>
              rw [hE] at h
              simp only [except_bind_ok] at h
              cases h
              refine ⟨rfl, rfl, rfl, rfl, rfl, ?_, fun _ => rfl, rfl, rfl, rfl, rfl,
                rfl, rfl, rfl, rfl, rfl, rfl, rfl, fun _ => ⟨rfl, rfl⟩⟩
              intro hx; exact absurd hp0 hx
  · rw [if_neg hp] at h
    simp only [] at h
    have hp0 : e.storage_pool.length ≠ 0 := by simpa using hp
    cases hA : getAttr e.storage_id "storage_id" with
    | error m => rw [hA] at h; simp only [except_bind_error] at h; cases h
    | ok vstorage =>
      rw [hA] at h
      simp only [except_bind_ok] at h
      cases hB : getAttr e.node_shape "shape" with
      | error m => rw [hB] at h; simp only [except_bind_error] at h; cases h
      | ok vshape =>
        rw [hB] at h
        simp only [except_bind_ok] at h
        by_cases hde : (e.data_entry.length == 0) = true
        · rw [if_pos hde] at h
          have hde0 : e.data_entry = [] := by
            have : e.data_entry.length = 0 := by simpa using hde
            exact List.length_eq_zero.mp this
          cases hC : aliasInputNodes e e.graph w.varHeap e.graph.inputNodes
              (allocEntries e.dev_mask e.graph.numEntries w.backend).1
              (List.replicate e.graph.numEntries false) with
          | error m => rw [hC] at h; simp only [except_bind_error] at h; cases h
          | ok dedv =>
            rw [hC] at h
            simp only [except_bind_ok] at h
            cases hD : poolSizesLoop vshape vstorage dedv.2 (List.range vshape.length) [] with
            | error m => rw [hD] at h; simp only [except_bind_error] at h; cases h
            | ok psizes =>
              rw [hD] at h
              simp only [except_bind_ok] at h
              cases hE : bindEntriesLoop vshape vstorage dedv.2 dedv.1
                  (allocPool e.dev_mask psizes
                    (allocEntries e.dev_mask e.graph.numEntries w.backend).2).1
                  (List.range dedv.1.length)
                  (allocPool e.dev_mask psizes
                    (allocEntries e.dev_mask e.graph.numEntries w.backend).2).2 with
              | error m => rw [hE] at h; simp only [except_bind_error] at h; cases h
              | ok b3 =>
                rw [hE] at h
                simp only [except_bind_ok] at h
                cases h
                refine ⟨rfl, rfl, rfl, rfl, rfl, fun _ => ⟨rfl, rfl⟩, ?_, rfl, rfl, rfl,
                  rfl, rfl, rfl, rfl, rfl, rfl, rfl, rfl, ?_⟩
                · intro hx; exact absurd hx hp0
                · intro hx; exact absurd hde0 hx
        · rw [if_neg hde] at h
          simp only [except_pure_eq, except_bind_ok] at h
          cases hD : poolSizesLoop vshape vstorage e.data_entry_is_var
              (List.range vshape.length) [] with
          | error m => rw [hD] at h; simp only [except_bind_error] at h; cases h
          | ok psizes =>
            rw [hD] at h
            simp only [except_bind_ok] at h
            cases hE : bindEntriesLoop vshape vstorage e.data_entry_is_var e.data_entry
                (allocPool e.dev_mask psizes w.backend).1
                (List.range e.data_entry.length)
                (allocPool e.dev_mask psizes w.backend).2 with
            | error m => rw [hE] at h; simp only [except_bind_error] at h; cases h
            | ok b3 =>
              rw [hE] at h
              simp only [except_bind_ok] at h
              cases h
              refine ⟨rfl, rfl, rfl, rfl, rfl, fun _ => ⟨rfl, rfl⟩, ?_, rfl, rfl, rfl,
                rfl, rfl, rfl, rfl, rfl, rfl, rfl, rfl, fun _ => ⟨rfl, rfl⟩⟩
              intro hx; exact absurd hx hp0

/-- `compileLoop` preserves the length of the closure vector. -/
theorem compileLoop_length (env : PassEnv) (e : TorchExecutor) (g : IGraph) :
    ∀ (l : List Nat) (acc res : List (Option OpClosure)),
      compileLoop env e g l acc = Except.ok res → res.length = acc.length := by
  intro l
  induction l with
  | nil => intro acc res h; cases h; rfl
  | cons hd tl ih =>
    intro acc res h
    simp only [compileLoop] at h
    by_cases hv : (g.node hd).isVar = true
    · rw [if_pos hv] at h
      exact ih acc res h
    · rw [if_neg hv] at h
      cases hc : env.computeCode (g.node hd).op with
      | none => rw [hc] at h; cases h
      | some code =>
        rw [hc] at h
        have := ih _ _ h
        rw [this, List.length_set]

/-- Frame facts of a successful `SetupOpExecs`: it bumps the compile
counter exactly once, fills the closure vector to one slot per node, and
touches nothing else. -/
theorem setupOpExecs_frame (env : PassEnv) (e e1 : TorchExecutor) (w w1 : World)
    (h : TorchExecutor.SetupOpExecs env e w = Except.ok (e1, w1)) :
    w1.backend = w.backend ∧ w1.varHeap = w.varHeap ∧
    w1.trace = { w.trace with compileRuns := w.trace.compileRuns + 1 } ∧
    e1.op_execs.length = e.graph.numNodes ∧
    e1.symbol = e.symbol ∧ e1.graph = e.graph ∧ e1.node_shape = e.node_shape ∧
    e1.node_dtype = e.node_dtype ∧ e1.storage_id = e.storage_id ∧
    e1.dev_mask = e.dev_mask ∧ e1.placeholder_nids = e.placeholder_nids ∧
    e1.assign_var_nids = e.assign_var_nids ∧ e1.read_var_nids = e.read_var_nids ∧
    e1.node_states = e.node_states ∧ e1.data_entry = e.data_entry ∧
    e1.data_entry_is_var = e.data_entry_is_var ∧
    e1.storage_pool = e.storage_pool ∧ e1.outputs_t = e.outputs_t ∧
    e1.execId = e.execId := by
  simp only [TorchExecutor.SetupOpExecs] at h
  cases hc : compileLoop env e e.graph (List.range e.graph.numNodes)
      (List.replicate e.graph.numNodes none) with
  | error m => rw [hc] at h; simp only [except_bind_error] at h; cases h
  | ok oe =>
    rw [hc] at h
    simp only [except_bind_ok] at h
    cases h
    have hlen : oe.length = e.graph.numNodes := by
      rw [compileLoop_length env e e.graph _ _ _ hc, List.length_replicate]
    exact ⟨rfl, rfl, rfl, hlen, rfl, rfl, rfl, rfl, rfl, rfl, rfl, rfl, rfl, rfl,
      rfl, rfl, rfl, rfl, rfl⟩

/-- Decomposition of a successful `TorchExecutor.Run` into its pipeline
steps: shape/dtype setup, conditional storage setup, conditional closure
compilation, placeholder copy-in and output copy-out. -/
theorem run_unfold (env : PassEnv) (inputs : List (String × TBlob))
    (e e2 : TorchExecutor) (w w2 : World) (outs : List TBlob)
    (h : TorchExecutor.Run env inputs e w = Except.ok (e2, w2, outs)) :
    ∃ need em wm es ws ec wc b1 blobs,
      e.SetupShapeDType env inputs w = Except.ok (em, wm, need) ∧
      ((need = true ∧ TorchExecutor.SetupStorage env em wm = Except.ok (es, ws)) ∨
       (need = false ∧ es = em ∧ ws = wm)) ∧
      ((es.op_execs.length = 0 ∧
          TorchExecutor.SetupOpExecs env es ws = Except.ok (ec, wc)) ∨
       (es.op_execs.length ≠ 0 ∧ ec = es ∧ wc = ws)) ∧
      copyInputs ec.graph inputs ec.data_entry ec.placeholder_nids wc.backend
        = Except.ok b1 ∧
      copyOutputs ec.graph ec.data_entry ec.outputs_t b1
        (List.range ec.outputs_t.length) = Except.ok blobs ∧
      e2 = { ec with output_blobs := blobs } ∧
      w2 = { wc with backend := b1 } ∧ outs = blobs := by
  simp only [TorchExecutor.Run, TorchExecutor.Setup] at h
  cases hS : e.SetupShapeDType env inputs w with
  | error m => rw [hS] at h; simp only [except_bind_error] at h; cases h
  | ok r =>
    rw [hS] at h
    simp only [except_bind_ok] at h
    obtain ⟨em, wm, need⟩ := r
    simp only [] at h
    cases need with
    | true =>
      rw [if_pos rfl] at h
      cases hst : TorchExecutor.SetupStorage env em wm with
      | error m => rw [hst] at h; simp only [except_bind_error] at h; cases h
      | ok p =>
        rw [hst] at h
        simp only [except_bind_ok] at h
        obtain ⟨es, ws⟩ := p
        simp only [] at h
        by_cases ho : (es.op_execs.length == 0) = true
        · rw [if_pos ho] at h
          cases hoe : TorchExecutor.SetupOpExecs env es ws with
          | error m => rw [hoe] at h; simp only [except_bind_error] at h; cases h
          | ok q =>
            rw [hoe] at h
            simp only [except_bind_ok] at h
            obtain ⟨ec, wc⟩ := q
            simp only [] at h
            cases hci : copyInputs ec.graph inputs ec.data_entry ec.placeholder_nids
                wc.backend with
            | error m => rw [hci] at h; simp only [except_bind_error] at h; cases h
            | ok b1 =>
              rw [hci] at h
              simp only [except_bind_ok] at h
              cases hco : copyOutputs ec.graph ec.data_entry ec.outputs_t b1
                  (List.range ec.outputs_t.length) with
              | error m => rw [hco] at h; simp only [except_bind_error] at h; cases h
              | ok blobs =>
                rw [hco] at h
                simp only [except_bind_ok] at h
                have h2 := Except.ok.inj h
                exact ⟨true, em, wm, es, ws, ec, wc, b1, blobs, rfl,
                  Or.inl ⟨rfl, hst⟩, Or.inl ⟨by simpa using ho, hoe⟩, hci, hco,
                  (congrArg (fun p => p.1) h2).symm,
                  (congrArg (fun p => p.2.1) h2).symm,
                  (congrArg (fun p => p.2.2) h2).symm⟩
        · rw [if_neg ho] at h
          simp only [except_pure_eq, except_bind_ok] at h
          cases hci : copyInputs es.graph inputs es.data_entry es.placeholder_nids
              ws.backend with
          | error m => rw [hci] at h; simp only [except_bind_error] at h; cases h
          | ok b1 =>
            rw [hci] at h
            simp only [except_bind_ok] at h
            cases hco : copyOutputs es.graph es.data_entry es.outputs_t b1
                (List.range es.outputs_t.length) with
            | error m => rw [hco] at h; simp only [except_bind_error] at h; cases h
            | ok blobs =>
              rw [hco] at h
              simp only [except_bind_ok] at h
              have h2 := Except.ok.inj h
              exact ⟨true, em, wm, es, ws, es, ws, b1, blobs, rfl,
                Or.inl ⟨rfl, hst⟩, Or.inr ⟨by simpa using ho, rfl, rfl⟩, hci, hco,
                (congrArg (fun p => p.1) h2).symm,
                (congrArg (fun p => p.2.1) h2).symm,
                (congrArg (fun p => p.2.2) h2).symm⟩
    | false =>
      rw [if_neg (by simp)] at h
      try simp only [except_pure_eq, except_bind_ok] at h
      by_cases ho : (em.op_execs.length == 0) = true
      · rw [if_pos ho] at h
        cases hoe : TorchExecutor.SetupOpExecs env em wm with
        | error m => rw [hoe] at h; simp only [except_bind_error] at h; cases h
        | ok q =>
          rw [hoe] at h
          simp only [except_bind_ok] at h
          obtain ⟨ec, wc⟩ := q
          simp only [] at h
          cases hci : copyInputs ec.graph inputs ec.data_entry ec.placeholder_nids
              wc.backend with
          | error m => rw [hci] at h; simp only [except_bind_error] at h; cases h
          | ok b1 =>
            rw [hci] at h
            simp only [except_bind_ok] at h
            cases hco : copyOutputs ec.graph ec.data_entry ec.outputs_t b1
                (List.range ec.outputs_t.length) with
            | error m => rw [hco] at h; simp only [except_bind_error] at h; cases h
            | ok blobs =>
              rw [hco] at h
              simp only [except_bind_ok] at h
              have h2 := Except.ok.inj h
              exact ⟨false, em, wm, em, wm, ec, wc, b1, blobs, rfl,
                Or.inr ⟨rfl, rfl, rfl⟩, Or.inl ⟨by simpa using ho, hoe⟩, hci, hco,
                (congrArg (fun p => p.1) h2).symm,
                (congrArg (fun p => p.2.1) h2).symm,
                (congrArg (fun p => p.2.2) h2).symm⟩
      · rw [if_neg ho] at h
        try simp only [except_pure_eq, except_bind_ok] at h
        cases hci : copyInputs em.graph inputs em.data_entry em.placeholder_nids
            wm.backend with
        | error m => rw [hci] at h; simp only [except_bind_error] at h; cases h
        | ok b1 =>
          rw [hci] at h
          simp only [except_bind_ok] at h
          cases hco : copyOutputs em.graph em.data_entry em.outputs_t b1
              (List.range em.outputs_t.length) with
          | error m => rw [hco] at h; simp only [except_bind_error] at h; cases h
          | ok blobs =>
            rw [hco] at h
            simp only [except_bind_ok] at h
            have h2 := Except.ok.inj h
            exact ⟨false, em, wm, em, wm, em, wm, b1, blobs, rfl,
              Or.inr ⟨rfl, rfl, rfl⟩, Or.inr ⟨by simpa using ho, rfl, rfl⟩, hci, hco,
              (congrArg (fun p => p.1) h2).symm,
              (congrArg (fun p => p.2.1) h2).symm,
              (congrArg (fun p => p.2.2) h2).symm⟩

/-- Comprehensive behaviour of one successful `TorchExecutor.Run`:
the init counter never moves; the inference passes re-run exactly when
the spec's staleness condition holds (and on a skip the cached tables,
the storage counter and the plan counter are untouched); closure
compilation happens exactly on the first run; variable states evolve
only by `ResetSpace` steps; and the graph, classification lists and
executor identity are preserved. -/
theorem run_spec (env : PassEnv) (inputs : List (String × TBlob))
    (e e2 : TorchExecutor) (w w2 : World) (outs : List TBlob)
    (h : TorchExecutor.Run env inputs e w = Except.ok (e2, w2, outs)) :
    w2.trace.initRuns = w.trace.initRuns ∧
    ((w2.trace.inferRuns ≠ w.trace.inferRuns) ↔
      needsReinfer e w.varHeap inputs = true) ∧
    (needsReinfer e w.varHeap inputs = false →
      w2.trace.inferRuns = w.trace.inferRuns ∧
      w2.trace.storageRuns = w.trace.storageRuns ∧
      w2.trace.planRuns = w.trace.planRuns ∧
      e2.node_shape = e.node_shape ∧ e2.node_dtype = e.node_dtype) ∧
    (e.op_execs ≠ [] → w2.trace.compileRuns = w.trace.compileRuns ∧
      e2.op_execs = e.op_execs) ∧
    (e.op_execs = [] → w2.trace.compileRuns = w.trace.compileRuns + 1 ∧
      e2.op_execs.length = e.graph.numNodes) ∧
    w2.varHeap.length = w.varHeap.length ∧
    (∀ i, Relation.ReflTransGen varStep (w.varHeap.getD i default)
      (w2.varHeap.getD i default)) ∧
    e2.symbol = e.symbol ∧ e2.graph = e.graph ∧ e2.execId = e.execId ∧
    e2.placeholder_nids = e.placeholder_nids ∧
    e2.read_var_nids = e.read_var_nids ∧
    e2.assign_var_nids = e.assign_var_nids ∧
    e2.node_states = e.node_states := by
  obtain ⟨need, em, wm, es, ws, ec, wc, b1, blobs, hS, hStor, hOpe, hci, hco,
    he2, hw2, houts⟩ := run_unfold env inputs e e2 w w2 outs h
  have hssdt := ssdt_spec env inputs e em w wm need hS
  have hW2trace : w2.trace = wc.trace := by rw [hw2]
  have hW2heap : w2.varHeap = wc.varHeap := by rw [hw2]
  have hStorFacts :
      ws.varHeap = wm.varHeap ∧
      ws.trace.inferRuns = wm.trace.inferRuns ∧
      ws.trace.compileRuns = wm.trace.compileRuns ∧
      ws.trace.initRuns = wm.trace.initRuns ∧
      es.symbol = em.symbol ∧ es.graph = em.graph ∧
      es.node_shape = em.node_shape ∧ es.node_dtype = em.node_dtype ∧
      es.placeholder_nids = em.placeholder_nids ∧
      es.assign_var_nids = em.assign_var_nids ∧
      es.read_var_nids = em.read_var_nids ∧ es.node_states = em.node_states ∧
      es.op_execs = em.op_execs ∧ es.execId = em.execId := by
    rcases hStor with ⟨_, hst⟩ | ⟨_, hes, hws⟩
    · obtain ⟨a1, a2, a3, a4, _, _, _, a8, a9, a10, a11, _, a13, a14, a15, a16,
        a17, a18, _⟩ := setupStorage_frame env em es wm ws hst
      exact ⟨a1, a2, a3, a4, a8, a9, a10, a11, a13, a14, a15, a16, a17, a18⟩
    · subst hes; subst hws
      exact ⟨rfl, rfl, rfl, rfl, rfl, rfl, rfl, rfl, rfl, rfl, rfl, rfl, rfl, rfl⟩
  obtain ⟨hsHeap, hsInfer, hsCompile, hsInit, hsSym, hsGraph, hsNS, hsND, hsPh,
    hsAs, hsRd, hsSt, hsOp, hsId⟩ := hStorFacts
  have hOpeFacts :
      wc.varHeap = ws.varHeap ∧
      wc.trace.inferRuns = ws.trace.inferRuns ∧
      wc.trace.initRuns = ws.trace.initRuns ∧
      wc.trace.storageRuns = ws.trace.storageRuns ∧
      wc.trace.planRuns = ws.trace.planRuns ∧
      ec.symbol = es.symbol ∧ ec.graph = es.graph ∧
      ec.node_shape = es.node_shape ∧ ec.node_dtype = es.node_dtype ∧
      ec.placeholder_nids = es.placeholder_nids ∧
      ec.assign_var_nids = es.assign_var_nids ∧
      ec.read_var_nids = es.read_var_nids ∧ ec.node_states = es.node_states ∧
      ec.execId = es.execId := by
    rcases hOpe with ⟨_, hoe⟩ | ⟨_, hec, hwc⟩
    · obtain ⟨b1f, b2f, b3f, _, b5f, b6f, b7f, b8f, _, _, b11f, b12f, b13f, b14f,
        _, _, _, _, b19f⟩ := setupOpExecs_frame env es ec ws wc hoe
      refine ⟨by rw [b2f], by rw [b3f], by rw [b3f], by rw [b3f], by rw [b3f],
        b5f, b6f, b7f, b8f, b11f, b12f, b13f, b14f, b19f⟩
    · subst hec; subst hwc
      exact ⟨rfl, rfl, rfl, rfl, rfl, rfl, rfl, rfl, rfl, rfl, rfl, rfl, rfl, rfl⟩
  obtain ⟨hoHeap, hoInfer, hoInit, hoStor, hoPlan, hoSym, hoGraph, hoNS, hoND,
    hoPh, hoAs, hoRd, hoSt, hoId⟩ := hOpeFacts
  have hE2 : e2.symbol = ec.symbol ∧ e2.graph = ec.graph ∧
      e2.node_shape = ec.node_shape ∧ e2.node_dtype = ec.node_dtype ∧
      e2.op_execs = ec.op_execs ∧ e2.execId = ec.execId ∧
      e2.placeholder_nids = ec.placeholder_nids ∧
      e2.read_var_nids = ec.read_var_nids ∧
      e2.assign_var_nids = ec.assign_var_nids ∧
      e2.node_states = ec.node_states := by
    rw [he2]
    exact ⟨rfl, rfl, rfl, rfl, rfl, rfl, rfl, rfl, rfl, rfl⟩
  obtain ⟨h2Sym, h2Graph, h2NS, h2ND, h2Op, h2Id, h2Ph, h2Rd, h2As, h2St⟩ := hE2
  cases need with
  | true =>
    obtain ⟨hNr, hTr, hLen, hSteps, _, _, hFr⟩ := hssdt.2 rfl
    have hInferNe : w2.trace.inferRuns = w.trace.inferRuns + 1 := by
      rw [hW2trace, hoInfer, hsInfer, hTr]
    refine ⟨?_, ?_, ?_, ?_, ?_, ?_, ?_, ?_, ?_, ?_, ?_, ?_, ?_, ?_⟩
    · rw [hW2trace, hoInit, hsInit, hTr]
    · constructor
      · intro _; exact hNr
      · intro _; rw [hInferNe]; exact Nat.succ_ne_self _
    · intro hfalse; rw [hNr] at hfalse; cases hfalse
    · intro hne
      rcases hOpe with ⟨hlen0, _⟩ | ⟨_, hec, hwc⟩
      · exfalso
        apply hne
        have hx : es.op_execs = [] := List.length_eq_zero.mp hlen0
        rw [hsOp, hFr.hope] at hx
        exact hx
      · subst hec; subst hwc
        constructor
        · rw [hW2trace, hsCompile, hTr]
        · rw [h2Op, hsOp, hFr.hope]
    · intro hemp
      rcases hOpe with ⟨_, hoe⟩ | ⟨hlen0, _, _⟩
      · obtain ⟨_, _, hwcT, hoplen, _⟩ := setupOpExecs_frame env es ec ws wc hoe
        constructor
        · rw [hW2trace, hwcT]
          simp only []
          rw [hsCompile, hTr]
        · rw [h2Op, hoplen, hsGraph, hFr.hgraph]
      · exfalso
        apply hlen0
        rw [hsOp, hFr.hope, hemp]
        rfl
    · rw [hW2heap, hoHeap, hsHeap, hLen]
    · intro i
      have hx := hSteps i
      rw [hW2heap, hoHeap, hsHeap]
      exact hx
    · rw [h2Sym, hoSym, hsSym, hFr.hsymbol]
    · rw [h2Graph, hoGraph, hsGraph, hFr.hgraph]
    · rw [h2Id, hoId, hsId, hFr.hexecId]
    · rw [h2Ph, hoPh, hsPh, hFr.hph]
    · rw [h2Rd, hoRd, hsRd, hFr.hread]
    · rw [h2As, hoAs, hsAs, hFr.hassign]
    · rw [h2St, hoSt, hsSt, hFr.hstates]
  | false =>
    obtain ⟨hem, hwm, hNr⟩ := hssdt.1 rfl
    have hStorSkip : es = em ∧ ws = wm := by
      rcases hStor with ⟨hneed, _⟩ | ⟨_, hes, hws⟩
      · cases hneed
      · exact ⟨hes, hws⟩
    obtain ⟨hes, hws⟩ := hStorSkip
    refine ⟨?_, ?_, ?_, ?_, ?_, ?_, ?_, ?_, ?_, ?_, ?_, ?_, ?_, ?_⟩
    · rw [hW2trace, hoInit, hws, hwm]
    · constructor
      · intro hne
        exfalso
        apply hne
        rw [hW2trace, hoInfer, hws, hwm]
      · intro hx; rw [hNr] at hx; cases hx
    · intro _
      refine ⟨by rw [hW2trace, hoInfer, hws, hwm], by rw [hW2trace, hoStor, hws, hwm],
        by rw [hW2trace, hoPlan, hws, hwm], ?_, ?_⟩
      · rw [h2NS, hoNS, hes, hem]
      · rw [h2ND, hoND, hes, hem]
    · intro hne
      rcases hOpe with ⟨hlen0, _⟩ | ⟨_, hec, hwc⟩
      · exfalso
        apply hne
        have hx : es.op_execs = [] := List.length_eq_zero.mp hlen0
        rw [hes, hem] at hx
        exact hx
      · subst hec; subst hwc
        constructor
        · rw [hW2trace, hws, hwm]
        · rw [h2Op, hes, hem]
    · intro hemp
      rcases hOpe with ⟨_, hoe⟩ | ⟨hlen0, _, _⟩
      · obtain ⟨_, _, hwcT, hoplen, _⟩ := setupOpExecs_frame env es ec ws wc hoe
        constructor
        · rw [hW2trace, hwcT]
          simp only []
          rw [hws, hwm]
        · rw [h2Op, hoplen, hes, hem]
      · exfalso
        apply hlen0
        rw [hes, hem, hemp]
        rfl
    · rw [hW2heap, hoHeap, hws, hwm]
    · intro i
      rw [hW2heap, hoHeap, hws, hwm]
    · rw [h2Sym, hoSym, hes, hem]
    · rw [h2Graph, hoGraph, hes, hem]
    · rw [h2Id, hoId, hes, hem]
    · rw [h2Ph, hoPh, hes, hem]
    · rw [h2Rd, hoRd, hes, hem]
    · rw [h2As, hoAs, hes, hem]
    · rw [h2St, hoSt, hes, hem]

/-- Appending entries to a map never changes an existing binding. -/
theorem lookup_append_some {l1 l2 : List (String × Nat)} {k : String} {v : Nat}
    (h : List.lookup k l1 = some v) : List.lookup k (l1 ++ l2) = some v := by
  rw [List.lookup_append, h]
  rfl

/-- Appending one fresh binding makes it visible. -/
theorem lookup_append_fresh {l : List (String × Nat)} {k : String}
    (h : List.lookup k l = none) (v : Nat) :
    List.lookup k (l ++ [(k, v)]) = some v := by
  rw [List.lookup_append, h]
  simp [List.lookup_cons]

/-- Invariant of the `Init` scan over any node list: the shared heap
only grows, existing map bindings survive, the node-state table keeps
its length, unvisited slots are untouched, and (for a duplicate-free
list) every visited variable node ends up pointing at its name's final
binding. -/
theorem initScan_inv (g : IGraph) :
    ∀ (L : List Nat) (acc acc2 : InitAcc),
      L.foldlM (initStep g) acc = Except.ok acc2 →
      (∃ extra, acc2.heap = acc.heap ++ extra) ∧
      (∀ k id, List.lookup k acc.states = some id →
        List.lookup k acc2.states = some id) ∧
      acc2.node_states.length = acc.node_states.length ∧
      (∀ nid, nid ∉ L → acc2.node_states.getD nid none = acc.node_states.getD nid none) ∧
      (L.Nodup → ∀ nid ∈ L, (g.node nid).isVar = true →
        nid < acc.node_states.length →
        acc2.node_states.getD nid none = List.lookup (g.node nid).name acc2.states) := by
  intro L
  induction L with
  | nil =>
    intro acc acc2 h
    cases h
    exact ⟨⟨[], by simp⟩, fun k id hk => hk, rfl, fun nid _ => rfl,
      fun _ nid hm => absurd hm (List.not_mem_nil nid)⟩
  | cons hd tl ih =>
    intro acc acc2 h
    rw [List.foldlM_cons] at h
    cases hstep : initStep g acc hd with
    | error m => rw [hstep] at h; simp only [except_bind_error] at h; cases h
    | ok acc1 =>
      rw [hstep] at h
      simp only [except_bind_ok] at h
      obtain ⟨⟨extra1, hheap1⟩, hlook1, hlen1, huntouched1, hvar1⟩ := ih acc1 acc2 h
      -- characterize the single step
      have hstepFacts :
          (∃ extra0, acc1.heap = acc.heap ++ extra0) ∧
          (∀ k id, List.lookup k acc.states = some id →
            List.lookup k acc1.states = some id) ∧
          acc1.node_states.length = acc.node_states.length ∧
          (∀ nid, nid ≠ hd → acc1.node_states.getD nid none
            = acc.node_states.getD nid none) ∧
          ((g.node hd).isVar = true → hd < acc.node_states.length →
            ∃ sid, acc1.node_states.getD hd none = some sid ∧
              List.lookup (g.node hd).name acc1.states = some sid) := by
        simp only [initStep] at hstep
        by_cases hv : (g.node hd).isVar = true
        · rw [if_pos hv] at hstep
          cases hlk : List.lookup (g.node hd).name acc.states with
          | some sid0 =>
            rw [hlk] at hstep
            simp only [] at hstep
            cases hstep
            refine ⟨⟨[], by simp⟩, fun k id hk => hk, List.length_set _ _ _, ?_, ?_⟩
            · intro nid hne
              exact getD_set_ne _ _ _ _ _ (fun hx => hne hx.symm)
            · intro _ hlt
              refine ⟨sid0, ?_, hlk⟩
              rw [getD_set_self _ _ _ _ hlt, hlk]
          | none =>
            rw [hlk] at hstep
            simp only [] at hstep
            cases hstep
            have hfresh := lookup_append_fresh hlk acc.heap.length
            refine ⟨⟨[{}], rfl⟩, ?_, List.length_set _ _ _, ?_, ?_⟩
            · intro k id hk
              exact lookup_append_some hk
            · intro nid hne
              exact getD_set_ne _ _ _ _ _ (fun hx => hne hx.symm)
            · intro _ hlt
              refine ⟨acc.heap.length, ?_, hfresh⟩
              rw [getD_set_self _ _ _ _ hlt, hfresh]
        · rw [if_neg hv] at hstep
          have hclean : acc1.heap = acc.heap ∧ acc1.states = acc.states ∧
              acc1.node_states = acc.node_states := by
            by_cases hph2 : ((g.node hd).op == "placeholder") = true
            · rw [if_pos hph2] at hstep
              cases hstep
              exact ⟨rfl, rfl, rfl⟩
            · rw [if_neg hph2] at hstep
              by_cases has2 : ((g.node hd).op == "assign") = true
              · rw [if_pos has2] at hstep
                by_cases har : (g.node hd).inputs.length ≠ 2
                · rw [if_pos har] at hstep; cases hstep
                · rw [if_neg har] at hstep
                  cases hstep
                  exact ⟨rfl, rfl, rfl⟩
              · rw [if_neg has2] at hstep
                cases hstep
                exact ⟨rfl, rfl, rfl⟩
          refine ⟨⟨[], by simp [hclean.1]⟩, ?_, by rw [hclean.2.2], ?_, ?_⟩
          · intro k id hk; rw [hclean.2.1]; exact hk
          · intro nid _; rw [hclean.2.2]
          · intro hvv; exact absurd hvv hv
      obtain ⟨⟨extra0, hheap0⟩, hlook0, hlen0, huntouched0, hvar0⟩ := hstepFacts
      refine ⟨⟨extra0 ++ extra1, by rw [hheap1, hheap0, List.append_assoc]⟩, ?_, ?_, ?_, ?_⟩
      · intro k id hk
        exact hlook1 k id (hlook0 k id hk)
      · rw [hlen1, hlen0]
      · intro nid hnm
        have hne : nid ≠ hd := fun hx => hnm (hx ▸ List.mem_cons_self hd tl)
        have hnm2 : nid ∉ tl := fun hx => hnm (List.mem_cons_of_mem hd hx)
        rw [huntouched1 nid hnm2, huntouched0 nid hne]
      · intro hnd nid hm hvv hlt
        rcases List.mem_cons.mp hm with heq | hm2
        · subst heq
          obtain ⟨sid, hset, hlk⟩ := hvar0 hvv hlt
          have hnotin : nid ∉ tl := by
            have := hnd
            rw [List.nodup_cons] at this
            exact this.1
          rw [huntouched1 nid hnotin, hset]
          exact (hlook1 _ _ hlk).symm
        · have hnd2 : tl.Nodup := (List.nodup_cons.mp hnd).2
          have hlt2 : nid < acc1.node_states.length := by rw [hlen0]; exact hlt
          exact hvar1 hnd2 nid hm2 hvv hlt2

/-- What `TorchExecutor.Init` produces: a fresh executor carrying the
scan's classification with every cached table empty, a state map that
preserves all previous bindings, a heap that only grew, exactly one
`initRuns` tick, and a node-state table that sends every variable node
to its name's binding in the returned map. -/
theorem init_state {execId : Nat} {sym : Symbol} {states : StateMap} {w : World}
    {e1 : TorchExecutor} {states1 : StateMap} {w1 : World}
    (h : TorchExecutor.Init execId sym states w = Except.ok (e1, states1, w1)) :
    e1.symbol = sym ∧ e1.graph = sym.graph ∧ e1.execId = execId ∧
    e1.node_shape = none ∧ e1.node_dtype = none ∧ e1.op_execs = [] ∧
    e1.data_entry = [] ∧ e1.storage_pool = [] ∧
    e1.node_states.length = sym.graph.numNodes ∧
    w1.backend = w.backend ∧
    w1.trace = { w.trace with initRuns := w.trace.initRuns + 1 } ∧
    (∃ extra, w1.varHeap = w.varHeap ++ extra) ∧
    (∀ k id, List.lookup k states = some id → List.lookup k states1 = some id) ∧
    (∀ nid, nid < sym.graph.numNodes → (sym.graph.node nid).isVar = true →
      e1.node_states.getD nid none = List.lookup (sym.graph.node nid).name states1) := by
  simp only [TorchExecutor.Init] at h
  cases hfold : (revRange sym.graph.numNodes).foldlM (initStep sym.graph)
      { read_count := List.replicate sym.graph.numNodes 0
        assign_count := List.replicate sym.graph.numNodes 0
        node_states := List.replicate sym.graph.numNodes none
        states := states
        heap := w.varHeap } with
  | error m =>
    rw [hfold] at h
    simp only [except_bind_error] at h
    cases h
  | ok acc =>
    rw [hfold] at h
    simp only [except_bind_ok] at h
    have h2 := Except.ok.inj h
    have he := congrArg Prod.fst h2
    have hst := congrArg (fun p => p.2.1) h2
    have hw := congrArg (fun p => p.2.2) h2
    simp only [] at he hst hw
    obtain ⟨⟨extra, hheap⟩, hlook, hlen, _, hvar⟩ :=
      initScan_inv sym.graph (revRange sym.graph.numNodes) _ acc hfold
    simp only [] at hheap hlen
    rw [← he, ← hst, ← hw]
    refine ⟨rfl, rfl, rfl, rfl, rfl, rfl, rfl, rfl, ?_, rfl, rfl, ⟨extra, ?_⟩, ?_, ?_⟩
    · simpa using hlen
    · simpa using hheap
    · intro k id hk
      exact hlook k id hk
    · intro nid hlt hv
      have hnd : (revRange sym.graph.numNodes).Nodup := by
        simpa [revRange] using List.nodup_range sym.graph.numNodes
      have hm : nid ∈ revRange sym.graph.numNodes := by
        simpa [revRange] using List.mem_range.mpr hlt
      have := hvar hnd nid hm hv (by simpa using hlt)
      simpa using this

/-- The two legs of `TorchSession::Run`: a cache hit runs the cached
executor and only bumps its use count, a miss (absent key or structural
mismatch) silently replaces the whole cache with a freshly built
executor while keeping the shared state map threaded through `Init`. -/
theorem session_run_unfold {env : PassEnv} {symPtr : Nat} {sym : Symbol}
    {inputs : List (String × TBlob)} {s s2 : SessionState} {outs : List TBlob}
    (h : TorchSession.Run env symPtr sym inputs s = Except.ok (s2, outs)) :
    (∃ entry, List.lookup symPtr s.cached = some entry ∧
      symOutputsMatch entry.exec.symbol.outputs sym.outputs = true ∧
      ∃ e2 w2, entry.exec.Run env inputs s.world = Except.ok (e2, w2, outs) ∧
        s2 = { s with
          world := w2
          cached := s.cached.map fun p =>
            if p.1 == symPtr then (p.1, (⟨e2, entry.use_count + 1⟩ : ExecEntry)) else p }) ∨
    ((List.lookup symPtr s.cached = none ∨
       ∃ entry, List.lookup symPtr s.cached = some entry ∧
         symOutputsMatch entry.exec.symbol.outputs sym.outputs = false) ∧
      ∃ e1 states1 w1 e2 w2,
        TorchExecutor.Init s.nextExecId sym s.states s.world = Except.ok (e1, states1, w1) ∧
        TorchExecutor.Run env inputs e1 w1 = Except.ok (e2, w2, outs) ∧
        s2 = { world := w2
               states := states1
               cached := [(symPtr, (⟨e2, 0⟩ : ExecEntry))]
               nextExecId := s.nextExecId + 1 }) := by
  simp only [TorchSession.Run] at h
  have runMissCase :
      ∀ (hmiss : Except String (SessionState × List TBlob)),
        hmiss = (do
          let r ← TorchExecutor.Init s.nextExecId sym s.states s.world
          let (e2, w2, outs) ← TorchExecutor.Run env inputs r.1 r.2.2
          Except.ok
            ({ world := w2
               states := r.2.1
               cached := [(symPtr, (⟨e2, 0⟩ : ExecEntry))]
               nextExecId := s.nextExecId + 1 }, outs)) →
        hmiss = Except.ok (s2, outs) →
        ∃ e1 states1 w1 e2 w2,
          TorchExecutor.Init s.nextExecId sym s.states s.world = Except.ok (e1, states1, w1) ∧
          TorchExecutor.Run env inputs e1 w1 = Except.ok (e2, w2, outs) ∧
          s2 = { world := w2
                 states := states1
                 cached := [(symPtr, (⟨e2, 0⟩ : ExecEntry))]
                 nextExecId := s.nextExecId + 1 } := by
    intro hmiss heq hok
    rw [heq] at hok
    cases hinit : TorchExecutor.Init s.nextExecId sym s.states s.world with
    | error m =>
      rw [hinit] at hok
      simp only [except_bind_error] at hok
      cases hok
    | ok r =>
      obtain ⟨e1, states1, w1⟩ := r
      rw [hinit] at hok
      simp only [except_bind_ok] at hok
      cases hrun : TorchExecutor.Run env inputs e1 w1 with
      | error m =>
        rw [hrun] at hok
        simp only [except_bind_error] at hok
        cases hok
      | ok b =>
        obtain ⟨e2, w2, outs2⟩ := b
        rw [hrun] at hok
        simp only [except_bind_ok] at hok
        have h3 := Except.ok.inj hok
        have hs2 := congrArg Prod.fst h3
        have houts := congrArg Prod.snd h3
        simp only [] at hs2 houts
        refine ⟨e1, states1, w1, e2, w2, rfl, ?_, hs2.symm⟩
        rw [houts] at hrun
        exact hrun
  cases hlk : List.lookup symPtr s.cached with
  | none =>
    rw [hlk] at h
    simp only [] at h
    exact Or.inr ⟨Or.inl rfl, runMissCase _ rfl h⟩
  | some entry =>
    rw [hlk] at h
    simp only [] at h
    by_cases hmatch : symOutputsMatch entry.exec.symbol.outputs sym.outputs = true
    · rw [if_pos hmatch] at h
      cases hrun : TorchExecutor.Run env inputs entry.exec s.world with
      | error m =>
        rw [hrun] at h
        simp only [except_bind_error] at h
        cases h
      | ok b =>
        obtain ⟨e2, w2, outs2⟩ := b
        rw [hrun] at h
        simp only [except_bind_ok] at h
        have h3 := Except.ok.inj h
        have hs2 := congrArg Prod.fst h3
        have houts := congrArg Prod.snd h3
        simp only [] at hs2 houts
        refine Or.inl ⟨entry, rfl, hmatch, e2, w2, ?_, hs2.symm⟩
        rw [houts] at hrun
        exact hrun
    · rw [if_neg hmatch] at h
      refine Or.inr ⟨Or.inr ⟨entry, rfl, Bool.eq_false_iff.mpr hmatch⟩, runMissCase _ rfl h⟩

/-- Project an `Init` result (for building concrete scenarios). -/
def initOf (r : Except String (TorchExecutor × StateMap × World)) :
    TorchExecutor × StateMap × World :=
  match r with
  | Except.ok v => v
  | Except.error _ => default

/-- Project an executor `Run` result (for building concrete scenarios). -/
def runExOf (r : Except String (TorchExecutor × World × List TBlob)) :
    TorchExecutor × World × List TBlob :=
  match r with
  | Except.ok v => v
  | Except.error _ => default

/-- Project the outputs of a session run. -/
def outsOfS (r : Except String (SessionState × List TBlob)) : List TBlob :=
  match r with
  | Except.ok v => v.2
  | Except.error _ => []

/-- A length-3 float input blob (to change the fed shape between runs). -/
def blob3 : TBlob := { shape := [3] }

/-- `gPh` with the placeholder renamed `y`. -/
def gPhY : IGraph :=
  { nodes := [phNode "y", opNode "neg" [⟨0, 0⟩]], outputs := [⟨1, 0⟩] }

/-- Symbol for `gPhY` (node pointer identities 111 and 112). -/
def symPhY : Symbol := { outputs := [⟨112, 0, 0⟩], graph := gPhY }

/-- First session run on `symPh`. -/
def runSesPh1 : Except String (SessionState × List TBlob) :=
  TorchSession.Run env0 7 symPh [("x", blob22)] {}

/-- Session state after the first run on `symPh`. -/
def sesPh1 : SessionState := afterOk runSesPh1

/-- Second session run on `symPh`, same inputs (a structural cache hit). -/
def runSesPh2 : Except String (SessionState × List TBlob) :=
  TorchSession.Run env0 7 symPh [("x", blob22)] sesPh1

/-- Session state after the second run. -/
def sesPh2 : SessionState := afterOk runSesPh2

/-- Fresh-executor construction for `symPh` (executor-level scenarios). -/
def initPh : Except String (TorchExecutor × StateMap × World) :=
  TorchExecutor.Init 0 symPh [] {}

/-- The executor `Init` built for `symPh`. -/
def exPh0 : TorchExecutor := (initOf initPh).1

/-- The world after `Init` for `symPh`. -/
def wPh0 : World := (initOf initPh).2.2

/-- First executor-level run on `exPh0`. -/
def runPh1 : Except String (TorchExecutor × World × List TBlob) :=
  TorchExecutor.Run env0 [("x", blob22)] exPh0 wPh0

/-- Executor after the first run. -/
def exPh1 : TorchExecutor := (runExOf runPh1).1

/-- World after the first run. -/
def wPh1 : World := (runExOf runPh1).2.1

/-- Outputs of the first run. -/
def outsPh1 : List TBlob := (runExOf runPh1).2.2

/-- A `ReflTransGen` chain of `ResetSpace` steps never replaces a set
tensor handle. -/
theorem varSteps_keeps_tensor {s1 s2 : VarState} (t : Nat)
    (h : Relation.ReflTransGen varStep s1 s2) (ht : s1.tensor = some t) :
    s2.tensor = some t := by
  induction h with
  | refl => exact ht
  | tail _ hstep ih =>
    obtain ⟨sh, dv, dt, b, hb⟩ := hstep
    rw [hb]
    exact (resetSpace_keeps_tensor _ sh dv dt b t ih).1

/-- Looking up the updated key after the session cache's map-update. -/
theorem lookup_map_update (l : List (Nat × ExecEntry)) (k : Nat) (v : ExecEntry) :
    List.lookup k (l.map fun p => if p.1 == k then (p.1, v) else p)
      = (List.lookup k l).map fun _ => v := by
  induction l with
  | nil => rfl
  | cons hd tl ih =>
    obtain ⟨k1, v1⟩ := hd
    by_cases hk : k1 = k
    · subst hk
      simp only [List.map_cons]
      rw [if_pos (show (((k1, v1).1 == k1) = true) by simp)]
      simp [List.lookup]
    · simp only [List.map_cons]
      rw [if_neg (show ¬(((k1, v1).1 == k) = true) by simpa using hk)]
      simp only [List.lookup]
      rw [show (k == k1) = false by simpa using Ne.symm hk]
      exact ih

/-- A successful placeholder copy-in implies every scanned placeholder
had a supplied value. -/
theorem copyInputs_ok_lookup (g : IGraph) (inputs : List (String × TBlob)) :
    ∀ (l : List Nat) (de : List (Option Nat)) (b b2 : Backend),
      copyInputs g inputs de l b = Except.ok b2 →
      ∀ nid ∈ l, ∃ v, List.lookup (g.node nid).name inputs = some v := by
  intro l
  induction l with
  | nil =>
    intro de b b2 h nid hm
    exact absurd hm (List.not_mem_nil nid)
  | cons hd tl ih =>
    intro de b b2 h nid hm
    simp only [copyInputs, mapAt] at h
    cases hlk : List.lookup (g.node hd).name inputs with
    | none =>
      rw [hlk] at h
      simp only [except_bind_error] at h
      cases h
    | some v =>
      rw [hlk] at h
      simp only [except_bind_ok] at h
      rcases List.mem_cons.mp hm with heq | hm2
      · subst heq
        exact ⟨v, hlk⟩
      · cases hde : de.getD (g.entryId hd 0) none with
        | none => rw [hde] at h; simp only [] at h; cases h
        | some t =>
          rw [hde] at h
          simp only [] at h
          exact ih de _ b2 h nid hm2

/-- Every successful `Run` performed a successful placeholder copy-in
over the executor's own placeholder list. -/
theorem run_copyInputs_ok (env : PassEnv) (inputs : List (String × TBlob))
    (e e2 : TorchExecutor) (w w2 : World) (outs : List TBlob)
    (h : TorchExecutor.Run env inputs e w = Except.ok (e2, w2, outs)) :
    ∃ de b bout, copyInputs e.graph inputs de e.placeholder_nids b = Except.ok bout := by
  obtain ⟨need, em, wm, es, ws, ec, wc, b1, blobs, hS, hStor, hOpe, hci, _, _, _, _⟩ :=
    run_unfold env inputs e e2 w w2 outs h
  have hssdt := ssdt_spec env inputs e em w wm need hS
  have hem : em.graph = e.graph ∧ em.placeholder_nids = e.placeholder_nids := by
    cases need with
    | false =>
      obtain ⟨he1, _, _⟩ := hssdt.1 rfl
      rw [he1]
      exact ⟨rfl, rfl⟩
    | true =>
      obtain ⟨_, _, _, _, _, _, hFr⟩ := hssdt.2 rfl
      exact ⟨hFr.hgraph, hFr.hph⟩
  have hes : es.graph = e.graph ∧ es.placeholder_nids = e.placeholder_nids := by
    rcases hStor with ⟨_, hst⟩ | ⟨_, hes2, _⟩
    · obtain ⟨_, _, _, _, _, _, _, _, hgr, _, _, _, hph2, _, _, _, _, _, _⟩ :=
        setupStorage_frame env em es wm ws hst
      exact ⟨by rw [hgr, hem.1], by rw [hph2, hem.2]⟩
    · subst hes2
      exact hem
  have hec : ec.graph = e.graph ∧ ec.placeholder_nids = e.placeholder_nids := by
    rcases hOpe with ⟨_, hoe⟩ | ⟨_, hec2, _⟩
    · obtain ⟨_, _, _, _, _, hgr, _, _, _, _, hph2, _, _, _, _, _, _, _, _⟩ :=
        setupOpExecs_frame env es ec ws wc hoe
      exact ⟨by rw [hgr, hes.1], by rw [hph2, hes.2]⟩
    · subst hec2
      exact hes
  refine ⟨ec.data_entry, wc.backend, b1, ?_⟩
  rw [← hec.1, ← hec.2]
  exact hci

/-- The read-variable scan fails with the uninitialized-variable message
at the first uninitialized variable, after any prefix of fully-agreeing
variables. -/
theorem checkReadVars_error_uninit (e : TorchExecutor) (heap : List VarState)
    (ns : List TShape) (nd : List Int) :
    ∀ (pre : List Nat) (nid : Nat) (post : List Nat) (sid : Nat),
      (∀ m ∈ pre, readVarOkB e heap ns nd m = true) →
      e.node_states.getD nid none = some sid →
      (heap.getD sid default).tensor = none →
      checkReadVars e heap ns nd (pre ++ nid :: post) =
        Except.error "Attempt to execute a graph un-initialized Variable" := by
  intro pre
  induction pre with
  | nil =>
    intro nid post sid _ hstate huninit
    simp only [List.nil_append, checkReadVars]
    rw [hstate]
    simp only []
    rw [if_pos (show ((heap.getD sid default).tensor.isNone = true) by rw [huninit]; rfl)]
  | cons m rest ih =>
    intro nid post sid hpre hstate huninit
    have hm := hpre m (List.mem_cons_self m rest)
    unfold readVarOkB at hm
    simp only [List.cons_append, checkReadVars]
    cases hs : e.node_states.getD m none with
    | none =>
      rw [hs] at hm
      cases hm
    | some sidm =>
      rw [hs] at hm
      simp only [Bool.and_eq_true, beq_iff_eq] at hm
      obtain ⟨⟨hinit, hsh⟩, hdt⟩ := hm
      obtain ⟨tv, htv⟩ := Option.isSome_iff_exists.mp hinit
      simp only []
      rw [if_neg (show ¬((heap.getD sidm default).tensor.isNone = true) by rw [htv]; simp)]
      simp only [vecAt]
      rw [hsh]
      simp only [except_bind_ok]
      rw [if_neg (by simp)]
      rw [hdt]
      simp only [except_bind_ok]
      rw [if_neg (by simp)]
      exact ih nid post sid (fun x hx => hpre x (List.mem_cons_of_mem m hx)) hstate huninit

/-- A fatal read-variable scan propagates out of `SetupShapeDType`. -/
theorem ssdt_error_of_checkReadVars (env : PassEnv) (inputs : List (String × TBlob))
    (e : TorchExecutor) (w : World) (m : String)
    (hshape : e.node_shape.isSome = true) (hdtype : e.node_dtype.isSome = true)
    (hc : checkReadVars e w.varHeap (e.node_shape.getD [])
      (e.node_dtype.getD []) e.read_var_nids = Except.error m) :
    e.SetupShapeDType env inputs w = Except.error m := by
  obtain ⟨nsv, hnsv⟩ := Option.isSome_iff_exists.mp hshape
  obtain ⟨ndv, hndv⟩ := Option.isSome_iff_exists.mp hdtype
  simp only [TorchExecutor.SetupShapeDType]
  rw [if_neg (show ¬(e.node_shape.isNone = true) by simp [hnsv])]
  rw [if_neg (show ¬(e.node_dtype.isNone = true) by simp [hndv])]
  rw [hc]
  rfl

/-- An error in `SetupShapeDType` propagates to `Run` unchanged. -/
theorem run_error_of_ssdt_error (env : PassEnv) (inputs : List (String × TBlob))
    (e : TorchExecutor) (w : World) (m : String)
    (h : e.SetupShapeDType env inputs w = Except.error m) :
    TorchExecutor.Run env inputs e w = Except.error m := by
  simp only [TorchExecutor.Run, TorchExecutor.Setup]
  rw [h]
  rfl

/-! ### The claims -/

/-- **C2** (confirmed).  On every successful `Executor.Run`, `Setup`
re-invokes the external shape/type inference passes if and only if
(a) no inference has ever run for this executor, or (b) some
read-variable's live shape/dtype (from its `VarState`) differs from the
cached inference result, or (c) some placeholder's supplied shape/dtype
differs from the cached inference result — the three disjuncts of
`needsReinfer`; when none hold, the cached shape/dtype tables are reused
unchanged and the passes are not invoked. -/
theorem claim_C2 (env : PassEnv) (inputs : List (String × TBlob))
    (e e2 : TorchExecutor) (w w2 : World) (outs : List TBlob)
    (h : TorchExecutor.Run env inputs e w = Except.ok (e2, w2, outs)) :
    ((w2.trace.inferRuns ≠ w.trace.inferRuns) ↔
      needsReinfer e w.varHeap inputs = true) ∧
    (needsReinfer e w.varHeap inputs = false →
      w2.trace.inferRuns = w.trace.inferRuns ∧
      e2.node_shape = e.node_shape ∧ e2.node_dtype = e.node_dtype) := by
  obtain ⟨_, hiff, hfr, _⟩ := run_spec env inputs e e2 w w2 outs h
  exact ⟨hiff, fun hf => ⟨(hfr hf).1, (hfr hf).2.2.2.1, (hfr hf).2.2.2.2⟩⟩

/-- `claim_C2` at a concrete first run on the `neg(placeholder x)`
executor, where inference must fire because it never ran. -/
theorem claim_C2_witness :
    ((wPh1.trace.inferRuns ≠ wPh0.trace.inferRuns) ↔
      needsReinfer exPh0 wPh0.varHeap [("x", blob22)] = true) ∧
    (needsReinfer exPh0 wPh0.varHeap [("x", blob22)] = false →
      wPh1.trace.inferRuns = wPh0.trace.inferRuns ∧
      exPh1.node_shape = exPh0.node_shape ∧ exPh1.node_dtype = exPh0.node_dtype) :=
  claim_C2 env0 [("x", blob22)] exPh0 exPh1 wPh0 wPh1 outsPh1 rfl

/-- **C8** (confirmed).  Closure compilation runs at most once per
executor: a `Run` that starts with no compiled closures compiles them
(one `SetupOpExecs` entry, one closure slot per graph node), and any
`Run` that starts with compiled closures never re-enters `SetupOpExecs`
and leaves the closures untouched — regardless of whether inference or
storage planning re-ran. -/
theorem claim_C8 (env : PassEnv) (inputs : List (String × TBlob))
    (e e2 : TorchExecutor) (w w2 : World) (outs : List TBlob)
    (h : TorchExecutor.Run env inputs e w = Except.ok (e2, w2, outs)) :
    (e.op_execs = [] → w2.trace.compileRuns = w.trace.compileRuns + 1 ∧
      e2.op_execs.length = e.graph.numNodes) ∧
    (e.op_execs ≠ [] → w2.trace.compileRuns = w.trace.compileRuns ∧
      e2.op_execs = e.op_execs) := by
  obtain ⟨_, _, _, hne, hemp, _⟩ := run_spec env inputs e e2 w w2 outs h
  exact ⟨hemp, hne⟩

/-- `claim_C8` at the concrete first run on the `neg(placeholder x)`
executor, which starts with no compiled closures. -/
theorem claim_C8_witness :
    (exPh0.op_execs = [] → wPh1.trace.compileRuns = wPh0.trace.compileRuns + 1 ∧
      exPh1.op_execs.length = exPh0.graph.numNodes) ∧
    (exPh0.op_execs ≠ [] → wPh1.trace.compileRuns = wPh0.trace.compileRuns ∧
      exPh1.op_execs = exPh0.op_execs) :=
  claim_C8 env0 [("x", blob22)] exPh0 exPh1 wPh0 wPh1 outsPh1 rfl

/-- **C4** (amended).  A `Run` whose input map lacks a value for one of
the executor's placeholder nodes always fails with a fatal error and
produces no outputs.  (The original claim further said the error
message identifies the missing placeholder's name; it does not — see
`claim_C4_cex`: the message is a fixed string independent of the name.) -/
theorem claim_C4 (env : PassEnv) (inputs : List (String × TBlob))
    (e : TorchExecutor) (w : World) (nid : Nat)
    (hph : nid ∈ e.placeholder_nids)
    (hmiss : List.lookup (e.graph.node nid).name inputs = none) :
    ∃ msg, TorchExecutor.Run env inputs e w = Except.error msg := by
  cases hr : TorchExecutor.Run env inputs e w with
  | error m => exact ⟨m, rfl⟩
  | ok v =>
    exfalso
    obtain ⟨e2, w2, outs⟩ := v
    obtain ⟨de, b, bout, hci⟩ := run_copyInputs_ok env inputs e e2 w w2 outs hr
    obtain ⟨vv, hvv⟩ :=
      copyInputs_ok_lookup e.graph inputs e.placeholder_nids de b bout hci nid hph
    rw [hmiss] at hvv
    cases hvv

/-- `claim_C4` at the `neg(placeholder x)` executor run with an empty
input map. -/
theorem claim_C4_witness :
    ∃ msg, TorchExecutor.Run env0 [] exPh0 wPh0 = Except.error msg :=
  claim_C4 env0 [] exPh0 wPh0 0 (by decide) rfl

/-- Counterexample to C4's message contents: feeding nothing to the
graph `neg(placeholder x)` and to the same graph with the placeholder
renamed `y` produces the *same* fixed error message, so the message
identifies no placeholder name (it is `unordered_map::at`'s generic
throw, and the CHECK message on the cached path is equally fixed). -/
theorem claim_C4_cex :
    TorchSession.Run env0 7 symPh [] {} =
      Except.error "unordered_map at: key not found" ∧
    TorchSession.Run env0 8 symPhY [] {} =
      Except.error "unordered_map at: key not found" :=
  ⟨rfl, rfl⟩

/-- **C5** (amended).  When the executor holds cached inference results
(so the staleness scan actually runs) and the read-variable scan reaches
a variable whose `VarState` is uninitialized (after a prefix of
fully-agreeing read variables), `Run` fails with exactly the
uninitialized-variable invariant message and produces no outputs.  (The
original claim said *every* run with an uninitialized read variable
fails this way; on a first run — no cached inference — the scan is
skipped and the failure surfaces differently, see `claim_C5_cex`.) -/
theorem claim_C5 (env : PassEnv) (inputs : List (String × TBlob))
    (e : TorchExecutor) (w : World) (pre post : List Nat) (nid sid : Nat)
    (hshape : e.node_shape.isSome = true) (hdtype : e.node_dtype.isSome = true)
    (hlist : e.read_var_nids = pre ++ nid :: post)
    (hpre : ∀ m ∈ pre, readVarOkB e w.varHeap (e.node_shape.getD [])
      (e.node_dtype.getD []) m = true)
    (hstate : e.node_states.getD nid none = some sid)
    (huninit : (w.varHeap.getD sid default).tensor = none) :
    TorchExecutor.Run env inputs e w =
      Except.error "Attempt to execute a graph un-initialized Variable" := by
  apply run_error_of_ssdt_error
  apply ssdt_error_of_checkReadVars env inputs e w _ hshape hdtype
  rw [hlist]
  exact checkReadVars_error_uninit e w.varHeap _ _ pre nid post sid hpre hstate huninit

/-- The concrete executor for `claim_C5_witness`: `neg(v)` with cached
inference results but an uninitialized `VarState` for `v`. -/
def exC5 : TorchExecutor :=
  { symbol := symRead
    graph := gRead
    node_shape := some [[2], [2]]
    node_dtype := some [0, 0]
    read_var_nids := [0]
    node_states := [some 0, none] }

/-- The world for `claim_C5_witness`: one uninitialized `VarState`. -/
def wC5 : World := { varHeap := [{}] }

/-- `claim_C5` at the concrete cached-inference executor over `neg(v)`
with `v` uninitialized. -/
theorem claim_C5_witness :
    TorchExecutor.Run env0 [] exC5 wC5 =
      Except.error "Attempt to execute a graph un-initialized Variable" :=
  claim_C5 env0 [] exC5 wC5 [] [] 0 0 rfl rfl rfl
    (fun m hm => absurd hm (List.not_mem_nil m)) rfl rfl

/-- Counterexample to C5 as stated: a *first* session run on `neg(v)`
with `v` uninitialized fails, but with the incomplete-shape inference
message, not the claimed uninitialized-variable invariant message (the
scan that raises that message only runs on the cached-inference path). -/
theorem claim_C5_cex :
    TorchSession.Run env0 9 symRead [] {} =
      Except.error "Shape information in the graph is in-complete" ∧
    "Shape information in the graph is in-complete" ≠
      "Attempt to execute a graph un-initialized Variable" :=
  ⟨rfl, by decide⟩

/-- **C7** (confirmed).  `ResetSpace(shape, device, dtype)` is a no-op
(state and backend both unchanged) when the variable is initialized and
the requested triple equals the current blob; it reallocates backing
storage (exactly one fresh storage, blob set to the requested triple)
precisely when the tensor is nil or the triple differs; and across a
whole session run every `VarState` of the shared heap evolves only
through `ResetSpace` steps (`varStep`), making it the sole mutator. -/
theorem claim_C7 (s : VarState) (sh : TShape) (dv : Nat) (dt : Int) (b : Backend)
    (env : PassEnv) (symPtr : Nat) (sym : Symbol) (inputs : List (String × TBlob))
    (ss ss2 : SessionState) (outs : List TBlob)
    (hrun : TorchSession.Run env symPtr sym inputs ss = Except.ok (ss2, outs)) :
    (s.tensor.isSome = true → s.blob.shape = sh → s.blob.dev_mask = dv →
      s.blob.dtype = dt → s.ResetSpace sh dv dt b = (s, b)) ∧
    ((s.tensor = none ∨ sh ≠ s.blob.shape ∨ dv ≠ s.blob.dev_mask ∨
        dt ≠ s.blob.dtype) →
      (∀ t, s.tensor = some t → t < b.tensors.length) →
      (s.ResetSpace sh dv dt b).2.storages.length = b.storages.length + 1 ∧
      (s.ResetSpace sh dv dt b).1.blob = ⟨sh, dv, dt⟩) ∧
    (∀ i, i < ss.world.varHeap.length →
      Relation.ReflTransGen varStep (ss.world.varHeap.getD i default)
        (ss2.world.varHeap.getD i default)) := by
  refine ⟨fun h1 h2 h3 h4 => resetSpace_skip s sh dv dt b h1 h2 h3 h4, ?_, ?_⟩
  · intro hcond hv
    obtain ⟨ha, _, hb, _⟩ := resetSpace_realloc s sh dv dt b hcond hv
    exact ⟨ha, hb⟩
  · intro i hi
    rcases session_run_unfold hrun with
      ⟨entry, _, _, e2, w2, hr2, hs2⟩ |
      ⟨_, e1, states1, w1, e2, w2, hinit, hr2, hs2⟩
    · obtain ⟨_, _, _, _, _, _, hsteps, _⟩ :=
        run_spec env inputs entry.exec e2 ss.world w2 outs hr2
      rw [hs2]
      exact hsteps i
    · obtain ⟨_, _, _, _, _, _, _, _, _, _, _, ⟨extra, hheap⟩, _, _⟩ := init_state hinit
      obtain ⟨_, _, _, _, _, _, hsteps, _⟩ := run_spec env inputs e1 e2 w1 w2 outs hr2
      rw [hs2]
      have hgetD : w1.varHeap.getD i default = ss.world.varHeap.getD i default := by
        rw [hheap, List.getD_eq_getElem?_getD, List.getElem?_append_left hi,
          ← List.getD_eq_getElem?_getD]
      have hst := hsteps i
      rw [hgetD] at hst
      exact hst

/-- An initialized `VarState` fixture for `claim_C7_witness`. -/
def vsC7 : VarState := { tensor := some 0, blob := { shape := [2, 2] } }

/-- A backend fixture holding `vsC7`'s tensor and storage. -/
def bkC7 : Backend :=
  { tensors := [{ dev := kCPU, dtype := 0, binding := some (0, [2, 2]) }]
    storages := [{ size := 4, dev := kCPU, dtype := 0 }] }

/-- `claim_C7` at a concrete initialized state with a matching triple,
and the concrete first session run on `neg(placeholder x)`. -/
theorem claim_C7_witness :
    (vsC7.tensor.isSome = true → vsC7.blob.shape = [2, 2] →
      vsC7.blob.dev_mask = kCPU → vsC7.blob.dtype = 0 →
      vsC7.ResetSpace [2, 2] kCPU 0 bkC7 = (vsC7, bkC7)) ∧
    ((vsC7.tensor = none ∨ [2, 2] ≠ vsC7.blob.shape ∨ kCPU ≠ vsC7.blob.dev_mask ∨
        (0 : Int) ≠ vsC7.blob.dtype) →
      (∀ t, vsC7.tensor = some t → t < bkC7.tensors.length) →
      (vsC7.ResetSpace [2, 2] kCPU 0 bkC7).2.storages.length =
        bkC7.storages.length + 1 ∧
      (vsC7.ResetSpace [2, 2] kCPU 0 bkC7).1.blob = ⟨[2, 2], kCPU, 0⟩) ∧
    (∀ i, i < ({} : SessionState).world.varHeap.length →
      Relation.ReflTransGen varStep
        (({} : SessionState).world.varHeap.getD i default)
        (sesPh1.world.varHeap.getD i default)) :=
  claim_C7 vsC7 [2, 2] kCPU 0 bkC7 env0 7 symPh [("x", blob22)] {} sesPh1
    (outsOfS runSesPh1) rfl

/-- **C1** (amended).  On a structural output match the session reuses
the cached executor: no new executor is built (`initRuns` unchanged),
the cache keeps the same executor identity with its use count bumped,
and Phase C does not re-run once closures exist; any structural mismatch
silently discards the whole cache and a fresh executor (with the next
executor identity) replaces it.  (The original claim further said a
matching second call cannot re-trigger Phase A/B; it can — see
`claim_C1_cex`: a cache hit re-runs inference and storage setup when the
fed shapes changed.) -/
theorem claim_C1 (env : PassEnv) (symPtr : Nat) (sym : Symbol)
    (inputs : List (String × TBlob)) (s s2 : SessionState) (outs : List TBlob)
    (hrun : TorchSession.Run env symPtr sym inputs s = Except.ok (s2, outs)) :
    (∀ entry, List.lookup symPtr s.cached = some entry →
      symOutputsMatch entry.exec.symbol.outputs sym.outputs = true →
      s2.world.trace.initRuns = s.world.trace.initRuns ∧
      (∃ e2, List.lookup symPtr s2.cached = some ⟨e2, entry.use_count + 1⟩ ∧
        e2.execId = entry.exec.execId ∧ e2.symbol = entry.exec.symbol ∧
        (entry.exec.op_execs ≠ [] → e2.op_execs = entry.exec.op_execs ∧
          s2.world.trace.compileRuns = s.world.trace.compileRuns))) ∧
    (∀ entry, List.lookup symPtr s.cached = some entry →
      symOutputsMatch entry.exec.symbol.outputs sym.outputs = false →
      s2.world.trace.initRuns = s.world.trace.initRuns + 1 ∧
      ∃ en, s2.cached = [(symPtr, en)] ∧ en.exec.execId = s.nextExecId) := by
  rcases session_run_unfold hrun with
    ⟨entry0, hlk0, hmatch0, e2, w2, hr2, hs2⟩ |
    ⟨hmiss, e1, states1, w1, e2, w2, hinit, hr2, hs2⟩
  · obtain ⟨h1, _, _, h4, _, _, _, h8, _, h10, _⟩ :=
      run_spec env inputs entry0.exec e2 s.world w2 outs hr2
    constructor
    · intro entry hlk hmatch
      rw [hlk0] at hlk
      have he : entry0 = entry := Option.some.inj hlk
      subst he
      refine ⟨?_, e2, ?_, h10, h8, ?_⟩
      · rw [hs2]
        exact h1
      · rw [hs2]
        simp only []
        rw [lookup_map_update s.cached symPtr ⟨e2, entry0.use_count + 1⟩, hlk0]
        rfl
      · intro hne
        exact ⟨(h4 hne).2, by rw [hs2]; exact (h4 hne).1⟩
    · intro entry hlk hmatch
      rw [hlk0] at hlk
      have he : entry0 = entry := Option.some.inj hlk
      subst he
      rw [hmatch0] at hmatch
      exact absurd hmatch (by decide)
  · obtain ⟨hsym1, hgr1, hid1, _, _, _, _, _, _, _, htr1, _, _, _⟩ := init_state hinit
    obtain ⟨h1, _, _, _, _, _, _, _, _, h10, _⟩ :=
      run_spec env inputs e1 e2 w1 w2 outs hr2
    constructor
    · intro entry hlk hmatch
      rcases hmiss with hnone | ⟨entry', hlk', hmatch'⟩
      · rw [hnone] at hlk
        cases hlk
      · rw [hlk'] at hlk
        have he : entry' = entry := Option.some.inj hlk
        subst he
        rw [hmatch'] at hmatch
        exact absurd hmatch (by decide)
    · intro entry hlk hmatch
      refine ⟨?_, ⟨e2, 0⟩, ?_, ?_⟩
      · rw [hs2]
        simp only []
        rw [h1, htr1]
      · rw [hs2]
      · simp only []
        rw [h10, hid1]

/-- `claim_C1` at the concrete structurally-identical second session run
on `neg(placeholder x)`. -/
theorem claim_C1_witness :
    (∀ entry, List.lookup 7 sesPh1.cached = some entry →
      symOutputsMatch entry.exec.symbol.outputs symPh.outputs = true →
      sesPh2.world.trace.initRuns = sesPh1.world.trace.initRuns ∧
      (∃ e2, List.lookup 7 sesPh2.cached = some ⟨e2, entry.use_count + 1⟩ ∧
        e2.execId = entry.exec.execId ∧ e2.symbol = entry.exec.symbol ∧
        (entry.exec.op_execs ≠ [] → e2.op_execs = entry.exec.op_execs ∧
          sesPh2.world.trace.compileRuns = sesPh1.world.trace.compileRuns))) ∧
    (∀ entry, List.lookup 7 sesPh1.cached = some entry →
      symOutputsMatch entry.exec.symbol.outputs symPh.outputs = false →
      sesPh2.world.trace.initRuns = sesPh1.world.trace.initRuns + 1 ∧
      ∃ en, sesPh2.cached = [(7, en)] ∧ en.exec.execId = sesPh1.nextExecId) :=
  claim_C1 env0 7 symPh [("x", blob22)] sesPh1 sesPh2 (outsOfS runSesPh2) rfl

/-- Second session run on `symPh` with a *different* fed shape `[3]`:
still a structural cache hit. -/
def runSesPh2b : Except String (SessionState × List TBlob) :=
  TorchSession.Run env0 7 symPh [("x", blob3)] sesPh1

/-- Session state after the changed-shape second run. -/
def sesPh2b : SessionState := afterOk runSesPh2b

/-- Counterexample to C1 as stated: the second call's graph outputs
match the cached executor's structurally (and the executor *is* reused:
`initRuns` stays 1 and the executor identity is preserved), yet Phase A
and Phase B both re-trigger — `inferRuns` and `storageRuns` go from 1
to 2 — because the placeholder was fed a different shape. -/
theorem claim_C1_cex :
    TorchSession.Run env0 7 symPh [("x", blob3)] sesPh1 =
      Except.ok (sesPh2b, outsOfS runSesPh2b) ∧
    symOutputsMatch (execOf sesPh1).symbol.outputs symPh.outputs = true ∧
    sesPh2b.world.trace.initRuns = sesPh1.world.trace.initRuns ∧
    (execOf sesPh2b).execId = (execOf sesPh1).execId ∧
    sesPh1.world.trace.inferRuns = 1 ∧ sesPh2b.world.trace.inferRuns = 2 ∧
    sesPh1.world.trace.storageRuns = 1 ∧ sesPh2b.world.trace.storageRuns = 2 :=
  ⟨rfl, rfl, rfl, rfl, rfl, rfl, rfl, rfl⟩

/-- **C9** (confirmed).  A cache-missing session run evicts only the
executor: every binding of the shared variable-state map survives, every
pre-existing `VarState` heap slot evolves only through `ResetSpace`
steps (its tensor handle, once set, surviving verbatim), and the freshly
built executor observes exactly the shared map's states — its
node-state table sends every variable node to its name's binding. -/
theorem claim_C9 (env : PassEnv) (symPtr : Nat) (sym : Symbol)
    (inputs : List (String × TBlob)) (s s2 : SessionState) (outs : List TBlob)
    (hrun : TorchSession.Run env symPtr sym inputs s = Except.ok (s2, outs))
    (hmiss : ∀ entry, List.lookup symPtr s.cached = some entry →
      symOutputsMatch entry.exec.symbol.outputs sym.outputs = false) :
    (∀ k id, List.lookup k s.states = some id → List.lookup k s2.states = some id) ∧
    (∀ i, i < s.world.varHeap.length →
      Relation.ReflTransGen varStep (s.world.varHeap.getD i default)
        (s2.world.varHeap.getD i default) ∧
      ∀ t, (s.world.varHeap.getD i default).tensor = some t →
        (s2.world.varHeap.getD i default).tensor = some t) ∧
    (∃ en, s2.cached = [(symPtr, en)] ∧
      en.exec.node_states.length = sym.graph.numNodes ∧
      ∀ nid, nid < sym.graph.numNodes → (sym.graph.node nid).isVar = true →
        en.exec.node_states.getD nid none =
          List.lookup (sym.graph.node nid).name s2.states) := by
  rcases session_run_unfold hrun with
    ⟨entry0, hlk0, hmatch0, _, _, _, _⟩ |
    ⟨_, e1, states1, w1, e2, w2, hinit, hr2, hs2⟩
  · rw [hmiss entry0 hlk0] at hmatch0
    exact absurd hmatch0 (by decide)
  · obtain ⟨hsym1, hgr1, hid1, _, _, _, _, _, hnslen, _, htr1, ⟨extra, hheap⟩,
      hlook1, hvar1⟩ := init_state hinit
    obtain ⟨_, _, _, _, _, _, hsteps, _, _, _, _, _, _, hns2⟩ :=
      run_spec env inputs e1 e2 w1 w2 outs hr2
    refine ⟨?_, ?_, ⟨e2, 0⟩, ?_, ?_, ?_⟩
    · intro k id hk
      rw [hs2]
      exact hlook1 k id hk
    · intro i hi
      have hgetD : w1.varHeap.getD i default = s.world.varHeap.getD i default := by
        rw [hheap, List.getD_eq_getElem?_getD, List.getElem?_append_left hi,
          ← List.getD_eq_getElem?_getD]
      have hst := hsteps i
      rw [hgetD] at hst
      rw [hs2]
      exact ⟨hst, fun t ht => varSteps_keeps_tensor t hst ht⟩
    · rw [hs2]
    · simp only []
      rw [hns2, hnslen]
    · intro nid hlt hv
      rw [hs2]
      simp only []
      rw [hns2]
      exact hvar1 nid hlt hv

/-- `claim_C9` at the concrete first run on an empty session (a trivial
cache miss). -/
theorem claim_C9_witness :
    (∀ k id, List.lookup k ({} : SessionState).states = some id →
      List.lookup k sesPh1.states = some id) ∧
    (∀ i, i < ({} : SessionState).world.varHeap.length →
      Relation.ReflTransGen varStep
        (({} : SessionState).world.varHeap.getD i default)
        (sesPh1.world.varHeap.getD i default) ∧
      ∀ t, (({} : SessionState).world.varHeap.getD i default).tensor = some t →
        (sesPh1.world.varHeap.getD i default).tensor = some t) ∧
    (∃ en, sesPh1.cached = [(7, en)] ∧
      en.exec.node_states.length = symPh.graph.numNodes ∧
      ∀ nid, nid < symPh.graph.numNodes → (symPh.graph.node nid).isVar = true →
        en.exec.node_states.getD nid none =
          List.lookup (symPh.graph.node nid).name sesPh1.states) :=
  claim_C9 env0 7 symPh [("x", blob22)] {} sesPh1 (outsOfS runSesPh1) rfl
    (fun _ h => Option.noConfusion h)

/-! ### Read/assign classification (`Init` scan counts) -/

/-- Per-node contribution to the `Init` scan's read counter at variable
id `vid`, mirroring the loop's branch structure: an assignment counts
its *target* (input slot 0) once, any other operation counts every
input occurrence, variables and placeholders count nothing. -/
def readContrib (g : IGraph) (m vid : Nat) : Nat :=
  let node := g.node m
  if node.isVar then 0
  else if node.op == "placeholder" then 0
  else if node.op == "assign" then
    if (node.inputs.getD 0 default).node_id == vid then 1 else 0
  else node.inputs.countP (fun e => e.node_id == vid)

/-- Per-node contribution to the assign counter: only an assignment's
target slot counts. -/
def assignContrib (g : IGraph) (m vid : Nat) : Nat :=
  let node := g.node m
  if node.isVar then 0
  else if node.op == "placeholder" then 0
  else if node.op == "assign" then
    if (node.inputs.getD 0 default).node_id == vid then 1 else 0
  else 0

/-- Closed-form total of the read counter a full `Init` scan accumulates
for variable id `vid`. -/
def codeReadCount (g : IGraph) (vid : Nat) : Nat :=
  ((List.range g.numNodes).map fun m => readContrib g m vid).sum

/-- Closed-form total of the assign counter. -/
def codeAssignCount (g : IGraph) (vid : Nat) : Nat :=
  ((List.range g.numNodes).map fun m => assignContrib g m vid).sum

/-- The *spec's wording* of "read" (claim-side definition, for
comparison): some node consumed the variable as an input other than
through an assignment's target slot (input slot 0 of an assignment). -/
def specReadVar (g : IGraph) (vid : Nat) : Bool :=
  (List.range g.numNodes).any fun m =>
    !(g.node m).isVar &&
      (if (g.node m).op == "assign" then
        ((g.node m).inputs.drop 1).any fun e => e.node_id == vid
      else (g.node m).inputs.any fun e => e.node_id == vid)

/-- The *spec's wording* of "assigned": the variable is the target
(input slot 0) of some assignment-kind operation. -/
def specAssignedVar (g : IGraph) (vid : Nat) : Bool :=
  (List.range g.numNodes).any fun m =>
    !(g.node m).isVar && ((g.node m).op == "assign") &&
      (((g.node m).inputs.getD 0 default).node_id == vid)

theorem incAt_length (l : List Nat) (i : Nat) : (incAt l i).length = l.length :=
  List.length_set l i _

theorem incAt_getD_self (l : List Nat) (i : Nat) (h : i < l.length) :
    (incAt l i).getD i 0 = l.getD i 0 + 1 :=
  getD_set_self l i _ 0 h

theorem incAt_getD_ne (l : List Nat) (i j : Nat) (hne : i ≠ j) :
    (incAt l i).getD j 0 = l.getD j 0 :=
  getD_set_ne l i j _ 0 hne

/-- The ordinary-operation fold of `incAt` adds, at each index, the
number of input occurrences of that index. -/
theorem foldIncAt (i : Nat) :
    ∀ (es : List IEntry) (rc : List Nat), (∀ e ∈ es, e.node_id < rc.length) →
      (es.foldl (fun rc e => incAt rc e.node_id) rc).length = rc.length ∧
      (es.foldl (fun rc e => incAt rc e.node_id) rc).getD i 0 =
        rc.getD i 0 + es.countP (fun e => e.node_id == i) := by
  intro es
  induction es with
  | nil =>
    intro rc _
    exact ⟨rfl, by simp⟩
  | cons hd tl ih =>
    intro rc h
    simp only [List.foldl_cons]
    have hbound : ∀ e ∈ tl, e.node_id < (incAt rc hd.node_id).length := by
      intro e he
      rw [incAt_length]
      exact h e (List.mem_cons_of_mem hd he)
    obtain ⟨hlen, hgd⟩ := ih (incAt rc hd.node_id) hbound
    refine ⟨by rw [hlen, incAt_length], ?_⟩
    rw [hgd, List.countP_cons]
    by_cases hi : hd.node_id = i
    · subst hi
      rw [incAt_getD_self rc hd.node_id (h hd (List.mem_cons_self hd tl))]
      simp only [beq_self_eq_true, if_pos]
      omega
    · rw [incAt_getD_ne rc hd.node_id i hi]
      have : (hd.node_id == i) = false := by simpa using hi
      rw [this]
      simp

/-- One `Init` step changes the two counters by exactly the node's
contributions, preserving their lengths. -/
theorem initStep_counts (g : IGraph) (acc acc1 : InitAcc) (m : Nat)
    (h : initStep g acc m = Except.ok acc1)
    (hlen : acc.assign_count.length = acc.read_count.length)
    (hin : ∀ e ∈ (g.node m).inputs, e.node_id < acc.read_count.length) :
    acc1.read_count.length = acc.read_count.length ∧
    acc1.assign_count.length = acc.assign_count.length ∧
    (∀ i, acc1.read_count.getD i 0 = acc.read_count.getD i 0 + readContrib g m i) ∧
    (∀ i, acc1.assign_count.getD i 0 =
      acc.assign_count.getD i 0 + assignContrib g m i) := by
  simp only [initStep] at h
  by_cases hv : (g.node m).isVar = true
  · rw [if_pos hv] at h
    cases hlk : List.lookup (g.node m).name acc.states with
    | some sid0 =>
      rw [hlk] at h
      simp only [] at h
      cases h
      exact ⟨rfl, rfl, fun i => by simp [readContrib, hv],
        fun i => by simp [assignContrib, hv]⟩
    | none =>
      rw [hlk] at h
      simp only [] at h
      cases h
      exact ⟨rfl, rfl, fun i => by simp [readContrib, hv],
        fun i => by simp [assignContrib, hv]⟩
  · rw [if_neg hv] at h
    have hv2 : (g.node m).isVar = false := Bool.eq_false_iff.mpr hv
    by_cases hph : ((g.node m).op == "placeholder") = true
    · rw [if_pos hph] at h
      cases h
      exact ⟨rfl, rfl, fun i => by simp [readContrib, hv2, hph],
        fun i => by simp [assignContrib, hv2, hph]⟩
    · rw [if_neg hph] at h
      have hph2 : ((g.node m).op == "placeholder") = false := Bool.eq_false_iff.mpr hph
      by_cases has : ((g.node m).op == "assign") = true
      · rw [if_pos has] at h
        by_cases har : (g.node m).inputs.length ≠ 2
        · rw [if_pos har] at h
          cases h
        · rw [if_neg har] at h
          cases h
          have har2 : (g.node m).inputs.length = 2 := not_not.mp har
          have htarget : (g.node m).inputs.getD 0 default ∈ (g.node m).inputs := by
            cases hinp : (g.node m).inputs with
            | nil => rw [hinp] at har2; cases har2
            | cons a rest => simp
          have hbound : ((g.node m).inputs.getD 0 default).node_id
              < acc.read_count.length := hin _ htarget
          refine ⟨incAt_length _ _, incAt_length _ _, ?_, ?_⟩
          · intro i
            by_cases hi : ((g.node m).inputs.getD 0 default).node_id = i
            · rw [← hi, incAt_getD_self _ _ hbound]
              simp only [readContrib, hv2, hph2, has]
              simp
            · rw [incAt_getD_ne _ _ _ hi]
              have h3 : ¬((g.node m).inputs[0]?.getD default).node_id = i := by
                simpa using hi
              simp [readContrib, hv2, hph2, has, h3]
          · intro i
            by_cases hi : ((g.node m).inputs.getD 0 default).node_id = i
            · rw [← hi, incAt_getD_self _ _ (hlen ▸ hbound)]
              simp only [assignContrib, hv2, hph2, has]
              simp
            · rw [incAt_getD_ne _ _ _ hi]
              have h3 : ¬((g.node m).inputs[0]?.getD default).node_id = i := by
                simpa using hi
              simp [assignContrib, hv2, hph2, has, h3]
      · rw [if_neg has] at h
        cases h
        have has2 : ((g.node m).op == "assign") = false := Bool.eq_false_iff.mpr has
        refine ⟨(foldIncAt 0 _ _ hin).1, rfl, ?_, ?_⟩
        · intro i
          obtain ⟨_, hgd⟩ := foldIncAt i (g.node m).inputs acc.read_count hin
          rw [hgd]
          simp [readContrib, hv2, hph2, has2]
        · intro i
          simp [assignContrib, hv2, hph2, has2]

/-- One `Init` step's effect on the classification lists: a variable
node appends itself to each list precisely when the matching counter is
non-zero, any other node leaves both lists alone. -/
theorem initStep_varnids (g : IGraph) (acc acc1 : InitAcc) (m : Nat)
    (h : initStep g acc m = Except.ok acc1) :
    ((g.node m).isVar = true →
      (acc1.read_var_nids = if acc.read_count.getD m 0 ≠ 0
        then acc.read_var_nids ++ [m] else acc.read_var_nids) ∧
      (acc1.assign_var_nids = if acc.assign_count.getD m 0 ≠ 0
        then acc.assign_var_nids ++ [m] else acc.assign_var_nids)) ∧
    ((g.node m).isVar = false →
      acc1.read_var_nids = acc.read_var_nids ∧
      acc1.assign_var_nids = acc.assign_var_nids) := by
  simp only [initStep] at h
  by_cases hv : (g.node m).isVar = true
  · rw [if_pos hv] at h
    cases hlk : List.lookup (g.node m).name acc.states with
    | some sid0 =>
      rw [hlk] at h
      simp only [] at h
      cases h
      exact ⟨fun _ => ⟨rfl, rfl⟩, fun hf => absurd hv (by simp [hf])⟩
    | none =>
      rw [hlk] at h
      simp only [] at h
      cases h
      exact ⟨fun _ => ⟨rfl, rfl⟩, fun hf => absurd hv (by simp [hf])⟩
  · rw [if_neg hv] at h
    have hlists : acc1.read_var_nids = acc.read_var_nids ∧
        acc1.assign_var_nids = acc.assign_var_nids := by
      by_cases hph : ((g.node m).op == "placeholder") = true
      · rw [if_pos hph] at h
        cases h
        exact ⟨rfl, rfl⟩
      · rw [if_neg hph] at h
        by_cases has : ((g.node m).op == "assign") = true
        · rw [if_pos has] at h
          by_cases har : (g.node m).inputs.length ≠ 2
          · rw [if_pos har] at h
            cases h
          · rw [if_neg har] at h
            cases h
            exact ⟨rfl, rfl⟩
        · rw [if_neg has] at h
          cases h
          exact ⟨rfl, rfl⟩
    exact ⟨fun ht => absurd ht hv, fun _ => hlists⟩

/-- A successful scan forces every processed assignment node to have
exactly two inputs. -/
theorem scanAssignArity (g : IGraph) :
    ∀ (L : List Nat) (acc acc2 : InitAcc),
      L.foldlM (initStep g) acc = Except.ok acc2 →
      ∀ m ∈ L, (g.node m).isVar = false → ((g.node m).op == "assign") = true →
        (g.node m).inputs.length = 2 := by
  intro L
  induction L with
  | nil =>
    intro acc acc2 _ m hm
    exact absurd hm (List.not_mem_nil m)
  | cons hd tl ih =>
    intro acc acc2 h m hm hv has
    rw [List.foldlM_cons] at h
    cases hstep : initStep g acc hd with
    | error msg =>
      rw [hstep] at h
      simp only [except_bind_error] at h
      cases h
    | ok acc1 =>
      rw [hstep] at h
      simp only [except_bind_ok] at h
      rcases List.mem_cons.mp hm with heq | hm2
      · subst heq
        have hop : (g.node m).op = "assign" := by simpa using has
        have hph : ((g.node m).op == "placeholder") = false := by rw [hop]; rfl
        simp only [initStep] at hstep
        rw [if_neg (by simp [hv]), if_neg (by simp [hph]), if_pos has] at hstep
        by_cases har : (g.node m).inputs.length ≠ 2
        · rw [if_pos har] at hstep
          cases hstep
        · exact not_not.mp har
      · exact ih acc1 acc2 h m hm2 hv has

/-- The classification lists only grow during a scan, and only by
processed node ids. -/
theorem scanVarNids_append (g : IGraph) :
    ∀ (L : List Nat) (acc acc2 : InitAcc),
      L.foldlM (initStep g) acc = Except.ok acc2 →
      (∃ ex1, acc2.read_var_nids = acc.read_var_nids ++ ex1 ∧ ∀ x ∈ ex1, x ∈ L) ∧
      (∃ ex2, acc2.assign_var_nids = acc.assign_var_nids ++ ex2 ∧
        ∀ x ∈ ex2, x ∈ L) := by
  intro L
  induction L with
  | nil =>
    intro acc acc2 h
    cases h
    exact ⟨⟨[], by simp, fun x hx => absurd hx (List.not_mem_nil x)⟩,
      ⟨[], by simp, fun x hx => absurd hx (List.not_mem_nil x)⟩⟩
  | cons hd tl ih =>
    intro acc acc2 h
    rw [List.foldlM_cons] at h
    cases hstep : initStep g acc hd with
    | error msg =>
      rw [hstep] at h
      simp only [except_bind_error] at h
      cases h
    | ok acc1 =>
      rw [hstep] at h
      simp only [except_bind_ok] at h
      obtain ⟨⟨ex1, hex1, hin1⟩, ⟨ex2, hex2, hin2⟩⟩ := ih acc1 acc2 h
      obtain ⟨hvarcase, hnonvar⟩ := initStep_varnids g acc acc1 hd hstep
      have hstep1 : (∃ d1, acc1.read_var_nids = acc.read_var_nids ++ d1 ∧
          ∀ x ∈ d1, x = hd) ∧
          (∃ d2, acc1.assign_var_nids = acc.assign_var_nids ++ d2 ∧
            ∀ x ∈ d2, x = hd) := by
        by_cases hv : (g.node hd).isVar = true
        · obtain ⟨hr, ha⟩ := hvarcase hv
          constructor
          · by_cases hc : acc.read_count.getD hd 0 ≠ 0
            · rw [hr, if_pos hc]
              exact ⟨[hd], rfl, fun x hx => by simpa using hx⟩
            · rw [hr, if_neg hc]
              exact ⟨[], by simp, fun x hx => absurd hx (List.not_mem_nil x)⟩
          · by_cases hc : acc.assign_count.getD hd 0 ≠ 0
            · rw [ha, if_pos hc]
              exact ⟨[hd], rfl, fun x hx => by simpa using hx⟩
            · rw [ha, if_neg hc]
              exact ⟨[], by simp, fun x hx => absurd hx (List.not_mem_nil x)⟩
        · obtain ⟨hr, ha⟩ := hnonvar (Bool.eq_false_iff.mpr hv)
          exact ⟨⟨[], by simp [hr], fun x hx => absurd hx (List.not_mem_nil x)⟩,
            ⟨[], by simp [ha], fun x hx => absurd hx (List.not_mem_nil x)⟩⟩
      obtain ⟨⟨d1, hD1, hdm1⟩, ⟨d2, hD2, hdm2⟩⟩ := hstep1
      constructor
      · refine ⟨d1 ++ ex1, by rw [hex1, hD1, List.append_assoc], ?_⟩
        intro x hx
        rcases List.mem_append.mp hx with hx1 | hx2
        · rw [hdm1 x hx1]
          exact List.mem_cons_self hd tl
        · exact List.mem_cons_of_mem hd (hin1 x hx2)
      · refine ⟨d2 ++ ex2, by rw [hex2, hD2, List.append_assoc], ?_⟩
        intro x hx
        rcases List.mem_append.mp hx with hx1 | hx2
        · rw [hdm2 x hx1]
          exact List.mem_cons_self hd tl
        · exact List.mem_cons_of_mem hd (hin2 x hx2)

/-- The central scan invariant: over a strictly-decreasing node list
whose members stay within the counter bounds, a variable node ends up in
a classification list precisely when its incoming counter value plus the
contributions of the list's larger members is non-zero. -/
theorem scanClassify (g : IGraph) :
    ∀ (L : List Nat),
      (∀ m ∈ L, ∀ ie ∈ (g.node m).inputs, ie.node_id < m) →
      ∀ (acc acc2 : InitAcc),
      L.foldlM (initStep g) acc = Except.ok acc2 →
      L.Pairwise (· > ·) →
      (∀ m ∈ L, m < acc.read_count.length) →
      acc.assign_count.length = acc.read_count.length →
      ∀ nid ∈ L, (g.node nid).isVar = true →
        ((nid ∈ acc2.read_var_nids ↔ nid ∈ acc.read_var_nids ∨
          acc.read_count.getD nid 0 +
            ((L.filter fun m => decide (nid < m)).map
              fun m => readContrib g m nid).sum ≠ 0) ∧
        (nid ∈ acc2.assign_var_nids ↔ nid ∈ acc.assign_var_nids ∨
          acc.assign_count.getD nid 0 +
            ((L.filter fun m => decide (nid < m)).map
              fun m => assignContrib g m nid).sum ≠ 0)) := by
  intro L
  induction L with
  | nil =>
    intro _ acc acc2 _ _ _ _ nid hm
    exact absurd hm (List.not_mem_nil nid)
  | cons hd tl ih =>
    intro hwf acc acc2 h hpw hbound hlen nid hm hv
    rw [List.foldlM_cons] at h
    cases hstep : initStep g acc hd with
    | error msg =>
      rw [hstep] at h
      simp only [except_bind_error] at h
      cases h
    | ok acc1 =>
      rw [hstep] at h
      simp only [except_bind_ok] at h
      have hwftl : ∀ m ∈ tl, ∀ ie ∈ (g.node m).inputs, ie.node_id < m :=
        fun m hm2 => hwf m (List.mem_cons_of_mem hd hm2)
      have hhdlt : hd < acc.read_count.length := hbound hd (List.mem_cons_self hd tl)
      have hinhd : ∀ e ∈ (g.node hd).inputs, e.node_id < acc.read_count.length := by
        intro e he
        exact Nat.lt_trans (hwf hd (List.mem_cons_self hd tl) e he) hhdlt
      obtain ⟨hlen1, hlen1a, hrc1, hac1⟩ := initStep_counts g acc acc1 hd hstep hlen hinhd
      have hbound1 : ∀ m ∈ tl, m < acc1.read_count.length := by
        intro m hmtl
        rw [hlen1]
        exact hbound m (List.mem_cons_of_mem hd hmtl)
      have hlen1b : acc1.assign_count.length = acc1.read_count.length := by
        rw [hlen1, hlen1a, hlen]
      have hpwtl : tl.Pairwise (· > ·) := (List.pairwise_cons.mp hpw).2
      have hhdgt : ∀ b ∈ tl, hd > b := (List.pairwise_cons.mp hpw).1
      rcases List.mem_cons.mp hm with heq | hmtl
      · subst heq
        obtain ⟨hvarcase, _⟩ := initStep_varnids g acc acc1 nid hstep
        obtain ⟨hr1, ha1⟩ := hvarcase hv
        obtain ⟨⟨ex1, hex1, hin1⟩, ⟨ex2, hex2, hin2⟩⟩ := scanVarNids_append g tl acc1 acc2 h
        have hnidtl : nid ∉ tl := fun hx => absurd (hhdgt nid hx) (Nat.lt_irrefl nid)
        have hfilter : ((nid :: tl).filter fun m => decide (nid < m)) = [] := by
          rw [List.filter_cons_of_neg (by simp)]
          rw [List.filter_eq_nil_iff]
          intro m hmtl
          have := hhdgt m hmtl
          simp only [decide_eq_true_eq]
          omega
        rw [hfilter]
        constructor
        · rw [hex1, hr1]
          constructor
          · intro hmem
            rcases List.mem_append.mp hmem with hx | hx
            · by_cases hc : acc.read_count.getD nid 0 ≠ 0
              · right
                simpa using hc
              · rw [if_neg hc] at hx
                exact Or.inl hx
            · exact absurd (hin1 nid hx) hnidtl
          · intro hmem
            rcases hmem with hx | hx
            · by_cases hc : acc.read_count.getD nid 0 ≠ 0
              · rw [if_pos hc]
                exact List.mem_append_left _ (List.mem_append_left _ hx)
              · rw [if_neg hc]
                exact List.mem_append_left _ hx
            · have hc : acc.read_count.getD nid 0 ≠ 0 := by simpa using hx
              rw [if_pos hc]
              exact List.mem_append_left _ (List.mem_append_right _ (by simp))
        · rw [hex2, ha1]
          constructor
          · intro hmem
            rcases List.mem_append.mp hmem with hx | hx
            · by_cases hc : acc.assign_count.getD nid 0 ≠ 0
              · right
                simpa using hc
              · rw [if_neg hc] at hx
                exact Or.inl hx
            · exact absurd (hin2 nid hx) hnidtl
          · intro hmem
            rcases hmem with hx | hx
            · by_cases hc : acc.assign_count.getD nid 0 ≠ 0
              · rw [if_pos hc]
                exact List.mem_append_left _ (List.mem_append_left _ hx)
              · rw [if_neg hc]
                exact List.mem_append_left _ hx
            · have hc : acc.assign_count.getD nid 0 ≠ 0 := by simpa using hx
              rw [if_pos hc]
              exact List.mem_append_left _ (List.mem_append_right _ (by simp))
      · have hnidhd : nid < hd := hhdgt nid hmtl
        obtain ⟨hiff1, hiff2⟩ := ih hwftl acc1 acc2 h hpwtl hbound1 hlen1b nid hmtl hv
        have hstep1 : (nid ∈ acc1.read_var_nids ↔ nid ∈ acc.read_var_nids) ∧
            (nid ∈ acc1.assign_var_nids ↔ nid ∈ acc.assign_var_nids) := by
          obtain ⟨hvarcase, hnonvar⟩ := initStep_varnids g acc acc1 hd hstep
          by_cases hvhd : (g.node hd).isVar = true
          · obtain ⟨hr1, ha1⟩ := hvarcase hvhd
            have hne : nid ≠ hd := by omega
            constructor
            · rw [hr1]
              by_cases hc : acc.read_count.getD hd 0 ≠ 0
              · rw [if_pos hc]
                simp [hne]
              · rw [if_neg hc]
            · rw [ha1]
              by_cases hc : acc.assign_count.getD hd 0 ≠ 0
              · rw [if_pos hc]
                simp [hne]
              · rw [if_neg hc]
          · obtain ⟨hr1, ha1⟩ := hnonvar (Bool.eq_false_iff.mpr hvhd)
            rw [hr1, ha1]
            exact ⟨Iff.rfl, Iff.rfl⟩
        have hfilter : ((hd :: tl).filter fun m => decide (nid < m)) =
            hd :: (tl.filter fun m => decide (nid < m)) :=
          List.filter_cons_of_pos (by simpa using hnidhd)
        rw [hfilter]
        simp only [List.map_cons, List.sum_cons]
        constructor
        · rw [hiff1, hstep1.1, hrc1 nid, Nat.add_assoc]
        · rw [hiff2, hstep1.2, hac1 nid, Nat.add_assoc]

/-- Dropping filtered-out elements whose value vanishes preserves a
mapped sum. -/
theorem sum_filter_eq_sum (p : Nat → Bool) (f : Nat → Nat) :
    ∀ l : List Nat, (∀ x ∈ l, p x = false → f x = 0) →
      ((l.filter p).map f).sum = (l.map f).sum := by
  intro l
  induction l with
  | nil =>
    intro _
    rfl
  | cons hd tl ih =>
    intro h
    have htl := fun x hx => h x (List.mem_cons_of_mem hd hx)
    by_cases hp : p hd = true
    · rw [List.filter_cons_of_pos hp]
      simp only [List.map_cons, List.sum_cons]
      rw [ih htl]
    · have hp2 : p hd = false := Bool.eq_false_iff.mpr hp
      rw [List.filter_cons_of_neg (by simp [hp2])]
      simp only [List.map_cons, List.sum_cons]
      rw [ih htl, h hd (List.mem_cons_self hd tl) hp2]
      omega

/-- `Init`'s traversal order is strictly decreasing. -/
theorem revRange_pairwise (n : Nat) : (revRange n).Pairwise (· > ·) := by
  unfold revRange
  rw [List.pairwise_reverse]
  exact List.pairwise_lt_range n

/-- A filtered sum over the reverse traversal equals the full forward
sum when the filtered-out contributions vanish. -/
theorem revRange_filtered_sum (n : Nat) (p : Nat → Bool) (f : Nat → Nat)
    (hvanish : ∀ x ∈ List.range n, p x = false → f x = 0) :
    (((revRange n).filter p).map f).sum = ((List.range n).map f).sum := by
  unfold revRange
  rw [List.filter_reverse, List.map_reverse, List.sum_reverse]
  exact sum_filter_eq_sum p f (List.range n) hvanish

theorem sum_map_ne_zero_iff (f : Nat → Nat) (l : List Nat) :
    (l.map f).sum ≠ 0 ↔ ∃ m ∈ l, f m ≠ 0 := by
  constructor
  · intro h
    by_contra hno
    apply h
    rw [List.sum_eq_zero_iff]
    intro x hx
    obtain ⟨m, hm, hfm⟩ := List.mem_map.mp hx
    by_contra hx0
    exact hno ⟨m, hm, by rw [hfm]; exact hx0⟩
  · rintro ⟨m, hm, hfm⟩ h0
    rw [List.sum_eq_zero_iff] at h0
    exact hfm (h0 (f m) (List.mem_map_of_mem f hm))

/-- One node contributes to the assign counter exactly when it is a
non-variable assignment whose target slot names the variable. -/
theorem assignContrib_ne_iff (g : IGraph) (m vid : Nat) :
    assignContrib g m vid ≠ 0 ↔
      (!(g.node m).isVar && ((g.node m).op == "assign") &&
        (((g.node m).inputs.getD 0 default).node_id == vid)) = true := by
  unfold assignContrib
  by_cases hv : (g.node m).isVar = true
  · simp [hv]
  · have hv2 := Bool.eq_false_iff.mpr hv
    by_cases hph : ((g.node m).op == "placeholder") = true
    · have hop : (g.node m).op = "placeholder" := by simpa using hph
      simp [hv2, hph, hop]
    · have hph2 := Bool.eq_false_iff.mpr hph
      by_cases has : ((g.node m).op == "assign") = true
      · by_cases ht : (((g.node m).inputs.getD 0 default).node_id == vid) = true
        · simp [hv2, hph2, has, ht]
        · simp [hv2, hph2, has, Bool.eq_false_iff.mpr ht]
      · simp [hv2, hph2, Bool.eq_false_iff.mpr has]

/-- The closed-form assign count is non-zero exactly when the spec's
"assigned" wording holds. -/
theorem codeAssignCount_ne_iff (g : IGraph) (vid : Nat) :
    codeAssignCount g vid ≠ 0 ↔ specAssignedVar g vid = true := by
  unfold codeAssignCount specAssignedVar
  rw [sum_map_ne_zero_iff, List.any_eq_true]
  constructor
  · rintro ⟨m, hm, hfm⟩
    exact ⟨m, hm, (assignContrib_ne_iff g m vid).mp hfm⟩
  · rintro ⟨m, hm, hfm⟩
    exact ⟨m, hm, (assignContrib_ne_iff g m vid).mpr hfm⟩

/-- **C3** (amended).  For a well-formed graph (inputs point backwards)
a variable node ends up read-classified iff its closed-form read count
is non-zero — where an assignment contributes one read for its *target*
(slot 0) and nothing for its value input (slot 1), while any other
operation contributes one read per input occurrence — and
assign-classified iff some assignment targets it, which matches the
spec's "assigned" wording.  (The spec's "read" wording — consumed other
than through an assignment's target slot — is wrong on both sides of
the iff, see `claim_C3_cex`.) -/
theorem claim_C3 (execId : Nat) (sym : Symbol) (states : StateMap) (w : World)
    (e1 : TorchExecutor) (states1 : StateMap) (w1 : World) (nid : Nat)
    (h : TorchExecutor.Init execId sym states w = Except.ok (e1, states1, w1))
    (hwf : ∀ m, m < sym.graph.numNodes →
      ∀ ie ∈ (sym.graph.node m).inputs, ie.node_id < m)
    (hn : nid < sym.graph.numNodes)
    (hv : (sym.graph.node nid).isVar = true) :
    (nid ∈ e1.read_var_nids ↔ codeReadCount sym.graph nid ≠ 0) ∧
    (nid ∈ e1.assign_var_nids ↔ codeAssignCount sym.graph nid ≠ 0) ∧
    (codeAssignCount sym.graph nid ≠ 0 ↔ specAssignedVar sym.graph nid = true) := by
  simp only [TorchExecutor.Init] at h
  cases hfold : (revRange sym.graph.numNodes).foldlM (initStep sym.graph)
      { read_count := List.replicate sym.graph.numNodes 0
        assign_count := List.replicate sym.graph.numNodes 0
        node_states := List.replicate sym.graph.numNodes none
        states := states
        heap := w.varHeap } with
  | error m =>
    rw [hfold] at h
    simp only [except_bind_error] at h
    cases h
  | ok acc =>
    rw [hfold] at h
    simp only [except_bind_ok] at h
    have h2 := Except.ok.inj h
    have he := congrArg Prod.fst h2
    simp only [] at he
    have hread : e1.read_var_nids = acc.read_var_nids := by rw [← he]
    have hassign : e1.assign_var_nids = acc.assign_var_nids := by rw [← he]
    have hmem : nid ∈ revRange sym.graph.numNodes := by
      simpa [revRange] using List.mem_range.mpr hn
    have hwfL : ∀ m ∈ revRange sym.graph.numNodes,
        ∀ ie ∈ (sym.graph.node m).inputs, ie.node_id < m := by
      intro m hm
      exact hwf m (by simpa [revRange] using hm)
    have hiff := scanClassify sym.graph (revRange sym.graph.numNodes) hwfL _ acc hfold
      (revRange_pairwise _)
      (fun m hm => by
        have hlt : m < sym.graph.numNodes := by simpa [revRange] using hm
        simpa using hlt)
      rfl nid hmem hv
    have harity := scanAssignArity sym.graph (revRange sym.graph.numNodes) _ acc hfold
    have hvanR : ∀ x ∈ List.range sym.graph.numNodes,
        (fun m => decide (nid < m)) x = false → readContrib sym.graph x nid = 0 := by
      intro x hx hdec
      have hxn : x < sym.graph.numNodes := List.mem_range.mp hx
      have hxle : ¬nid < x := by simpa using hdec
      unfold readContrib
      by_cases hvx : (sym.graph.node x).isVar = true
      · simp [hvx]
      · have hvx2 := Bool.eq_false_iff.mpr hvx
        by_cases hphx : ((sym.graph.node x).op == "placeholder") = true
        · simp [hvx2, hphx]
        · have hphx2 := Bool.eq_false_iff.mpr hphx
          by_cases hasx : ((sym.graph.node x).op == "assign") = true
          · have har2 : (sym.graph.node x).inputs.length = 2 :=
              harity x (by simpa [revRange] using hxn) hvx2 hasx
            have htarget : (sym.graph.node x).inputs.getD 0 default
                ∈ (sym.graph.node x).inputs := by
              cases hinp : (sym.graph.node x).inputs with
              | nil => rw [hinp] at har2; cases har2
              | cons a rest => simp
            have hlt := hwf x hxn _ htarget
            have hne : ¬((sym.graph.node x).inputs[0]?.getD default).node_id = nid := by
              have h4 := hlt
              rw [List.getD_eq_getElem?_getD] at h4
              omega
            simp [hvx2, hphx2, hasx, hne]
          · have hasx2 := Bool.eq_false_iff.mpr hasx
            have hcount : (sym.graph.node x).inputs.countP
                (fun e => e.node_id == nid) = 0 := by
              rw [List.countP_eq_zero]
              intro e he
              have := hwf x hxn e he
              simp only [beq_iff_eq]
              omega
            simp [hvx2, hphx2, hasx2, hcount]
    have hvanA : ∀ x ∈ List.range sym.graph.numNodes,
        (fun m => decide (nid < m)) x = false → assignContrib sym.graph x nid = 0 := by
      intro x hx hdec
      have hxn : x < sym.graph.numNodes := List.mem_range.mp hx
      have hxle : ¬nid < x := by simpa using hdec
      unfold assignContrib
      by_cases hvx : (sym.graph.node x).isVar = true
      · simp [hvx]
      · have hvx2 := Bool.eq_false_iff.mpr hvx
        by_cases hphx : ((sym.graph.node x).op == "placeholder") = true
        · simp [hvx2, hphx]
        · have hphx2 := Bool.eq_false_iff.mpr hphx
          by_cases hasx : ((sym.graph.node x).op == "assign") = true
          · have har2 : (sym.graph.node x).inputs.length = 2 :=
              harity x (by simpa [revRange] using hxn) hvx2 hasx
            have htarget : (sym.graph.node x).inputs.getD 0 default
                ∈ (sym.graph.node x).inputs := by
              cases hinp : (sym.graph.node x).inputs with
              | nil => rw [hinp] at har2; cases har2
              | cons a rest => simp
            have hlt := hwf x hxn _ htarget
            have hne : ¬((sym.graph.node x).inputs[0]?.getD default).node_id = nid := by
              have h4 := hlt
              rw [List.getD_eq_getElem?_getD] at h4
              omega
            simp [hvx2, hphx2, hasx, hne]
          · simp [hvx2, hphx2, Bool.eq_false_iff.mpr hasx]
    have hsumR := revRange_filtered_sum sym.graph.numNodes _
      (fun m => readContrib sym.graph m nid) hvanR
    have hsumA := revRange_filtered_sum sym.graph.numNodes _
      (fun m => assignContrib sym.graph m nid) hvanA
    refine ⟨?_, ?_, codeAssignCount_ne_iff sym.graph nid⟩
    · rw [hread, hiff.1, hsumR]
      simp [codeReadCount, List.getD_eq_getElem?_getD, List.getElem?_replicate, hn]
    · rw [hassign, hiff.2, hsumA]
      simp [codeAssignCount, List.getD_eq_getElem?_getD, List.getElem?_replicate, hn]

/-- Fresh-executor construction for `symAsn` (`assign(v, w)`). -/
def initAsn : Except String (TorchExecutor × StateMap × World) :=
  TorchExecutor.Init 0 symAsn [] {}

/-- The executor `Init` built for `symAsn`. -/
def exAsn0 : TorchExecutor := (initOf initAsn).1

/-- The state map after `Init` for `symAsn`. -/
def stAsn0 : StateMap := (initOf initAsn).2.1

/-- The world after `Init` for `symAsn`. -/
def wAsn0 : World := (initOf initAsn).2.2

/-- `claim_C3` at variable `v` (node 0) of the concrete graph
`assign(v, w)`. -/
theorem claim_C3_witness :
    (0 ∈ exAsn0.read_var_nids ↔ codeReadCount gAsn 0 ≠ 0) ∧
    (0 ∈ exAsn0.assign_var_nids ↔ codeAssignCount gAsn 0 ≠ 0) ∧
    (codeAssignCount gAsn 0 ≠ 0 ↔ specAssignedVar gAsn 0 = true) :=
  claim_C3 0 symAsn [] {} exAsn0 stAsn0 wAsn0 0 rfl (by decide) (by decide) (by decide)

/-- Counterexample to C3's "read" wording on the concrete graph
`assign(v, w)`: the code classifies the assignment *target* `v` (node 0)
as read — though no node consumes `v` outside the target slot — and
does not classify the value input `w` (node 1) as read, though the
assignment consumes `w` through its non-target slot 1. -/
theorem claim_C3_cex :
    exAsn0.read_var_nids = [0] ∧ exAsn0.assign_var_nids = [0] ∧
    specReadVar gAsn 0 = false ∧ specReadVar gAsn 1 = true ∧
    1 ∉ exAsn0.read_var_nids :=
  ⟨rfl, rfl, rfl, rfl, by decide⟩

/-! ### Storage-pool sizing and entry aliasing -/

theorem getAttr_ok {α : Type} (a : Option α) (name : String) (v : α)
    (h : getAttr a name = Except.ok v) : a = some v := by
  cases a with
  | some x =>
    simp only [getAttr] at h
    cases h
    rfl
  | none =>
    simp only [getAttr] at h
    cases h

theorem getD_append_replicate_zero (acc : List Nat) (k j : Nat) :
    (acc ++ List.replicate k 0).getD j 0 = acc.getD j 0 := by
  rcases Nat.lt_or_ge j acc.length with hlt | hge
  · rw [List.getD_eq_getElem?_getD, List.getElem?_append_left hlt,
      ← List.getD_eq_getElem?_getD]
  · rw [List.getD_eq_getElem?_getD, List.getElem?_append_right hge,
      List.getElem?_replicate]
    rw [List.getD_eq_default acc 0 hge]
    split <;> rfl

/-- The maximum entry size assigned to one pool id by the sizing loop:
fold of `max` over the non-variable-backed entries carrying that id. -/
def poolMaxSize (vshape : List TShape) (vstorage : List Int) (dv : List Bool)
    (ids : List Nat) (sid : Nat) : Nat :=
  (ids.filter fun i => !dv.getD i false && (vstorage.getD i 0 == (sid : Int))).foldl
    (fun a i => max a (vshape.getD i []).size) 0

/-- The sizing loop computes, slot by slot, exactly the filtered `max`
fold. -/
theorem poolSizesLoop_getD (vshape : List TShape) (vstorage : List Int) (dv : List Bool) :
    ∀ (ids : List Nat) (acc psizes : List Nat),
      poolSizesLoop vshape vstorage dv ids acc = Except.ok psizes →
      ∀ sid, psizes.getD sid 0 =
        (ids.filter fun i => !dv.getD i false && (vstorage.getD i 0 == (sid : Int))).foldl
          (fun a i => max a (vshape.getD i []).size) (acc.getD sid 0) := by
  intro ids
  induction ids with
  | nil =>
    intro acc psizes h sid
    cases h
    rfl
  | cons i rest ih =>
    intro acc psizes h sid
    simp only [poolSizesLoop] at h
    by_cases hdv : dv.getD i false = true
    · rw [if_pos hdv] at h
      have hdvn := hdv
      rw [List.getD_eq_getElem?_getD] at hdvn
      rw [List.filter_cons_of_neg (by simp [hdvn])]
      exact ih acc psizes h sid
    · rw [if_neg hdv] at h
      have hdv2 : dv.getD i false = false := Bool.eq_false_iff.mpr hdv
      by_cases hneg : vstorage.getD i 0 < 0
      · rw [if_pos hneg] at h
        cases h
      · rw [if_neg hneg] at h
        have hres := ih _ psizes h sid
        by_cases hsid : (vstorage.getD i 0).toNat = sid
        · rw [hsid] at hres
          have hstoreq : vstorage.getD i 0 = (sid : Int) := by
            rw [← hsid]
            exact (Int.toNat_of_nonneg (not_lt.mp hneg)).symm
          have hdv2n := hdv2
          rw [List.getD_eq_getElem?_getD] at hdv2n
          have hstoreqn := hstoreq
          rw [List.getD_eq_getElem?_getD] at hstoreqn
          rw [List.filter_cons_of_pos (by simp [hdv2n, hstoreqn])]
          simp only [List.foldl_cons]
          rw [hres]
          have hstart : ((if acc.length ≤ sid then
                acc ++ List.replicate (sid + 1 - acc.length) 0 else acc).set sid
              (max ((if acc.length ≤ sid then
                acc ++ List.replicate (sid + 1 - acc.length) 0 else acc).getD sid 0)
                (vshape.getD i []).size)).getD sid 0
              = max (acc.getD sid 0) (vshape.getD i []).size := by
            by_cases hgrow : acc.length ≤ sid
            · rw [if_pos hgrow, getD_append_replicate_zero]
              refine getD_set_self _ _ _ _ ?_
              rw [List.length_append, List.length_replicate]
              omega
            · rw [if_neg hgrow]
              exact getD_set_self _ _ _ _ (by omega)
          rw [hstart]
        · have hsne : (vstorage.getD i 0 == (sid : Int)) = false := by
            rw [beq_eq_false_iff_ne]
            intro hx
            apply hsid
            rw [hx]
            exact Int.toNat_natCast sid
          have hsnen : ¬vstorage[i]?.getD 0 = ((sid : Int)) := by simpa using hsne
          rw [List.filter_cons_of_neg (by simp [hsnen])]
          rw [hres]
          have hstart : ((if acc.length ≤ (vstorage.getD i 0).toNat then
                acc ++ List.replicate ((vstorage.getD i 0).toNat + 1 - acc.length) 0
                else acc).set (vstorage.getD i 0).toNat
              (max ((if acc.length ≤ (vstorage.getD i 0).toNat then
                acc ++ List.replicate ((vstorage.getD i 0).toNat + 1 - acc.length) 0
                else acc).getD (vstorage.getD i 0).toNat 0)
                (vshape.getD i []).size)).getD sid 0 = acc.getD sid 0 := by
            rw [getD_set_ne _ _ _ _ _ hsid]
            by_cases hgrow : acc.length ≤ (vstorage.getD i 0).toNat
            · rw [if_pos hgrow, getD_append_replicate_zero]
            · rw [if_neg hgrow]
          rw [hstart]

/-- `allocPool` allocates the pool ids densely: one fresh storage per
size, in order, leaving tensors untouched. -/
theorem allocPool_spec (dev : Nat) :
    ∀ (psizes : List Nat) (b : Backend),
      (allocPool dev psizes b).1.length = psizes.length ∧
      (allocPool dev psizes b).2.tensors = b.tensors ∧
      (allocPool dev psizes b).2.storages =
        b.storages ++ psizes.map (fun sz => (⟨sz, dev, 0⟩ : StorageObj)) ∧
      (∀ j, j < psizes.length →
        (allocPool dev psizes b).1.getD j 0 = b.storages.length + j) := by
  intro psizes
  induction psizes with
  | nil =>
    intro b
    exact ⟨rfl, rfl, by simp [allocPool], fun j hj => absurd hj (by simp)⟩
  | cons sz rest ih =>
    intro b
    simp only [allocPool, Backend.newStorage]
    obtain ⟨hlen, htens, hstor, hgetD⟩ :=
      ih { b with storages := b.storages ++ [(⟨sz, dev, 0⟩ : StorageObj)] }
    refine ⟨by simp [hlen], htens, ?_, ?_⟩
    · rw [hstor]
      simp
    · intro j hj
      cases j with
      | zero => rfl
      | succ k =>
        have hk : k < rest.length := by simpa using hj
        rw [List.getD_cons_succ, hgetD k hk]
        simp only [List.length_append, List.length_cons, List.length_nil]
        omega

theorem allocEntries_spec (dev : Nat) :
    ∀ (n : Nat) (b : Backend),
      (allocEntries dev n b).1.length = n ∧
      (allocEntries dev n b).2.storages = b.storages := by
  intro n
  induction n with
  | zero =>
    intro b
    exact ⟨rfl, rfl⟩
  | succ k ih =>
    intro b
    simp only [allocEntries, Backend.newTensorEmpty]
    obtain ⟨hlen, hstor⟩ := ih { b with tensors := b.tensors ++ [⟨dev, 0, none⟩] }
    exact ⟨by simp [hlen], hstor⟩

theorem resetStorage_storages (b : Backend) (t st : Nat) (sh : TShape) :
    (b.resetStorage t st sh).storages = b.storages := by
  simp only [Backend.resetStorage]
  cases hg : b.tensors.get? t with
  | none => rfl
  | some tobj => rfl

theorem bindEntriesLoop_storages (vshape : List TShape) (vstorage : List Int)
    (dv : List Bool) (de : List (Option Nat)) (pool : List Nat) :
    ∀ (l : List Nat) (b b3 : Backend),
      bindEntriesLoop vshape vstorage dv de pool l b = Except.ok b3 →
      b3.storages = b.storages := by
  intro l
  induction l with
  | nil =>
    intro b b3 h
    cases h
    rfl
  | cons i rest ih =>
    intro b b3 h
    simp only [bindEntriesLoop] at h
    by_cases hdv : dv.getD i false = true
    · rw [if_pos hdv] at h
      exact ih b b3 h
    · rw [if_neg hdv] at h
      by_cases hneg : vstorage.getD i 0 < 0
      · rw [if_pos hneg] at h
        cases h
      · rw [if_neg hneg] at h
        simp only [vecAt] at h
        cases hp : pool.get? (vstorage.getD i 0).toNat with
        | none =>
          rw [hp] at h
          simp only [except_bind_error] at h
          cases h
        | some st =>
          rw [hp] at h
          simp only [except_bind_ok] at h
          cases hde : de.getD i none with
          | none =>
            rw [hde] at h
            simp only [] at h
            cases h
          | some t =>
            rw [hde] at h
            simp only [] at h
            rw [ih _ b3 h, resetStorage_storages]

/-- One output allocation step: the recursion continues on a backend
holding exactly one more storage. -/
theorem allocOutputs_cons (g : IGraph) (vshape : List TShape) (oe : IEntry)
    (rest : List IEntry) (b : Backend) :
    ∃ bmid, (allocOutputs g vshape (oe :: rest) b).2 =
      (allocOutputs g vshape rest bmid).2 ∧
      bmid.storages = b.storages ++
        [(⟨(vshape.getD (g.entryIdOf oe) []).size, kCPU, 0⟩ : StorageObj)] := by
  refine ⟨(((b.newTensorEmpty kCPU 0).2.newStorage
      (vshape.getD (g.entryIdOf oe) []).size kCPU 0).2.resetStorage
      (b.newTensorEmpty kCPU 0).1
      ((b.newTensorEmpty kCPU 0).2.newStorage
        (vshape.getD (g.entryIdOf oe) []).size kCPU 0).1
      (vshape.getD (g.entryIdOf oe) [])), rfl, ?_⟩
  rw [resetStorage_storages]
  rfl

theorem allocOutputs_storages (g : IGraph) (vshape : List TShape) :
    ∀ (outs : List IEntry) (b : Backend),
      ∃ extra, (allocOutputs g vshape outs b).2.storages = b.storages ++ extra := by
  intro outs
  induction outs with
  | nil =>
    intro b
    exact ⟨[], by simp [allocOutputs]⟩
  | cons oe rest ih =>
    intro b
    obtain ⟨bmid, heq, hmid⟩ := allocOutputs_cons g vshape oe rest b
    obtain ⟨extra, hextra⟩ := ih bmid
    refine ⟨[(⟨(vshape.getD (g.entryIdOf oe) []).size, kCPU, 0⟩ : StorageObj)] ++ extra, ?_⟩
    rw [heq, hextra, hmid, List.append_assoc]

theorem aliasInputNodes_len (e : TorchExecutor) (g : IGraph) (heap : List VarState) :
    ∀ (L : List Nat) (de : List (Option Nat)) (dv : List Bool)
      (de2 : List (Option Nat)) (dv2 : List Bool),
      aliasInputNodes e g heap L de dv = Except.ok (de2, dv2) →
      de2.length = de.length ∧ dv2.length = dv.length := by
  intro L
  induction L with
  | nil =>
    intro de dv de2 dv2 h
    cases h
    exact ⟨rfl, rfl⟩
  | cons hd rest ih =>
    intro de dv de2 dv2 h
    simp only [aliasInputNodes] at h
    cases hs : e.node_states.getD hd none with
    | none =>
      rw [hs] at h
      cases h
    | some sid =>
      rw [hs] at h
      simp only [] at h
      obtain ⟨h1, h2⟩ := ih _ _ de2 dv2 h
      rw [h1, h2, List.length_set, List.length_set]
      exact ⟨rfl, rfl⟩

theorem aliasInputNodes_preserve (e : TorchExecutor) (g : IGraph) (heap : List VarState) :
    ∀ (L : List Nat) (de : List (Option Nat)) (dv : List Bool)
      (de2 : List (Option Nat)) (dv2 : List Bool),
      aliasInputNodes e g heap L de dv = Except.ok (de2, dv2) →
      ∀ j, (∀ m ∈ L, g.entryId m 0 ≠ j) →
        de2.getD j none = de.getD j none ∧ dv2.getD j false = dv.getD j false := by
  intro L
  induction L with
  | nil =>
    intro de dv de2 dv2 h j _
    cases h
    exact ⟨rfl, rfl⟩
  | cons hd rest ih =>
    intro de dv de2 dv2 h j hne
    simp only [aliasInputNodes] at h
    cases hs : e.node_states.getD hd none with
    | none =>
      rw [hs] at h
      cases h
    | some sid =>
      rw [hs] at h
      simp only [] at h
      obtain ⟨h1, h2⟩ := ih _ _ de2 dv2 h j
        (fun m hm => hne m (List.mem_cons_of_mem hd hm))
      have hnehd : g.entryId hd 0 ≠ j := hne hd (List.mem_cons_self hd rest)
      rw [h1, h2, getD_set_ne _ _ _ _ _ hnehd, getD_set_ne _ _ _ _ _ hnehd]
      exact ⟨rfl, rfl⟩

/-- After the alias pass, each listed input node's entry slot holds its
`VarState` tensor and is marked variable-backed (entry ids assumed
injective over the list, as guaranteed by positive output counts). -/
theorem aliasInputNodes_getD (e : TorchExecutor) (g : IGraph) (heap : List VarState) :
    ∀ (L : List Nat) (de : List (Option Nat)) (dv : List Bool)
      (de2 : List (Option Nat)) (dv2 : List Bool),
      aliasInputNodes e g heap L de dv = Except.ok (de2, dv2) →
      ∀ nid ∈ L, L.Nodup →
        (∀ m ∈ L, m ≠ nid → g.entryId m 0 ≠ g.entryId nid 0) →
        g.entryId nid 0 < de.length → g.entryId nid 0 < dv.length →
        ∃ sid, e.node_states.getD nid none = some sid ∧
          de2.getD (g.entryId nid 0) none = (heap.getD sid default).tensor ∧
          dv2.getD (g.entryId nid 0) false = true := by
  intro L
  induction L with
  | nil =>
    intro de dv de2 dv2 _ nid hm
    exact absurd hm (List.not_mem_nil nid)
  | cons hd rest ih =>
    intro de dv de2 dv2 h nid hm hnd hinj hde hdv
    simp only [aliasInputNodes] at h
    cases hs : e.node_states.getD hd none with
    | none =>
      rw [hs] at h
      cases h
    | some sid =>
      rw [hs] at h
      simp only [] at h
      rcases List.mem_cons.mp hm with heq | hm2
      · subst heq
        refine ⟨sid, hs, ?_, ?_⟩
        · have hpres := (aliasInputNodes_preserve e g heap rest _ _ de2 dv2 h
            (g.entryId nid 0) ?mne).1
          case mne =>
            intro m hmr
            have hmne : m ≠ nid := by
              intro hx
              subst hx
              exact (List.nodup_cons.mp hnd).1 hmr
            exact hinj m (List.mem_cons_of_mem nid hmr) hmne
          rw [hpres, getD_set_self _ _ _ _ hde]
        · have hpres := (aliasInputNodes_preserve e g heap rest _ _ de2 dv2 h
            (g.entryId nid 0) ?mne2).2
          case mne2 =>
            intro m hmr
            have hmne : m ≠ nid := by
              intro hx
              subst hx
              exact (List.nodup_cons.mp hnd).1 hmr
            exact hinj m (List.mem_cons_of_mem nid hmr) hmne
          rw [hpres, getD_set_self _ _ _ _ hdv]
      · exact ih _ _ de2 dv2 h nid hm2 (List.nodup_cons.mp hnd).2
          (fun m hmr hmne => hinj m (List.mem_cons_of_mem hd hmr) hmne)
          (by rw [List.length_set]; exact hde)
          (by rw [List.length_set]; exact hdv)

theorem storages_getD_pool (bstor : List StorageObj) (psizes : List Nat) (dev : Nat)
    (extra : List StorageObj) (j : Nat) (hj : j < psizes.length) :
    (((bstor ++ psizes.map (fun sz => (⟨sz, dev, 0⟩ : StorageObj))) ++ extra).getD
      (bstor.length + j) default).size = psizes.getD j 0 := by
  rw [List.getD_eq_getElem?_getD]
  rw [List.getElem?_append_left (by rw [List.length_append, List.length_map]; omega)]
  rw [List.getElem?_append_right (by omega : bstor.length ≤ bstor.length + j)]
  have hsub : bstor.length + j - bstor.length = j := by omega
  rw [hsub, List.getElem?_map, List.getElem?_eq_getElem hj]
  simp [List.getD_eq_getElem?_getD, List.getElem?_eq_getElem hj]

/-- The detailed shape of a successful `SetupStorage`: the pool vector
is sized by the per-pool-id `max` fold, one dense fresh buffer is
allocated per pool id (each holding exactly that maximum size), and on
first allocation every input node's entry slot is aliased to its
`VarState` tensor and marked variable-backed. -/
theorem setupStorage_detail (env : PassEnv) (e e1 : TorchExecutor) (w w1 : World)
    (h : TorchExecutor.SetupStorage env e w = Except.ok (e1, w1)) :
    (∃ (psizes : List Nat) (nstor : Nat),
      (∀ sid, psizes.getD sid 0 = poolMaxSize (e.node_shape.getD [])
        (e1.storage_id.getD []) e1.data_entry_is_var
        (List.range (e.node_shape.getD []).length) sid) ∧
      e1.storage_pool.length = psizes.length ∧
      (∀ j, j < psizes.length → e1.storage_pool.getD j 0 = nstor + j) ∧
      (∀ j, j < psizes.length →
        (w1.backend.storages.getD (nstor + j) default).size = psizes.getD j 0)) ∧
    (e.data_entry = [] →
      e1.data_entry.length = e.graph.numEntries ∧
      ∀ nid ∈ e.graph.inputNodes,
        (∀ m ∈ e.graph.inputNodes, m ≠ nid →
          e.graph.entryId m 0 ≠ e.graph.entryId nid 0) →
        e.graph.entryId nid 0 < e.graph.numEntries →
        ∃ sid, e.node_states.getD nid none = some sid ∧
          e1.data_entry.getD (e.graph.entryId nid 0) none =
            (w.varHeap.getD sid default).tensor ∧
          e1.data_entry_is_var.getD (e.graph.entryId nid 0) false = true) := by
  have hndInputs : e.graph.inputNodes.Nodup :=
    (List.nodup_range e.graph.nodes.length).filter _
  simp only [TorchExecutor.SetupStorage] at h
  by_cases hp : (e.storage_pool.length == 0) = true
  · rw [if_pos hp] at h
    simp only [] at h
    cases hA : getAttr (some (env.planMemory e.graph (e.node_shape.getD [])
        (e.node_dtype.getD []))) "storage_id" with
    | error m => rw [hA] at h; simp only [except_bind_error] at h; cases h
    | ok vstorage =>
      have hv2 : env.planMemory e.graph (e.node_shape.getD []) (e.node_dtype.getD [])
          = vstorage := Except.ok.inj hA
      subst hv2
      rw [hA] at h
      simp only [except_bind_ok] at h
      cases hB : getAttr e.node_shape "shape" with
      | error m => rw [hB] at h; simp only [except_bind_error] at h; cases h
      | ok vshape =>
        have hnsh : e.node_shape = some vshape := getAttr_ok _ _ _ hB
        rw [hB] at h
        simp only [except_bind_ok] at h
        by_cases hde : (e.data_entry.length == 0) = true
        · rw [if_pos hde] at h
          cases hC : aliasInputNodes
              ({ e with storage_id := some (env.planMemory e.graph (e.node_shape.getD [])
                  (e.node_dtype.getD [])) } : TorchExecutor)
              e.graph w.varHeap e.graph.inputNodes
              (allocEntries e.dev_mask e.graph.numEntries w.backend).1
              (List.replicate e.graph.numEntries false) with
          | error m => rw [hC] at h; simp only [except_bind_error] at h; cases h
          | ok dedv =>
            rw [hC] at h
            simp only [except_bind_ok] at h
            cases hD : poolSizesLoop vshape
                (env.planMemory e.graph (e.node_shape.getD []) (e.node_dtype.getD []))
                dedv.2 (List.range vshape.length) [] with
            | error m => rw [hD] at h; simp only [except_bind_error] at h; cases h
            | ok psizes =>
              rw [hD] at h
              simp only [except_bind_ok] at h
              cases hE : bindEntriesLoop vshape
                  (env.planMemory e.graph (e.node_shape.getD []) (e.node_dtype.getD []))
                  dedv.2 dedv.1
                  (allocPool e.dev_mask psizes
                    (allocEntries e.dev_mask e.graph.numEntries w.backend).2).1
                  (List.range dedv.1.length)
                  (allocPool e.dev_mask psizes
                    (allocEntries e.dev_mask e.graph.numEntries w.backend).2).2 with
              | error m => rw [hE] at h; simp only [except_bind_error] at h; cases h
              | ok b3 =>
                rw [hE] at h
                simp only [except_bind_ok] at h
                cases h
                obtain ⟨hplen, hptens, hpstor, hpgetD⟩ := allocPool_spec e.dev_mask psizes
                  (allocEntries e.dev_mask e.graph.numEntries w.backend).2
                obtain ⟨helen, hestor⟩ :=
                  allocEntries_spec e.dev_mask e.graph.numEntries w.backend
                obtain ⟨hallen, _⟩ := aliasInputNodes_len _ e.graph w.varHeap
                  e.graph.inputNodes _ _ dedv.1 dedv.2
                  (by rw [← hC])
                constructor
                · refine ⟨psizes,
                    (allocEntries e.dev_mask e.graph.numEntries w.backend).2.storages.length,
                    ?_, hplen, hpgetD, ?_⟩
                  · intro sid
                    have := poolSizesLoop_getD vshape
                      (env.planMemory e.graph (e.node_shape.getD []) (e.node_dtype.getD []))
                      dedv.2 (List.range vshape.length) [] psizes hD sid
                    rw [hnsh] at this ⊢
                    exact this
                  · intro j hj
                    have hb3 := bindEntriesLoop_storages vshape
                      (env.planMemory e.graph (e.node_shape.getD []) (e.node_dtype.getD []))
                      dedv.2 dedv.1 _ (List.range dedv.1.length) _ b3 hE
                    obtain ⟨extra, hext⟩ :=
                      allocOutputs_storages e.graph vshape e.graph.outputs b3
                    show ((allocOutputs e.graph vshape e.graph.outputs b3).2.storages.getD
                      _ default).size = psizes.getD j 0
                    rw [hext, hb3, hpstor]
                    exact storages_getD_pool _ psizes e.dev_mask extra j hj
                · intro h0
                  constructor
                  · show dedv.1.length = e.graph.numEntries
                    rw [hallen, helen]
                  · intro nid hm hinj hlt
                    obtain ⟨sid, hsid, hde2, hdv2⟩ := aliasInputNodes_getD _ e.graph
                      w.varHeap e.graph.inputNodes _ _ dedv.1 dedv.2
                      (by rw [← hC]) nid hm hndInputs hinj
                      (by rw [helen]; exact hlt)
                      (by rw [List.length_replicate]; exact hlt)
                    exact ⟨sid, hsid, hde2, hdv2⟩
        · rw [if_neg hde] at h
          simp only [except_pure_eq, except_bind_ok] at h
          cases hD : poolSizesLoop vshape
              (env.planMemory e.graph (e.node_shape.getD []) (e.node_dtype.getD []))
              e.data_entry_is_var (List.range vshape.length) [] with
          | error m => rw [hD] at h; simp only [except_bind_error] at h; cases h
          | ok psizes =>
            rw [hD] at h
            simp only [except_bind_ok] at h
            cases hE : bindEntriesLoop vshape
                (env.planMemory e.graph (e.node_shape.getD []) (e.node_dtype.getD []))
                e.data_entry_is_var e.data_entry
                (allocPool e.dev_mask psizes w.backend).1
                (List.range e.data_entry.length)
                (allocPool e.dev_mask psizes w.backend).2 with
            | error m => rw [hE] at h; simp only [except_bind_error] at h; cases h
            | ok b3 =>
              rw [hE] at h
              simp only [except_bind_ok] at h
              cases h
              obtain ⟨hplen, hptens, hpstor, hpgetD⟩ :=
                allocPool_spec e.dev_mask psizes w.backend
              constructor
              · refine ⟨psizes, w.backend.storages.length, ?_, hplen, hpgetD, ?_⟩
                · intro sid
                  have := poolSizesLoop_getD vshape
                    (env.planMemory e.graph (e.node_shape.getD []) (e.node_dtype.getD []))
                    e.data_entry_is_var (List.range vshape.length) [] psizes hD sid
                  rw [hnsh] at this ⊢
                  exact this
                · intro j hj
                  have hb3 := bindEntriesLoop_storages vshape
                    (env.planMemory e.graph (e.node_shape.getD []) (e.node_dtype.getD []))
                    e.data_entry_is_var e.data_entry _ (List.range e.data_entry.length)
                    _ b3 hE
                  obtain ⟨extra, hext⟩ :=
                    allocOutputs_storages e.graph vshape e.graph.outputs b3
                  show ((allocOutputs e.graph vshape e.graph.outputs b3).2.storages.getD
                    _ default).size = psizes.getD j 0
                  rw [hext, hb3, hpstor]
                  exact storages_getD_pool _ psizes e.dev_mask extra j hj
              · intro h0
                have : (e.data_entry.length == 0) = true := by rw [h0]; rfl
                exact absurd this hde
  · rw [if_neg hp] at h
    simp only [] at h
    cases hA : getAttr e.storage_id "storage_id" with
    | error m => rw [hA] at h; simp only [except_bind_error] at h; cases h
    | ok vstorage =>
      have hsid2 : e.storage_id = some vstorage := getAttr_ok _ _ _ hA
      rw [hA] at h
      simp only [except_bind_ok] at h
      cases hB : getAttr e.node_shape "shape" with
      | error m => rw [hB] at h; simp only [except_bind_error] at h; cases h
      | ok vshape =>
        have hnsh : e.node_shape = some vshape := getAttr_ok _ _ _ hB
        rw [hB] at h
        simp only [except_bind_ok] at h
        by_cases hde : (e.data_entry.length == 0) = true
        · rw [if_pos hde] at h
          cases hC : aliasInputNodes e e.graph w.varHeap e.graph.inputNodes
              (allocEntries e.dev_mask e.graph.numEntries w.backend).1
              (List.replicate e.graph.numEntries false) with
          | error m => rw [hC] at h; simp only [except_bind_error] at h; cases h
          | ok dedv =>
            rw [hC] at h
            simp only [except_bind_ok] at h
            cases hD : poolSizesLoop vshape vstorage dedv.2
                (List.range vshape.length) [] with
            | error m => rw [hD] at h; simp only [except_bind_error] at h; cases h
            | ok psizes =>
              rw [hD] at h
              simp only [except_bind_ok] at h
              cases hE : bindEntriesLoop vshape vstorage dedv.2 dedv.1
                  (allocPool e.dev_mask psizes
                    (allocEntries e.dev_mask e.graph.numEntries w.backend).2).1
                  (List.range dedv.1.length)
                  (allocPool e.dev_mask psizes
                    (allocEntries e.dev_mask e.graph.numEntries w.backend).2).2 with
              | error m => rw [hE] at h; simp only [except_bind_error] at h; cases h
              | ok b3 =>
                rw [hE] at h
                simp only [except_bind_ok] at h
                cases h
                obtain ⟨hplen, hptens, hpstor, hpgetD⟩ := allocPool_spec e.dev_mask psizes
                  (allocEntries e.dev_mask e.graph.numEntries w.backend).2
                obtain ⟨helen, hestor⟩ :=
                  allocEntries_spec e.dev_mask e.graph.numEntries w.backend
                obtain ⟨hallen, _⟩ := aliasInputNodes_len e e.graph w.varHeap
                  e.graph.inputNodes _ _ dedv.1 dedv.2
                  (by rw [← hC])
                constructor
                · refine ⟨psizes,
                    (allocEntries e.dev_mask e.graph.numEntries w.backend).2.storages.length,
                    ?_, hplen, hpgetD, ?_⟩
                  · intro sid
                    have := poolSizesLoop_getD vshape vstorage dedv.2
                      (List.range vshape.length) [] psizes hD sid
                    rw [hnsh, hsid2]
                    exact this
                  · intro j hj
                    have hb3 := bindEntriesLoop_storages vshape vstorage dedv.2 dedv.1
                      _ (List.range dedv.1.length) _ b3 hE
                    obtain ⟨extra, hext⟩ :=
                      allocOutputs_storages e.graph vshape e.graph.outputs b3
                    show ((allocOutputs e.graph vshape e.graph.outputs b3).2.storages.getD
                      _ default).size = psizes.getD j 0
                    rw [hext, hb3, hpstor]
                    exact storages_getD_pool _ psizes e.dev_mask extra j hj
                · intro h0
                  constructor
                  · show dedv.1.length = e.graph.numEntries
                    rw [hallen, helen]
                  · intro nid hm hinj hlt
                    obtain ⟨sid, hsid, hde2, hdv2⟩ := aliasInputNodes_getD e e.graph
                      w.varHeap e.graph.inputNodes _ _ dedv.1 dedv.2
                      (by rw [← hC]) nid hm hndInputs hinj
                      (by rw [helen]; exact hlt)
                      (by rw [List.length_replicate]; exact hlt)
                    exact ⟨sid, hsid, hde2, hdv2⟩
        · rw [if_neg hde] at h
          simp only [except_pure_eq, except_bind_ok] at h
          cases hD : poolSizesLoop vshape vstorage e.data_entry_is_var
              (List.range vshape.length) [] with
          | error m => rw [hD] at h; simp only [except_bind_error] at h; cases h
          | ok psizes =>
            rw [hD] at h
            simp only [except_bind_ok] at h
            cases hE : bindEntriesLoop vshape vstorage e.data_entry_is_var e.data_entry
                (allocPool e.dev_mask psizes w.backend).1
                (List.range e.data_entry.length)
                (allocPool e.dev_mask psizes w.backend).2 with
            | error m => rw [hE] at h; simp only [except_bind_error] at h; cases h
            | ok b3 =>
              rw [hE] at h
              simp only [except_bind_ok] at h
              cases h
              obtain ⟨hplen, hptens, hpstor, hpgetD⟩ :=
                allocPool_spec e.dev_mask psizes w.backend
              constructor
              · refine ⟨psizes, w.backend.storages.length, ?_, hplen, hpgetD, ?_⟩
                · intro sid
                  have := poolSizesLoop_getD vshape vstorage e.data_entry_is_var
                    (List.range vshape.length) [] psizes hD sid
                  rw [hnsh, hsid2]
                  exact this
                · intro j hj
                  have hb3 := bindEntriesLoop_storages vshape vstorage
                    e.data_entry_is_var e.data_entry _ (List.range e.data_entry.length)
                    _ b3 hE
                  obtain ⟨extra, hext⟩ :=
                    allocOutputs_storages e.graph vshape e.graph.outputs b3
                  show ((allocOutputs e.graph vshape e.graph.outputs b3).2.storages.getD
                    _ default).size = psizes.getD j 0
                  rw [hext, hb3, hpstor]
                  exact storages_getD_pool _ psizes e.dev_mask extra j hj
              · intro h0
                have : (e.data_entry.length == 0) = true := by rw [h0]; rfl
                exact absurd this hde

/-- **C6** (confirmed).  For every pool id the planning pass assigned,
`SetupStorage` allocates one dedicated fresh buffer (pool id `sid` maps
to backend storage `nstor + sid`, all distinct), and that buffer's size
is the *maximum* — not the sum — of the sizes of the
non-variable-backed graph entries carrying that pool id
(`poolMaxSize`). -/
theorem claim_C6 (env : PassEnv) (e e1 : TorchExecutor) (w w1 : World)
    (h : TorchExecutor.SetupStorage env e w = Except.ok (e1, w1)) :
    ∃ nstor, ∀ sid, sid < e1.storage_pool.length →
      e1.storage_pool.getD sid 0 = nstor + sid ∧
      (w1.backend.storages.getD (nstor + sid) default).size =
        poolMaxSize (e.node_shape.getD []) (e1.storage_id.getD [])
          e1.data_entry_is_var (List.range (e.node_shape.getD []).length) sid := by
  obtain ⟨⟨psizes, nstor, hA, hB, hC, hD⟩, _⟩ := setupStorage_detail env e e1 w w1 h
  refine ⟨nstor, fun sid hsid => ?_⟩
  have hsid2 : sid < psizes.length := by rw [← hB]; exact hsid
  exact ⟨hC sid hsid2, by rw [hD sid hsid2, hA sid]⟩

/-- Project a `SetupStorage` result (for concrete scenarios). -/
def storOf (r : Except String (TorchExecutor × World)) : TorchExecutor × World :=
  match r with
  | Except.ok v => v
  | Except.error _ => default

/-- A concrete `SetupStorage` re-run on the post-first-run executor. -/
def storPh : Except String (TorchExecutor × World) :=
  TorchExecutor.SetupStorage env0 exPh1 wPh1

/-- `claim_C6` at the concrete `SetupStorage` re-run on the
`neg(placeholder x)` executor. -/
theorem claim_C6_witness :
    ∃ nstor, ∀ sid, sid < (storOf storPh).1.storage_pool.length →
      (storOf storPh).1.storage_pool.getD sid 0 = nstor + sid ∧
      ((storOf storPh).2.backend.storages.getD (nstor + sid) default).size =
        poolMaxSize (exPh1.node_shape.getD []) ((storOf storPh).1.storage_id.getD [])
          (storOf storPh).1.data_entry_is_var
          (List.range (exPh1.node_shape.getD []).length) sid :=
  claim_C6 env0 exPh1 (storOf storPh).1 wPh1 (storOf storPh).2 rfl

/-- **C10** (confirmed).  Once a `VarState` tensor handle is set,
`ResetSpace` never replaces it — not in one call, nor across any chain
of later reallocations — and a reallocation rebinds the *same* tensor
object onto the freshly allocated storage.  Consequently the entry
slots that `SetupStorage` aliases to variable tensors on first
allocation keep referencing the variable's live storage: on a fresh
setup each input node's slot is set to the variable's tensor handle,
and every later setup leaves the slots untouched (the alias is never
re-established). -/
theorem claim_C10 (s : VarState) (sh : TShape) (dv : Nat) (dt : Int) (b : Backend)
    (t : Nat) (env : PassEnv) (e e1 : TorchExecutor) (w w1 : World)
    (hts : s.tensor = some t)
    (hstor : TorchExecutor.SetupStorage env e w = Except.ok (e1, w1)) :
    (s.ResetSpace sh dv dt b).1.tensor = some t ∧
    (∀ s2, Relation.ReflTransGen varStep s s2 → s2.tensor = some t) ∧
    (t < b.tensors.length →
      (sh ≠ s.blob.shape ∨ dv ≠ s.blob.dev_mask ∨ dt ≠ s.blob.dtype) →
      ((s.ResetSpace sh dv dt b).2.tensors.get? t).map TensorObj.binding
        = some (some (b.storages.length, sh))) ∧
    (e.data_entry = [] →
      ∀ nid ∈ e.graph.inputNodes,
        (∀ m ∈ e.graph.inputNodes, m ≠ nid →
          e.graph.entryId m 0 ≠ e.graph.entryId nid 0) →
        e.graph.entryId nid 0 < e.graph.numEntries →
        ∃ sid, e.node_states.getD nid none = some sid ∧
          e1.data_entry.getD (e.graph.entryId nid 0) none =
            (w.varHeap.getD sid default).tensor ∧
          e1.data_entry_is_var.getD (e.graph.entryId nid 0) false = true) ∧
    (e.data_entry ≠ [] → e1.data_entry = e.data_entry) := by
  obtain ⟨_, hfresh⟩ := setupStorage_detail env e e1 w w1 hstor
  obtain ⟨_, _, _, _, _, _, _, _, _, _, _, _, _, _, _, _, _, _, hde⟩ :=
    setupStorage_frame env e e1 w w1 hstor
  refine ⟨(resetSpace_keeps_tensor s sh dv dt b t hts).1, ?_, ?_, ?_, ?_⟩
  · intro s2 hsteps
    exact varSteps_keeps_tensor t hsteps hts
  · intro hlt hcond
    exact resetSpace_rebinds s sh dv dt b t hts hlt hcond
  · intro h0
    exact fun nid hm hinj hltN => (hfresh h0).2 nid hm hinj hltN
  · intro h0
    exact (hde h0).1

/-- `claim_C10` at the concrete initialized state `vsC7` (requesting a
new shape `[3]`) and the concrete `SetupStorage` re-run on the
`neg(placeholder x)` executor. -/
theorem claim_C10_witness :
    (vsC7.ResetSpace [3] kCPU 0 bkC7).1.tensor = some 0 ∧
    (∀ s2, Relation.ReflTransGen varStep vsC7 s2 → s2.tensor = some 0) ∧
    (0 < bkC7.tensors.length →
      ([3] ≠ vsC7.blob.shape ∨ kCPU ≠ vsC7.blob.dev_mask ∨
        (0 : Int) ≠ vsC7.blob.dtype) →
      ((vsC7.ResetSpace [3] kCPU 0 bkC7).2.tensors.get? 0).map TensorObj.binding
        = some (some (bkC7.storages.length, [3]))) ∧
    (exPh1.data_entry = [] →
      ∀ nid ∈ exPh1.graph.inputNodes,
        (∀ m ∈ exPh1.graph.inputNodes, m ≠ nid →
          exPh1.graph.entryId m 0 ≠ exPh1.graph.entryId nid 0) →
        exPh1.graph.entryId nid 0 < exPh1.graph.numEntries →
        ∃ sid, exPh1.node_states.getD nid none = some sid ∧
          (storOf storPh).1.data_entry.getD (exPh1.graph.entryId nid 0) none =
            (wPh1.varHeap.getD sid default).tensor ∧
          (storOf storPh).1.data_entry_is_var.getD (exPh1.graph.entryId nid 0) false
            = true) ∧
    (exPh1.data_entry ≠ [] → (storOf storPh).1.data_entry = exPh1.data_entry) :=
  claim_C10 vsC7 [3] kCPU 0 bkC7 0 env0 exPh1 (storOf storPh).1 wPh1
    (storOf storPh).2 rfl rfl

end Tinyflow
